import Mathlib

/-!
Verification development for the skill-maintainer change-detection core:
a shallow embedding of `docs_monitor.py`, `source_monitor.py` and `store.py`
(the DuckDB-backed dimensional store), together with theorems about the
properties of the embedded functions.

Modelling conventions:
* MD5 surrogate keys (`_hash_key`) are modelled by the natural-key tuple
  itself (`List String`); MD5 is assumed collision-free on these tuples, so
  two surrogate keys are equal exactly when the natural keys are.
* `_hash_diff` fingerprints are modelled by the exact serialization string
  that the code feeds to MD5 (`"k=v|k=v"`, keys sorted); MD5 on strings is
  assumed injective, so equality of these model fingerprints coincides with
  equality of the real digests.  Note that distinct attribute pairs can
  serialize to the same string (separator injection); the model keeps this
  behaviour of the code.
* SHA-256 content digests are modelled by an injective tagged string.
* Timestamps are a logical clock (`Nat`); every state-changing operation
  takes the current time as an argument (the code uses `current_timestamp`).
* Network and filesystem effects (HEAD probe, bundle GET, local file read,
  git output) are inputs to the embedded functions.
* Fallible store writes (`raise ValueError`) are modelled with `Except`.
-/

namespace SkillMaintainer

/-! ## Python string helpers -/

/-- Python `str(bool)`: capitalized. -/
def pyBoolStr (b : Bool) : String := if b then "True" else "False"

/-- Python `a or b` for strings (empty string is falsy). -/
def pyOr (a b : String) : String := if a == "" then b else a

/-- Python `d.get(k) or ""`-style coercion of an optional string. -/
def optStr (o : Option String) : String := o.getD ""

/-! Kernel-computable replacements for the `String` primitives whose core
implementations do not reduce in the kernel (they are extensionally the
standard operations, defined over the character list). -/

/-- `String.startsWith`, via the character list. -/
def strStartsWith (s p : String) : Bool := p.data.isPrefixOf s.data

/-- `String.endsWith`, via the character list. -/
def strEndsWith (s p : String) : Bool := p.data.reverse.isPrefixOf s.data.reverse

/-- ASCII `Char.toLower`. -/
def charToLower (c : Char) : Char :=
  if 65 ≤ c.toNat ∧ c.toNat ≤ 90 then Char.ofNat (c.toNat + 32) else c

/-- `str.lower()` (the contents in play are ASCII). -/
def strToLower (s : String) : String := ⟨s.data.map charToLower⟩

/-- Python `str.strip()` (the whitespace set in play is space/tab/CR/LF). -/
def pyStrip (s : String) : String :=
  ⟨((s.data.dropWhile Char.isWhitespace).reverse.dropWhile Char.isWhitespace).reverse⟩

/-- Structural worker for `strSplitOn`; the fuel starts at the list length,
which each step decrements while consuming at least one character, so the
zero-fuel default is never reached. -/
def splitOnFuel (sep : List Char) : Nat → List Char → List Char → List (List Char)
  | _, [], acc => [acc.reverse]
  | 0, l, acc => [acc.reverse ++ l]
  | fuel + 1, c :: rest, acc =>
    if sep.isPrefixOf (c :: rest) then
      acc.reverse :: splitOnFuel sep fuel (rest.drop (sep.length - 1)) []
    else splitOnFuel sep fuel rest (c :: acc)

/-- Python `s.split(sep)` for an explicit separator (consecutive separators
yield empty pieces; an empty input gives `[""]`). -/
def strSplitOn (s sep : String) : List String :=
  match sep.data with
  | [] => [s]
  | _ => (splitOnFuel sep.data s.data.length s.data []).map (fun l => String.mk l)

/-- Substring test, Python `needle in hay` (for nonempty `needle`). -/
def containsSub (hay needle : String) : Bool := (strSplitOn hay needle).length != 1

/-- Python `str.splitlines` restricted to `\n` separators: splits at each
newline and drops a trailing empty piece; the empty string gives `[]`. -/
def splitlines (s : String) : List String :=
  if s == "" then []
  else
    let parts := strSplitOn s "\n"
    if strEndsWith s "\n" then parts.dropLast else parts

/-! ## docs_monitor.py: layer 1 (DETECT) -/

/-- Stored/new watermark dictionary (`last_modified`, `etag`, `last_checked`);
a missing key reads as `""` via `.get(..., "")`. -/
structure Watermark where
  last_modified : String := ""
  etag : String := ""
  last_checked : String := ""
deriving Repr, DecidableEq, Inhabited

/-- Outcome of the HEAD probe in `detect_change`: any exception (unreachable
host, timeout, non-2xx status) is `fail`; otherwise the two header values,
`""` when a header is absent. -/
inductive ProbeResult where
  | fail
  | ok (last_modified etag : String)
deriving Repr, DecidableEq

/-- Embeds `docs_monitor.detect_change`: the HTTP probe is the `probe`
argument, `nowIso` stands for `_now_iso()`. -/
def detect_change (probe : ProbeResult) (stored_watermark : Watermark)
    (nowIso : String) : Bool × Watermark :=
  match probe with
  | .fail => (true, stored_watermark)
  | .ok last_modified etag =>
    let new_watermark : Watermark :=
      { last_modified := last_modified, etag := etag, last_checked := nowIso }
    if last_modified == "" && etag == "" then (true, new_watermark)
    else
      ((last_modified != stored_watermark.last_modified)
        || (etag != stored_watermark.etag), new_watermark)

/-! ## docs_monitor.py: layer 2 (IDENTIFY) -/

/-- SHA-256 digests are modelled as injective tagged strings
(collision-freeness of SHA-256 assumed); digests are never `""`. -/
def sha256 (s : String) : String := "sha256:" ++ s

/-- The first line of the lookahead in `_PAGE_SPLIT`: `# .+` anchored at a
line start. -/
def isHeadingLine (l : String) : Bool := strStartsWith l "# " && l.length > 2

/-- The second line of the lookahead in `_PAGE_SPLIT`: `Source: https?://`. -/
def isSourceUrlLine (l : String) : Bool :=
  strStartsWith l "Source: http://" || strStartsWith l "Source: https://"

/-- Splits a line list at every position where a heading line is immediately
followed by a `Source:` URL line, mirroring `re.split` on the multiline
lookahead `_PAGE_SPLIT` (the possibly-empty prefix section is kept, as
`re.split` keeps it). -/
def chopSections (cur : List String) : List String → List (List String)
  | [] => [cur.reverse]
  | [l] => [(l :: cur).reverse]
  | l :: l2 :: rest =>
    if isHeadingLine l && isSourceUrlLine l2 then
      cur.reverse :: chopSections [l] (l2 :: rest)
    else
      chopSections (l :: cur) (l2 :: rest)

/-- Python `s.split("\n", 2)`. -/
def splitN2 (s : String) : List String :=
  match strSplitOn s "\n" with
  | [] => [s]
  | [a] => [a]
  | [a, b] => [a, b]
  | a :: b :: rest => [a, b, "\n".intercalate rest]

/-- Parses one section of the bundle: strip, take the first two lines, check
the second starts with `"Source: "`, return `(url, content)`. -/
def parseSection (secStr : String) : Option (String × String) :=
  match splitN2 (pyStrip secStr) with
  | [_] => none
  | [_, b] =>
    if strStartsWith b "Source: " then some (pyStrip (b.drop 8), "") else none
  | [_, b, c] =>
    if strStartsWith b "Source: " then some (pyStrip (b.drop 8), pyStrip c) else none
  | _ => none

/-- Insert-or-overwrite into an insertion-ordered association list, the
semantics of `pages[url] = content` on a Python dict. -/
def dictInsert (k v : String) (d : List (String × String)) :
    List (String × String) :=
  if d.any (fun p => p.1 == k) then
    d.map (fun p => if p.1 == k then (k, v) else p)
  else d ++ [(k, v)]

/-- Embeds `docs_monitor._parse_llms_full`: split the bundle text into
sections and build the `{source_url: page_content}` dict. -/
def parse_llms_full (text : String) : List (String × String) :=
  (chopSections [] (strSplitOn text "\n")).foldl
    (fun d sec =>
      match parseSection ("\n".intercalate sec) with
      | some uc => dictInsert uc.1 uc.2 d
      | none => d) []

/-- One stored page entry (`{hash, content_preview, ...}`), as handed to
`identify_changes`; a missing url reads as `{}`, so fields default to `""`. -/
structure StoredPage where
  hash : String := ""
  content_preview : String := ""
deriving Repr, DecidableEq, Inhabited

/-- One change dict produced by `identify_changes`. -/
structure PageChange where
  url : String
  old_hash : String
  new_hash : String
  old_content : String
  new_content : String
  content_preview : String
deriving Repr, DecidableEq, Inhabited

/-- Lookup `stored_pages.get(url, {})`. -/
def lookupStored (stored_pages : List (String × StoredPage)) (u : String) :
    StoredPage :=
  ((stored_pages.find? (fun p => p.1 == u)).map (fun p => p.2)).getD {}

/-- Embeds `docs_monitor.identify_changes`; the fetched bundle body is the
`bundleText` argument (the GET itself, and its failure mode, live in the
orchestrator). -/
def identify_changes (bundleText : String) (watched_pages : List String)
    (stored_pages : List (String × StoredPage)) : List PageChange :=
  let all_pages := parse_llms_full bundleText
  let pages :=
    if watched_pages.isEmpty then all_pages
    else all_pages.filter (fun p => watched_pages.contains p.1)
  pages.filterMap (fun p =>
    let page_hash := sha256 p.2
    let old := lookupStored stored_pages p.1
    if page_hash != old.hash then
      some { url := p.1, old_hash := old.hash, new_hash := page_hash,
             old_content := old.content_preview, new_content := p.2,
             content_preview := p.2.take 3000 }
    else none)

/-! ## docs_monitor.py: layer 3 (CLASSIFY) -/

def CHANGE_KEYWORDS_BREAKING : List String :=
  ["removed", "breaking", "deprecated", "no longer", "must now",
   "required", "mandatory"]

def CHANGE_KEYWORDS_ADDITIVE : List String :=
  ["new", "added", "now supports", "introducing", "optional",
   "can now", "also"]

/-- The joined, lower-cased symmetric line-set difference that
`classify_change` scans.  CPython joins the set in hash order; the model
fixes the order (new-only lines first, then old-only lines, first
occurrences) — every claim settled here is insensitive to this order. -/
def diffText (old_content new_content : String) : String :=
  let old_lines := splitlines old_content
  let new_lines := splitlines new_content
  let onlyNew := (new_lines.filter (fun l => !(old_lines.contains l))).dedup
  let onlyOld := (old_lines.filter (fun l => !(new_lines.contains l))).dedup
  strToLower (" ".intercalate (onlyNew ++ onlyOld))

/-- Embeds `docs_monitor.classify_change`. -/
def classify_change (old_content new_content : String) : String :=
  if old_content == "" then "ADDITIVE"
  else
    let d := diffText old_content new_content
    if CHANGE_KEYWORDS_BREAKING.any (fun kw => containsSub d kw) then "BREAKING"
    else if CHANGE_KEYWORDS_ADDITIVE.any (fun kw => containsSub d kw) then
      "ADDITIVE"
    else "COSMETIC"

/-- Embeds `docs_monitor.diff_summary`. -/
def diff_summary (old_content new_content : String) : String :=
  if old_content == "" then "initial capture"
  else
    let old_lines := splitlines old_content
    let new_lines := splitlines new_content
    let added := ((new_lines.filter (fun l => !(old_lines.contains l))).dedup).length
    let removed := ((old_lines.filter (fun l => !(new_lines.contains l))).dedup).length
    "+" ++ toString added ++ " -" ++ toString removed ++ " lines"

/-- One local-file change dict from `check_local_file`. -/
structure LocalFileChange where
  url : String
  old_hash : String
  new_hash : String
  classification : String
  summary : String
deriving Repr, DecidableEq, Inhabited

/-- Embeds `docs_monitor.check_local_file`; the file read is the
`fileContents` argument, `none` when the file does not exist. -/
def check_local_file (filePath : String) (fileContents : Option String)
    (stored_hash : String) : Option LocalFileChange :=
  match fileContents with
  | none => none
  | some bytes =>
    let new_hash := sha256 bytes
    if new_hash == stored_hash then none
    else
      some { url := "file://" ++ filePath, old_hash := stored_hash,
             new_hash := new_hash, classification := "ADDITIVE",
             summary := if stored_hash != "" then "local file changed"
                        else "initial capture" }

/-! ## source_monitor.py: batch classification -/

def DEPRECATION_KEYWORDS : List String :=
  ["deprecat", "removed", "breaking", "rename", "replace",
   "migrate", "backward compat", "backwards compat"]

/-- Commit metadata as parsed by `get_recent_commits` (fields used by the
classification). -/
structure Commit where
  hash : String
  subject : String
deriving Repr, DecidableEq, Inhabited

/-- Embeds `source_monitor.check_deprecations`. -/
def check_deprecations (commits : List Commit) : List String :=
  commits.filterMap (fun c =>
    if DEPRECATION_KEYWORDS.any (fun kw => containsSub (strToLower c.subject) kw) then
      some ("  - [" ++ c.hash ++ "] " ++ c.subject)
    else none)

/-- Embeds `source_monitor.analyze_watched_files` restricted to the file
names that were hit (the per-file public-API summary it also extracts reads
the cloned filesystem and plays no role in the batch classification). -/
def analyze_watched_files (watched_files changed_files : List String) :
    List String :=
  watched_files.filter (fun wf => changed_files.contains wf)

/-- The batch-classification block of `source_monitor.check_source`
(lines 216-224): deprecation keywords in any commit subject win, then
watched-file hits, then any commit at all, else NONE. -/
def classify_batch (commits : List Commit) (changed_files watched_files : List String) :
    String :=
  if !(check_deprecations commits).isEmpty then "BREAKING"
  else if !(analyze_watched_files watched_files changed_files).isEmpty then
    "ADDITIVE"
  else if !commits.isEmpty then "COSMETIC"
  else "NONE"

/-! ## store.py: keys and fingerprints -/

/-- MD5 surrogate keys (`_hash_key`) modelled as the natural-key tuple. -/
abbrev Key := List String

/-- `_hash_key(name)`. -/
def hash_key1 (name : String) : Key := [name]

/-- `_hash_key(source_key, page_url)` (the first component is itself a
surrogate key). -/
def hash_key2 (source_key : Key) (s : String) : Key := source_key ++ [s]

/-- `_hash_diff(source_type=..., url=...)`: the sorted `k=v|k=v`
serialization the code feeds to MD5 (both values are never `None`). -/
def sourceHashDiff (source_type url : String) : String :=
  "source_type=" ++ source_type ++ "|url=" ++ url

/-- `_hash_diff(skill_path=..., auto_update=str(...))`: sorted keys put
`auto_update` first. -/
def skillHashDiff (skill_path : String) (auto_update : Bool) : String :=
  "auto_update=" ++ pyBoolStr auto_update ++ "|skill_path=" ++ skill_path

/-! ## store.py: configuration document -/

/-- One `sources:` entry of config.yaml, as read by `_sync_dimensions`
(`src.get(...)`; an absent key is `none`). -/
structure SourceCfg where
  type : Option String := none
  llms_full_url : Option String := none
  repo : Option String := none
  hash_file : Option String := none
  pages : List String := []
deriving Repr, DecidableEq, Inhabited

/-- One `skills:` entry of config.yaml. -/
structure SkillCfg where
  path : String := ""
  auto_update : Bool := false
  sources : List String := []
deriving Repr, DecidableEq, Inhabited

/-- The configuration document (dicts modelled as insertion-ordered lists;
names are the dict keys, hence distinct). -/
structure Config where
  sources : List (String × SourceCfg) := []
  skills : List (String × SkillCfg) := []
deriving Repr, DecidableEq, Inhabited

/-- `src.get("llms_full_url") or src.get("repo") or src.get("hash_file", "")`. -/
def cfgUrl (c : SourceCfg) : String :=
  pyOr (optStr c.llms_full_url) (pyOr (optStr c.repo) (optStr c.hash_file))

/-- `src.get("type", "docs")`. -/
def cfgSourceType (c : SourceCfg) : String := c.type.getD "docs"

/-- The `hash_diff` computed for a source config entry. -/
def cfgSrcDiff (c : SourceCfg) : String :=
  sourceHashDiff (cfgSourceType c) (cfgUrl c)

/-- The `hash_diff` computed for a skill config entry. -/
def cfgSkillDiff (c : SkillCfg) : String := skillHashDiff c.path c.auto_update

/-! ## store.py: dimension rows and fact rows -/

/-- A `dim_source` row. -/
structure SourceRow where
  hash_key : Key
  source_name : String
  source_type : String
  url : String
  effective_from : Nat
  effective_to : Option Nat := none
  is_current : Bool := true
  hash_diff : String
  record_source : String := "config_sync"
  created_at : Nat
  session_id : Option String := none
  last_verified_at : Option Nat := none
deriving Repr, DecidableEq, Inhabited

/-- A `dim_skill` row. -/
structure SkillRow where
  hash_key : Key
  skill_name : String
  skill_path : String
  auto_update : Bool
  effective_from : Nat
  effective_to : Option Nat := none
  is_current : Bool := true
  hash_diff : String
  record_source : String := "config_sync"
  created_at : Nat
  session_id : Option String := none
  last_verified_at : Option Nat := none
deriving Repr, DecidableEq, Inhabited

/-- A `dim_page` row. -/
structure PageRow where
  hash_key : Key
  source_key : Key
  url : String
  effective_from : Nat
  effective_to : Option Nat := none
  is_current : Bool := true
  record_source : String := "config_sync"
  created_at : Nat
deriving Repr, DecidableEq, Inhabited

/-- A `skill_source_dep` row. -/
structure DepRow where
  skill_key : Key
  source_key : Key
  effective_from : Nat
  effective_to : Option Nat := none
  is_current : Bool := true
  record_source : String := "config_sync"
  created_at : Nat
deriving Repr, DecidableEq, Inhabited

/-- A `fact_watermark_check` row. -/
structure WatermarkFact where
  source_key : Key
  checked_at : Nat
  last_modified : String
  etag : String
  changed : Bool
  inserted_at : Nat
  record_source : String := "docs_monitor"
  session_id : Option String := none
deriving Repr, DecidableEq, Inhabited

/-- A `fact_change` row (`NULL` text columns are conflated with `""`, as the
accessors do via `row or ""`). -/
structure ChangeFact where
  source_key : Key
  page_key : Option Key := none
  detected_at : Nat
  classification : String
  old_hash : String := ""
  new_hash : String := ""
  summary : String := ""
  content_preview : String := ""
  commit_hash : Option String := none
  commit_count : Option Nat := none
  inserted_at : Nat
  record_source : String
  session_id : Option String := none
deriving Repr, DecidableEq, Inhabited

/-- A `fact_validation` row (the JSON-encoded error/warning bodies are kept
as the lists they encode). -/
structure ValidationFact where
  skill_key : Key
  validated_at : Nat
  is_valid : Bool
  error_count : Nat
  warning_count : Nat
  errors : List String
  warnings : List String
  trigger : String
  inserted_at : Nat
  record_source : String := "validate_skill"
  session_id : Option String := none
deriving Repr, DecidableEq, Inhabited

/-- A `fact_update_attempt` row. -/
structure UpdateAttemptFact where
  skill_key : Key
  attempted_at : Nat
  mode : String
  status : String
  changes_applied : Nat
  backup_path : String
  inserted_at : Nat
  record_source : String := "apply_updates"
  session_id : Option String := none
deriving Repr, DecidableEq, Inhabited

/-- A `fact_content_measurement` row. -/
structure MeasurementFact where
  skill_key : Key
  file_path : String
  file_type : String
  measured_at : Nat
  line_count : Nat
  word_count : Nat
  char_count : Nat
  estimated_tokens : Nat
  content_hash : String
  inserted_at : Nat
  record_source : String := "measure_content"
  session_id : Option String := none
deriving Repr, DecidableEq, Inhabited

/-- The store state: the dimension and fact tables touched by the claims
(`fact_session_event` and the meta tables carry no claim content). -/
structure StoreState where
  dim_source : List SourceRow := []
  dim_skill : List SkillRow := []
  dim_page : List PageRow := []
  skill_source_dep : List DepRow := []
  fact_watermark_check : List WatermarkFact := []
  fact_change : List ChangeFact := []
  fact_validation : List ValidationFact := []
  fact_update_attempt : List UpdateAttemptFact := []
  fact_content_measurement : List MeasurementFact := []
deriving Repr, DecidableEq, Inhabited

def emptyStore : StoreState := {}

/-! ## store.py: `_sync_dimensions` (SCD Type 2)

The Python loop interleaves `dim_source` updates, `dim_page` ensures,
`dim_skill` updates and `skill_source_dep` inserts; each of those only reads
and writes its own table, so the sync is defined as four independent folds
(one per table) over the same configuration, which yields the same final
state as the interleaved loop. -/

/-- `SELECT hash_diff FROM dim_source WHERE hash_key = ? AND is_current`. -/
def findCurrentSource (hk : Key) (rows : List SourceRow) : Option SourceRow :=
  rows.find? (fun r => r.hash_key == hk && r.is_current)

/-- `UPDATE dim_source SET last_verified_at = now WHERE hash_key AND is_current`. -/
def touchSources (now : Nat) (hk : Key) (rows : List SourceRow) : List SourceRow :=
  rows.map (fun r =>
    if r.hash_key == hk && r.is_current then { r with last_verified_at := some now }
    else r)

/-- `UPDATE dim_source SET effective_to = now, is_current = FALSE WHERE ...`. -/
def closeSources (now : Nat) (hk : Key) (rows : List SourceRow) : List SourceRow :=
  rows.map (fun r =>
    if r.hash_key == hk && r.is_current then
      { r with effective_to := some now, is_current := false }
    else r)

/-- The freshly inserted `dim_source` row for a config entry. -/
def newSourceRow (now : Nat) (name : String) (c : SourceCfg) : SourceRow :=
  { hash_key := hash_key1 name, source_name := name,
    source_type := cfgSourceType c, url := cfgUrl c,
    effective_from := now, hash_diff := cfgSrcDiff c, created_at := now }

/-- The `dim_source` part of one iteration of the sources loop. -/
def syncOneSource (now : Nat) (name : String) (c : SourceCfg)
    (rows : List SourceRow) : List SourceRow :=
  match findCurrentSource (hash_key1 name) rows with
  | some existing =>
    if existing.hash_diff != cfgSrcDiff c then
      closeSources now (hash_key1 name) rows ++ [newSourceRow now name c]
    else
      touchSources now (hash_key1 name) rows
  | none => rows ++ [newSourceRow now name c]

def syncSourcesDim (now : Nat) (srcs : List (String × SourceCfg))
    (rows : List SourceRow) : List SourceRow :=
  srcs.foldl (fun rs nc => syncOneSource now nc.1 nc.2 rs) rows

/-- `SELECT 1 FROM dim_page WHERE hash_key = ? AND is_current` is some row. -/
def pageExists (hk : Key) (pages : List PageRow) : Bool :=
  pages.any (fun p => p.hash_key == hk && p.is_current)

/-- Embeds `Store._ensure_page` (returns the updated table; the returned
hash key is `hash_key2 source_key page_url`). -/
def ensurePage (now : Nat) (source_key : Key) (page_url : String)
    (pages : List PageRow) : List PageRow :=
  if pageExists (hash_key2 source_key page_url) pages then pages
  else
    pages ++ [{ hash_key := hash_key2 source_key page_url,
                source_key := source_key, url := page_url,
                effective_from := now, created_at := now }]

/-- The `_ensure_page` calls the sources loop makes, in order: for each
source with `src.get("type") == "docs"` and a truthy `pages` list. -/
def pageCalls (srcs : List (String × SourceCfg)) : List (Key × String) :=
  srcs.flatMap (fun nc =>
    if nc.2.type == some "docs" && !nc.2.pages.isEmpty then
      nc.2.pages.map (fun u => (hash_key1 nc.1, u))
    else [])

def ensurePages (now : Nat) (calls : List (Key × String))
    (pages : List PageRow) : List PageRow :=
  calls.foldl (fun ps c => ensurePage now c.1 c.2 ps) pages

/-- Skill analogues of the source helpers. -/
def findCurrentSkill (hk : Key) (rows : List SkillRow) : Option SkillRow :=
  rows.find? (fun r => r.hash_key == hk && r.is_current)

def touchSkills (now : Nat) (hk : Key) (rows : List SkillRow) : List SkillRow :=
  rows.map (fun r =>
    if r.hash_key == hk && r.is_current then { r with last_verified_at := some now }
    else r)

def closeSkills (now : Nat) (hk : Key) (rows : List SkillRow) : List SkillRow :=
  rows.map (fun r =>
    if r.hash_key == hk && r.is_current then
      { r with effective_to := some now, is_current := false }
    else r)

def newSkillRow (now : Nat) (name : String) (c : SkillCfg) : SkillRow :=
  { hash_key := hash_key1 name, skill_name := name, skill_path := c.path,
    auto_update := c.auto_update, effective_from := now,
    hash_diff := cfgSkillDiff c, created_at := now }

def syncOneSkill (now : Nat) (name : String) (c : SkillCfg)
    (rows : List SkillRow) : List SkillRow :=
  match findCurrentSkill (hash_key1 name) rows with
  | some existing =>
    if existing.hash_diff != cfgSkillDiff c then
      closeSkills now (hash_key1 name) rows ++ [newSkillRow now name c]
    else
      touchSkills now (hash_key1 name) rows
  | none => rows ++ [newSkillRow now name c]

def syncSkillsDim (now : Nat) (skills : List (String × SkillCfg))
    (rows : List SkillRow) : List SkillRow :=
  skills.foldl (fun rs nc => syncOneSkill now nc.1 nc.2 rs) rows

/-- `SELECT 1 FROM skill_source_dep WHERE ... AND is_current` is some row. -/
def depExists (sk srck : Key) (deps : List DepRow) : Bool :=
  deps.any (fun d => d.skill_key == sk && d.source_key == srck && d.is_current)

def ensureDep (now : Nat) (sk srck : Key) (deps : List DepRow) : List DepRow :=
  if depExists sk srck deps then deps
  else deps ++ [{ skill_key := sk, source_key := srck,
                  effective_from := now, created_at := now }]

/-- The dependency inserts of the skills loop, in order. -/
def depCalls (skills : List (String × SkillCfg)) : List (Key × Key) :=
  skills.flatMap (fun nc =>
    nc.2.sources.map (fun s => (hash_key1 nc.1, hash_key1 s)))

def ensureDeps (now : Nat) (calls : List (Key × Key)) (deps : List DepRow) :
    List DepRow :=
  calls.foldl (fun ds c => ensureDep now c.1 c.2 ds) deps

/-- Embeds `Store._sync_dimensions`. -/
def syncDimensions (cfg : Config) (now : Nat) (st : StoreState) : StoreState :=
  { st with
    dim_source := syncSourcesDim now cfg.sources st.dim_source,
    dim_page := ensurePages now (pageCalls cfg.sources) st.dim_page,
    dim_skill := syncSkillsDim now cfg.skills st.dim_skill,
    skill_source_dep := ensureDeps now (depCalls cfg.skills) st.skill_source_dep }

/-! ## store.py: key resolution and record methods -/

/-- Embeds `Store._get_source_key`. -/
def getSourceKey (st : StoreState) (name : String) : Option Key :=
  (st.dim_source.find? (fun r => r.source_name == name && r.is_current)).map
    (fun r => r.hash_key)

/-- Embeds `Store._get_skill_key`. -/
def getSkillKey (st : StoreState) (name : String) : Option Key :=
  (st.dim_skill.find? (fun r => r.skill_name == name && r.is_current)).map
    (fun r => r.hash_key)

/-- Embeds `Store.record_watermark_check`. -/
def record_watermark_check (st : StoreState) (now : Nat)
    (source_name last_modified etag : String) (changed : Bool)
    (recordSrc : String) (session : Option String) :
    Except String StoreState :=
  match getSourceKey st source_name with
  | none => .error ("Unknown source: " ++ source_name)
  | some source_key =>
    .ok { st with fact_watermark_check := st.fact_watermark_check ++
      [{ source_key := source_key, checked_at := now,
         last_modified := last_modified, etag := etag, changed := changed,
         inserted_at := now, record_source := recordSrc,
         session_id := session }] }

/-- Embeds `Store.record_change` (including the lazy page creation of
`_get_or_create_page_key` when `page_url` is truthy). -/
def record_change (st : StoreState) (now : Nat)
    (source_name classification old_hash new_hash summary content_preview : String)
    (page_url : Option String) (commit_hash : Option String)
    (commit_count : Option Nat) (recordSrc : String)
    (session : Option String) : Except String StoreState :=
  match getSourceKey st source_name with
  | none => .error ("Unknown source: " ++ source_name)
  | some source_key =>
    let withPage : Option Key × List PageRow :=
      match page_url with
      | some u =>
        if u != "" then (some (hash_key2 source_key u),
                         ensurePage now source_key u st.dim_page)
        else (none, st.dim_page)
      | none => (none, st.dim_page)
    .ok { st with
      dim_page := withPage.2,
      fact_change := st.fact_change ++
        [{ source_key := source_key, page_key := withPage.1,
           detected_at := now, classification := classification,
           old_hash := old_hash, new_hash := new_hash, summary := summary,
           content_preview := if content_preview != "" then content_preview.take 3000 else "",
           commit_hash := commit_hash, commit_count := commit_count,
           inserted_at := now, record_source := recordSrc,
           session_id := session }] }

/-- Embeds `Store.record_validation`. -/
def record_validation (st : StoreState) (now : Nat) (skill_name : String)
    (is_valid : Bool) (errors warnings : List String) (triggerTy : String)
    (recordSrc : String) (session : Option String) :
    Except String StoreState :=
  match getSkillKey st skill_name with
  | none => .error ("Unknown skill: " ++ skill_name)
  | some skill_key =>
    .ok { st with fact_validation := st.fact_validation ++
      [{ skill_key := skill_key, validated_at := now, is_valid := is_valid,
         error_count := errors.length, warning_count := warnings.length,
         errors := errors, warnings := warnings, trigger := triggerTy,
         inserted_at := now, record_source := recordSrc,
         session_id := session }] }

/-- Embeds `Store.record_update_attempt`. -/
def record_update_attempt (st : StoreState) (now : Nat) (skill_name : String)
    (mode status : String) (changes_applied : Nat) (backup_path : String)
    (recordSrc : String) (session : Option String) :
    Except String StoreState :=
  match getSkillKey st skill_name with
  | none => .error ("Unknown skill: " ++ skill_name)
  | some skill_key =>
    .ok { st with fact_update_attempt := st.fact_update_attempt ++
      [{ skill_key := skill_key, attempted_at := now, mode := mode,
         status := status, changes_applied := changes_applied,
         backup_path := backup_path, inserted_at := now,
         record_source := recordSrc, session_id := session }] }

/-- Embeds `Store.record_content_measurement`
(`estimated_tokens = char_count // 4`). -/
def record_content_measurement (st : StoreState) (now : Nat)
    (skill_name file_path file_type : String)
    (line_count word_count char_count : Nat) (content_hash : String)
    (recordSrc : String) (session : Option String) :
    Except String StoreState :=
  match getSkillKey st skill_name with
  | none => .error ("Unknown skill: " ++ skill_name)
  | some skill_key =>
    .ok { st with fact_content_measurement := st.fact_content_measurement ++
      [{ skill_key := skill_key, file_path := file_path,
         file_type := file_type, measured_at := now,
         line_count := line_count, word_count := word_count,
         char_count := char_count, estimated_tokens := char_count / 4,
         content_hash := content_hash, inserted_at := now,
         record_source := recordSrc, session_id := session }] }

/-! ## store.py: read accessors -/

/-- `ORDER BY ts DESC LIMIT 1` / `ROW_NUMBER ... ORDER BY ts DESC` with
`rn = 1`: the row with maximal timestamp.  SQL leaves the tie order
unspecified; the model deterministically keeps the later row on ties (the
claims settled here never rest on a tie). -/
def pickLatest {α : Type} (ts : α → Nat) (l : List α) : Option α :=
  l.foldl (fun acc x =>
    match acc with
    | none => some x
    | some b => if ts b ≤ ts x then some x else some b) none

/-- Embeds `Store.get_latest_watermark` (returns the row; the Python dict is
a field renaming of it). -/
def get_latest_watermark (st : StoreState) (source_name : String) :
    Option WatermarkFact :=
  (getSourceKey st source_name).bind (fun k =>
    pickLatest (fun f => f.checked_at)
      (st.fact_watermark_check.filter (fun f => f.source_key == k)))

/-- The current `dim_page` rows of a source. -/
def currentPagesOf (st : StoreState) (source_key : Key) : List PageRow :=
  st.dim_page.filter (fun p => p.source_key == source_key && p.is_current)

/-- `v_latest_page_hash` restricted to one page key. -/
def latestPageFact (st : StoreState) (page_key : Key) : Option ChangeFact :=
  pickLatest (fun f => f.detected_at)
    (st.fact_change.filter (fun f => f.page_key == some page_key))

/-- Embeds `Store.get_all_page_hashes`: one `(url, latest fact)` pair per
current page of the source having at least one `fact_change` row. -/
def get_all_page_hashes (st : StoreState) (source_name : String) :
    List (String × ChangeFact) :=
  match getSourceKey st source_name with
  | none => []
  | some k =>
    (currentPagesOf st k).filterMap (fun p =>
      (latestPageFact st p.hash_key).map (fun f => (p.url, f)))

/-- Embeds `Store.get_file_hash`: the latest `fact_change` row of the source
with a NULL page key, whatever its classification. -/
def get_file_hash (st : StoreState) (source_name : String) : Option ChangeFact :=
  (getSourceKey st source_name).bind (fun k =>
    pickLatest (fun f => f.detected_at)
      (st.fact_change.filter (fun f => f.source_key == k && f.page_key == none)))

/-- Embeds `Store.get_latest_source_check` (via `v_latest_source_check`:
latest change of the source with a non-NULL commit hash). -/
def get_latest_source_check (st : StoreState) (source_name : String) :
    Option ChangeFact :=
  (getSourceKey st source_name).bind (fun k =>
    pickLatest (fun f => f.detected_at)
      (st.fact_change.filter (fun f => f.source_key == k && f.commit_hash != none)))

/-! ## store.py: export / import of the flat snapshot -/

/-- One `_pages` entry of the exported snapshot. -/
structure PageSnap where
  url : String
  hash : String
  content_preview : String
  last_checked : Nat
  last_changed : Nat
deriving Repr, DecidableEq, Inhabited

/-- One docs-source entry of the exported snapshot (`_watermark`, `_pages`,
`_file_hash`/`_file_last_checked`; an absent key is `none`/`[]`). -/
structure DocSourceSnap where
  watermark : Option WatermarkFact := none
  pages : List PageSnap := []
  file_hash : Option (String × Nat) := none
deriving Repr, DecidableEq, Inhabited

def DocSourceSnap.isEmptySnap (s : DocSourceSnap) : Bool :=
  s.watermark.isNone && s.pages.isEmpty && s.file_hash.isNone

/-- The flat snapshot document (`state.json`): a `docs` mapping and a
`sources` mapping `name -> (last_checked, last_commit, commits_since_last)`. -/
structure Snapshot where
  docs : List (String × DocSourceSnap) := []
  sources : List (String × (Nat × String × Nat)) := []
deriving Repr, DecidableEq, Inhabited

def docsCurrentSources (st : StoreState) : List SourceRow :=
  st.dim_source.filter (fun r => r.source_type == "docs" && r.is_current)

def repoCurrentSources (st : StoreState) : List SourceRow :=
  st.dim_source.filter (fun r => r.source_type == "source" && r.is_current)

/-- The per-source body of the docs loop of `export_state_json`. -/
def exportDocSource (st : StoreState) (source_name : String) : DocSourceSnap :=
  let wm := get_latest_watermark st source_name
  let pages := (get_all_page_hashes st source_name).map (fun p =>
    { url := p.1, hash := p.2.new_hash, content_preview := p.2.content_preview,
      last_checked := match wm with
                      | some w => w.checked_at
                      | none => p.2.detected_at,
      last_changed := p.2.detected_at })
  let fh := (get_file_hash st source_name).map (fun f => (f.new_hash, f.detected_at))
  { watermark := wm, pages := pages, file_hash := fh }

/-- Embeds `Store.export_state_json`: docs sources with a nonempty state,
then source repos with a latest check. -/
def export_state_json (st : StoreState) : Snapshot :=
  { docs := (docsCurrentSources st).filterMap (fun r =>
      let s := exportDocSource st r.source_name
      if s.isEmptySnap then none else some (r.source_name, s)),
    sources := (repoCurrentSources st).filterMap (fun r =>
      (get_latest_source_check st r.source_name).map (fun f =>
        (r.source_name, (f.detected_at, f.commit_hash.getD "", f.commit_count.getD 0)))) }

/-- The `_watermark` part of one docs entry of `import_state_json`. -/
def importWatermark (now : Nat) (source_key : Key) (wm : Option WatermarkFact)
    (st : StoreState) : StoreState :=
  match wm with
  | none => st
  | some w =>
    { st with fact_watermark_check := st.fact_watermark_check ++
      [{ source_key := source_key, checked_at := w.checked_at,
         last_modified := w.last_modified, etag := w.etag, changed := true,
         inserted_at := now, record_source := "migrate_state",
         session_id := none }] }

/-- One `_pages` entry of `import_state_json`: the page row is ensured even
when the hash is empty; the fact is inserted only for a nonempty hash. -/
def importPage (now : Nat) (source_key : Key) (p : PageSnap)
    (st : StoreState) : StoreState :=
  let st1 := { st with dim_page := ensurePage now source_key p.url st.dim_page }
  if p.hash != "" then
    { st1 with fact_change := st1.fact_change ++
      [{ source_key := source_key, page_key := some (hash_key2 source_key p.url),
         detected_at := p.last_changed, classification := "ADDITIVE",
         old_hash := "", new_hash := p.hash,
         summary := "imported from state.json",
         content_preview := p.content_preview.take 3000,
         inserted_at := now, record_source := "migrate_state" }] }
  else st1

/-- The `_file_hash` part of one docs entry of `import_state_json`. -/
def importFileHash (now : Nat) (source_key : Key) (fh : Option (String × Nat))
    (st : StoreState) : StoreState :=
  match fh with
  | none => st
  | some hv =>
    if hv.1 != "" then
      { st with fact_change := st.fact_change ++
        [{ source_key := source_key, page_key := none, detected_at := hv.2,
           classification := "ADDITIVE", old_hash := "", new_hash := hv.1,
           summary := "imported from state.json (local file)",
           inserted_at := now, record_source := "migrate_state" }] }
    else st

/-- One docs entry of `import_state_json` (unknown names are skipped). -/
def importDocsEntry (now : Nat) (st : StoreState)
    (entry : String × DocSourceSnap) : StoreState :=
  match getSourceKey st entry.1 with
  | none => st
  | some source_key =>
    importFileHash now source_key entry.2.file_hash
      (entry.2.pages.foldl (fun s p => importPage now source_key p s)
        (importWatermark now source_key entry.2.watermark st))

/-- One source-repo entry of `import_state_json`. -/
def importRepoEntry (now : Nat) (st : StoreState)
    (entry : String × (Nat × String × Nat)) : StoreState :=
  match getSourceKey st entry.1 with
  | none => st
  | some source_key =>
    if entry.2.2.1 != "" || entry.2.2.2 != 0 then
      { st with fact_change := st.fact_change ++
        [{ source_key := source_key, page_key := none,
           detected_at := entry.2.1, classification := "ADDITIVE",
           summary := "imported from state.json (source repo)",
           commit_hash := some entry.2.2.1, commit_count := some entry.2.2.2,
           inserted_at := now, record_source := "migrate_state" }] }
    else st

/-- Embeds `Store.import_state_json` (the returned summary counts carry no
claim content and are omitted). -/
def import_state_json (st : StoreState) (now : Nat) (snap : Snapshot) :
    StoreState :=
  snap.sources.foldl (importRepoEntry now)
    (snap.docs.foldl (importDocsEntry now) st)

/-! ## docs_monitor.py: `check_source` orchestration -/

/-- Outcome of the bundle GET in `identify_changes`: an exception (timeout,
unreachable host, non-2xx) is `fail`. -/
inductive FetchOutcome where
  | ok (text : String)
  | fail (errMsg : String)
deriving Repr, DecidableEq

/-- One entry of the list `check_source` returns. -/
structure ChangeEntry where
  source : String
  url : String
  classification : String
  old_hash : String := ""
  new_hash : String := ""
  summary : String := ""
deriving Repr, DecidableEq, Inhabited

/-- `store.get_latest_watermark(source_name) or {}` as the dict
`detect_change` reads. -/
def storedWatermarkOf (st : StoreState) (source_name : String) : Watermark :=
  match get_latest_watermark st source_name with
  | some w => { last_modified := w.last_modified, etag := w.etag,
                last_checked := toString w.checked_at }
  | none => {}

/-- `store.get_all_page_hashes(source_name)` in the shape `identify_changes`
reads (`{url: {hash, content_preview, ...}}`). -/
def storedPagesOf (st : StoreState) (source_name : String) :
    List (String × StoredPage) :=
  (get_all_page_hashes st source_name).map (fun p =>
    (p.1, { hash := p.2.new_hash, content_preview := p.2.content_preview }))

/-- The trailing local-file block of `docs_monitor.check_source`
(lines 300-315). -/
def checkSourceLocalFile (st : StoreState) (now : Nat) (source_name : String)
    (hash_file_path : String) (localFile : Option String)
    (changes : List ChangeEntry) : Except String (StoreState × List ChangeEntry) := do
  if hash_file_path != "" then
    let fh := get_file_hash st source_name
    let old_fhash := match fh with
                     | some f => f.new_hash
                     | none => ""
    match check_local_file hash_file_path localFile old_fhash with
    | some fc =>
      let st2 ← record_change st now source_name fc.classification fc.old_hash
        fc.new_hash fc.summary "" none none none "docs_monitor" none
      pure (st2, changes ++
        [{ source := source_name, url := fc.url,
           classification := fc.classification, old_hash := fc.old_hash,
           new_hash := fc.new_hash, summary := fc.summary }])
    | none => pure (st, changes)
  else pure (st, changes)

/-- Embeds `docs_monitor.check_source`: the HEAD probe, the bundle GET and
the local-file read are the `probe`, `fetch` and `localFile` arguments. -/
def check_source (st0 : StoreState) (now : Nat) (nowIso : String)
    (source_name : String) (source_config : SourceCfg) (probe : ProbeResult)
    (fetch : FetchOutcome) (localFile : Option String) :
    Except String (StoreState × List ChangeEntry) := do
  let bundle_url := optStr source_config.llms_full_url
  let watched_pages := source_config.pages
  let hash_file_path := optStr source_config.hash_file
  if bundle_url != "" then
    let stored_wm := storedWatermarkOf st0 source_name
    let detected := detect_change probe stored_wm nowIso
    let st1 ← record_watermark_check st0 now source_name
      detected.2.last_modified detected.2.etag detected.1 "docs_monitor" none
    if !detected.1 then
      return (st1, [])
    else
      let stored_pages := storedPagesOf st1 source_name
      match fetch with
      | .fail e =>
        let st2 ← record_change st1 now source_name "ERROR" "" ""
          ("fetch failed: " ++ e) "" none none none "docs_monitor" none
        return (st2, [{ source := source_name, url := bundle_url,
                        classification := "ERROR", old_hash := "",
                        new_hash := "", summary := "fetch failed: " ++ e }])
      | .ok text =>
        let page_changes := identify_changes text watched_pages stored_pages
        let stCh ← page_changes.foldlM (fun acc pc => do
          let classification := classify_change pc.old_content pc.new_content
          let summary := diff_summary pc.old_content pc.new_content
          let s ← record_change acc.1 now source_name classification
            pc.old_hash pc.new_hash summary pc.content_preview (some pc.url)
            none none "docs_monitor" none
          pure (s, acc.2 ++
            [{ source := source_name, url := pc.url,
               classification := classification, old_hash := pc.old_hash,
               new_hash := pc.new_hash, summary := summary }]))
          ((st1, []) : StoreState × List ChangeEntry)
        checkSourceLocalFile stCh.1 now source_name hash_file_path localFile stCh.2
  else
    checkSourceLocalFile st0 now source_name hash_file_path localFile []

/-! ## Derived notions used by the invariants and SCD theorems -/

/-- The `hash_key = ? AND is_current` predicate on `dim_source`. -/
def curSrc (hk : Key) (r : SourceRow) : Bool := r.hash_key == hk && r.is_current

/-- The `hash_key = ? AND is_current` predicate on `dim_skill`. -/
def curSkl (hk : Key) (r : SkillRow) : Bool := r.hash_key == hk && r.is_current

/-- The `hash_key = ? AND is_current` predicate on `dim_page`. -/
def curPg (hk : Key) (p : PageRow) : Bool := p.hash_key == hk && p.is_current

/-- What a verified-timestamp touch does to a `dim_source` row whose key is
among `ks` (the effect of a re-sync round that finds every fingerprint
unchanged). -/
def touchIfSrc (now : Nat) (ks : List Key) (r : SourceRow) : SourceRow :=
  if r.is_current && ks.contains r.hash_key then
    { r with last_verified_at := some now }
  else r

/-- Skill analogue of `touchIfSrc`. -/
def touchIfSkl (now : Nat) (ks : List Key) (r : SkillRow) : SkillRow :=
  if r.is_current && ks.contains r.hash_key then
    { r with last_verified_at := some now }
  else r

/-- The keys of a source configuration list. -/
def srcKeysOf (srcs : List (String × SourceCfg)) : List Key :=
  srcs.map (fun nc => hash_key1 nc.1)

/-- The keys of a skill configuration list. -/
def sklKeysOf (skills : List (String × SkillCfg)) : List Key :=
  skills.map (fun nc => hash_key1 nc.1)

/-- What a re-sync round does to an existing `dim_source` row when exactly
the source with key `hk0` has a changed fingerprint: its current row is
closed, the current rows of the other configured keys (`ks1 ++ ks2`) get a
verified-timestamp touch, everything else is untouched. -/
def scdCloseTouch (now : Nat) (hk0 : Key) (ks1 ks2 : List Key)
    (r : SourceRow) : SourceRow :=
  if r.is_current then
    (if r.hash_key == hk0 then
      { r with effective_to := some now, is_current := false }
     else if ks1.contains r.hash_key || ks2.contains r.hash_key then
      { r with last_verified_at := some now }
     else r)
  else r

/-- Single-current-row invariant on `dim_source`: per hash key, at most one
current row, and a key that is present at all has a current row. -/
def UniqueCurrentSrc (rows : List SourceRow) : Prop :=
  ∀ hk : Key, (rows.filter (curSrc hk)).length ≤ 1 ∧
    ((∃ r ∈ rows, r.hash_key = hk) → ∃ r ∈ rows, curSrc hk r = true)

/-- Single-current-row invariant on `dim_skill`. -/
def UniqueCurrentSkl (rows : List SkillRow) : Prop :=
  ∀ hk : Key, (rows.filter (curSkl hk)).length ≤ 1 ∧
    ((∃ r ∈ rows, r.hash_key = hk) → ∃ r ∈ rows, curSkl hk r = true)

/-- Single-current-row invariant on `dim_page`. -/
def UniqueCurrentPg (rows : List PageRow) : Prop :=
  ∀ hk : Key, (rows.filter (curPg hk)).length ≤ 1 ∧
    ((∃ p ∈ rows, p.hash_key = hk) → ∃ p ∈ rows, curPg hk p = true)

/-- The three dimension invariants of the store together. -/
def DimsInv (st : StoreState) : Prop :=
  UniqueCurrentSrc st.dim_source ∧ UniqueCurrentSkl st.dim_skill ∧
    UniqueCurrentPg st.dim_page

/-- Closed (historical) dimension rows of `st` survive verbatim into `st2`. -/
def ClosedKept (st st2 : StoreState) : Prop :=
  (∀ r ∈ st.dim_source, r.is_current = false → r ∈ st2.dim_source) ∧
  (∀ r ∈ st.dim_skill, r.is_current = false → r ∈ st2.dim_skill) ∧
  (∀ p ∈ st.dim_page, p.is_current = false → p ∈ st2.dim_page)

/-- A current row with the configured fingerprint is found for key `hk`:
what a sync round guarantees for every configured source. -/
def FindDiffSrc (hk : Key) (d : String) (rows : List SourceRow) : Prop :=
  ∃ r, findCurrentSource hk rows = some r ∧ r.hash_diff = d

/-- Skill analogue of `FindDiffSrc`. -/
def FindDiffSkl (hk : Key) (d : String) (rows : List SkillRow) : Prop :=
  ∃ r, findCurrentSkill hk rows = some r ∧ r.hash_diff = d

/-! ## Derived notions for the export/import round trip

The per-unit fingerprint reads of a snapshot, and the explicit inventory of
the rows `import_state_json` inserts (used to compute what the re-export of
an imported store reads back). -/

/-- The hash the snapshot records for page `url` of docs source `name`. -/
def pageHashLookup (snap : Snapshot) (name url : String) : Option String :=
  (snap.docs.find? (fun e => e.1 == name)).bind (fun e =>
    (e.2.pages.find? (fun p => p.url == url)).map (fun p => p.hash))

/-- The local-file hash the snapshot records for docs source `name`. -/
def fileHashLookup (snap : Snapshot) (name : String) : Option String :=
  (snap.docs.find? (fun e => e.1 == name)).bind (fun e =>
    e.2.file_hash.map (fun hv => hv.1))

/-- The commit hash and commit count the snapshot records for source repo
`name`. -/
def repoLookup (snap : Snapshot) (name : String) : Option (String × Nat) :=
  (snap.sources.find? (fun e => e.1 == name)).map (fun e => (e.2.2.1, e.2.2.2))

/-- The `fact_change` row `importPage` inserts for a page with a nonempty
hash. -/
def pageFactOf (now : Nat) (k : Key) (p : PageSnap) : ChangeFact :=
  { source_key := k, page_key := some (hash_key2 k p.url),
    detected_at := p.last_changed, classification := "ADDITIVE",
    old_hash := "", new_hash := p.hash,
    summary := "imported from state.json",
    content_preview := p.content_preview.take 3000,
    inserted_at := now, record_source := "migrate_state" }

/-- The `fact_change` row `importFileHash` inserts for a nonempty hash. -/
def fileFactOf (now : Nat) (k : Key) (hv : String × Nat) : ChangeFact :=
  { source_key := k, page_key := none, detected_at := hv.2,
    classification := "ADDITIVE", old_hash := "", new_hash := hv.1,
    summary := "imported from state.json (local file)",
    inserted_at := now, record_source := "migrate_state" }

/-- The `fact_change` row `importRepoEntry` inserts. -/
def repoFactOf (now : Nat) (k : Key) (e : Nat × String × Nat) : ChangeFact :=
  { source_key := k, page_key := none, detected_at := e.1,
    classification := "ADDITIVE",
    summary := "imported from state.json (source repo)",
    commit_hash := some e.2.1, commit_count := some e.2.2,
    inserted_at := now, record_source := "migrate_state" }

/-- The `fact_watermark_check` row `importWatermark` inserts. -/
def wmFactOf (now : Nat) (k : Key) (w : WatermarkFact) : WatermarkFact :=
  { source_key := k, checked_at := w.checked_at,
    last_modified := w.last_modified, etag := w.etag, changed := true,
    inserted_at := now, record_source := "migrate_state",
    session_id := none }

/-- The change facts one docs entry of the import adds, in insertion order. -/
def entryChangeFacts (now : Nat) (k : Key) (s : DocSourceSnap) :
    List ChangeFact :=
  (s.pages.filter (fun p => p.hash != "")).map (pageFactOf now k) ++
    (match s.file_hash with
     | some hv => if hv.1 != "" then [fileFactOf now k hv] else []
     | none => [])

/-- The change facts one repo entry of the import adds. -/
def repoEntryFacts (now : Nat) (k : Key) (e : Nat × String × Nat) :
    List ChangeFact :=
  if e.2.1 != "" || e.2.2 != 0 then [repoFactOf now k e] else []

/-- The watermark facts one docs entry of the import adds. -/
def entryWmFacts (now : Nat) (k : Key) (s : DocSourceSnap) :
    List WatermarkFact :=
  match s.watermark with
  | some w => [wmFactOf now k w]
  | none => []

/-- All change facts the import of a snapshot into `fresh` adds. -/
def importedChangeFacts (fresh : StoreState) (now : Nat) (snap : Snapshot) :
    List ChangeFact :=
  snap.docs.flatMap (fun e =>
    match getSourceKey fresh e.1 with
    | some k => entryChangeFacts now k e.2
    | none => []) ++
  snap.sources.flatMap (fun e =>
    match getSourceKey fresh e.1 with
    | some k => repoEntryFacts now k e.2
    | none => [])

/-- All watermark facts the import adds. -/
def importedWmFacts (fresh : StoreState) (now : Nat) (snap : Snapshot) :
    List WatermarkFact :=
  snap.docs.flatMap (fun e =>
    match getSourceKey fresh e.1 with
    | some k => entryWmFacts now k e.2
    | none => [])

/-- The `_ensure_page` calls the import makes, in order. -/
def importedPageCalls (fresh : StoreState) (snap : Snapshot) :
    List (Key × String) :=
  snap.docs.flatMap (fun e =>
    match getSourceKey fresh e.1 with
    | some k => e.2.pages.map (fun p => (k, p.url))
    | none => [])

/-! ## Helper lemmas -/

theorem find?_map_pres {α : Type} (g : α → α) (p : α → Bool)
    (h : ∀ x, p (g x) = p x) (l : List α) :
    (l.map g).find? p = (l.find? p).map g := by
  induction l with
  | nil => rfl
  | cons x t ih =>
    by_cases hx : p x = true
    · rw [List.map_cons, List.find?_cons_of_pos _ (by rw [h x]; exact hx),
        List.find?_cons_of_pos _ hx]
      rfl
    · have hx' : p x = false := Bool.eq_false_iff.mpr hx
      rw [List.map_cons, List.find?_cons_of_neg _ (by rw [h x]; simp [hx']),
        List.find?_cons_of_neg _ (by simp [hx']), ih]

theorem find?_map_none {α : Type} (g : α → α) (p : α → Bool) (l : List α)
    (h : ∀ x ∈ l, p (g x) = false) :
    (l.map g).find? p = none := by
  rw [List.find?_eq_none]
  intro y hy
  rcases List.mem_map.mp hy with ⟨x, hx, rfl⟩
  simp [h x hx]

theorem findCurrentSource_eq_find? (hk : Key) (rows : List SourceRow) :
    findCurrentSource hk rows = rows.find? (curSrc hk) := rfl

theorem touchSources_eq_map (now : Nat) (hk : Key) (rows : List SourceRow) :
    touchSources now hk rows =
      rows.map (fun r =>
        if curSrc hk r then { r with last_verified_at := some now } else r) := rfl

theorem closeSources_eq_map (now : Nat) (hk : Key) (rows : List SourceRow) :
    closeSources now hk rows =
      rows.map (fun r =>
        if curSrc hk r then { r with effective_to := some now, is_current := false }
        else r) := rfl

theorem findDiffSrc_map {hk : Key} {d : String} (g : SourceRow → SourceRow)
    (hp : ∀ x, curSrc hk (g x) = curSrc hk x)
    (hd : ∀ x, (g x).hash_diff = x.hash_diff) {rows : List SourceRow}
    (h : FindDiffSrc hk d rows) : FindDiffSrc hk d (rows.map g) := by
  obtain ⟨r, hf, hdiff⟩ := h
  refine ⟨g r, ?_, (hd r).trans hdiff⟩
  rw [findCurrentSource_eq_find?, find?_map_pres g (curSrc hk) hp,
    ← findCurrentSource_eq_find?, hf]
  rfl

theorem curSrc_touch (now : Nat) (hk hk2 : Key) (x : SourceRow) :
    curSrc hk (if curSrc hk2 x then { x with last_verified_at := some now }
               else x) = curSrc hk x := by
  by_cases hx : curSrc hk2 x = true
  · rw [if_pos hx]
    rfl
  · rw [if_neg hx]

theorem hash_diff_touch (now : Nat) (hk2 : Key) (x : SourceRow) :
    (if curSrc hk2 x then { x with last_verified_at := some now }
     else x).hash_diff = x.hash_diff := by
  by_cases hx : curSrc hk2 x = true
  · rw [if_pos hx]
  · rw [if_neg hx]


theorem findDiffSrc_touch {hk : Key} {d : String} (now : Nat) (hk2 : Key)
    {rows : List SourceRow} (h : FindDiffSrc hk d rows) :
    FindDiffSrc hk d (touchSources now hk2 rows) := by
  rw [touchSources_eq_map]
  exact findDiffSrc_map _ (curSrc_touch now hk hk2) (hash_diff_touch now hk2) h

theorem findDiffSrc_close_ne {hk : Key} {d : String} (now : Nat) {hk2 : Key}
    (hne : hk ≠ hk2) {rows : List SourceRow} (h : FindDiffSrc hk d rows) :
    FindDiffSrc hk d (closeSources now hk2 rows) := by
  rw [closeSources_eq_map]
  refine findDiffSrc_map _ ?_ ?_ h
  · intro x
    by_cases hx : curSrc hk2 x = true
    · have hkey : x.hash_key = hk2 := by
        unfold curSrc at hx
        simp only [Bool.and_eq_true, beq_iff_eq] at hx
        exact hx.1
      have h1 : curSrc hk x = false := by
        unfold curSrc
        rw [hkey]
        simp [beq_eq_false_iff_ne.mpr (Ne.symm hne)]
      have h2 : curSrc hk { x with effective_to := some now, is_current := false } =
          false := by
        unfold curSrc
        simp
      rw [if_pos hx, h1, h2]
    · rw [if_neg hx]
  · intro x
    by_cases hx : curSrc hk2 x = true <;> simp [hx]

theorem findDiffSrc_append {hk : Key} {d : String} {rows : List SourceRow}
    (l : List SourceRow) (h : FindDiffSrc hk d rows) :
    FindDiffSrc hk d (rows ++ l) := by
  obtain ⟨r, hf, hdiff⟩ := h
  refine ⟨r, ?_, hdiff⟩
  rw [findCurrentSource_eq_find?] at hf ⊢
  rw [List.find?_append, hf]
  rfl

theorem curSrc_newSourceRow (now : Nat) (n : String) (c : SourceCfg) :
    curSrc (hash_key1 n) (newSourceRow now n c) = true := by
  simp [curSrc, newSourceRow]

theorem syncOneSource_none (now : Nat) (n : String) (c : SourceCfg)
    (rows : List SourceRow)
    (hfind : findCurrentSource (hash_key1 n) rows = none) :
    syncOneSource now n c rows = rows ++ [newSourceRow now n c] := by
  unfold syncOneSource
  rw [hfind]

theorem syncOneSource_some (now : Nat) (n : String) (c : SourceCfg)
    (rows : List SourceRow) (ex : SourceRow)
    (hfind : findCurrentSource (hash_key1 n) rows = some ex) :
    syncOneSource now n c rows =
      (if (ex.hash_diff != cfgSrcDiff c) = true then
        closeSources now (hash_key1 n) rows ++ [newSourceRow now n c]
       else touchSources now (hash_key1 n) rows) := by
  unfold syncOneSource
  rw [hfind]

theorem closeSources_find?_none (now : Nat) (hk : Key) (rows : List SourceRow) :
    (closeSources now hk rows).find? (curSrc hk) = none := by
  rw [closeSources_eq_map]
  refine find?_map_none _ _ rows ?_
  intro x _
  by_cases hx : curSrc hk x = true
  · rw [if_pos hx]
    unfold curSrc
    simp
  · rw [if_neg hx]
    exact Bool.eq_false_iff.mpr hx

theorem findDiffSrc_syncOne_self (now : Nat) (n : String) (c : SourceCfg)
    (rows : List SourceRow) :
    FindDiffSrc (hash_key1 n) (cfgSrcDiff c) (syncOneSource now n c rows) := by
  cases hfind : findCurrentSource (hash_key1 n) rows with
  | none =>
    rw [syncOneSource_none now n c rows hfind]
    refine ⟨newSourceRow now n c, ?_, rfl⟩
    rw [findCurrentSource_eq_find?, List.find?_append,
      ← findCurrentSource_eq_find?, hfind]
    simp [List.find?_cons_of_pos _ (curSrc_newSourceRow now n c)]
  | some ex =>
    rw [syncOneSource_some now n c rows ex hfind]
    by_cases hdf : (ex.hash_diff != cfgSrcDiff c) = true
    · rw [if_pos hdf]
      refine ⟨newSourceRow now n c, ?_, rfl⟩
      rw [findCurrentSource_eq_find?, List.find?_append,
        closeSources_find?_none]
      simp [List.find?_cons_of_pos _ (curSrc_newSourceRow now n c)]
    · rw [if_neg hdf]
      have hdeq : ex.hash_diff = cfgSrcDiff c := by
        have := Bool.eq_false_iff.mpr hdf
        rw [bne_eq_false_iff_eq] at this
        exact this
      exact findDiffSrc_touch now (hash_key1 n) ⟨ex, hfind, hdeq⟩

theorem findDiffSrc_syncOne_ne {n n' : String} {d : String}
    (hnn : n ≠ n') (now : Nat) (c' : SourceCfg) {rows : List SourceRow}
    (h : FindDiffSrc (hash_key1 n) d rows) :
    FindDiffSrc (hash_key1 n) d (syncOneSource now n' c' rows) := by
  have hkne : hash_key1 n ≠ hash_key1 n' := by
    simp [hash_key1, hnn]
  cases hfind : findCurrentSource (hash_key1 n') rows with
  | none =>
    rw [syncOneSource_none now n' c' rows hfind]
    exact findDiffSrc_append _ h
  | some ex =>
    rw [syncOneSource_some now n' c' rows ex hfind]
    by_cases hdf : (ex.hash_diff != cfgSrcDiff c') = true
    · rw [if_pos hdf]
      exact findDiffSrc_append _ (findDiffSrc_close_ne now hkne h)
    · rw [if_neg hdf]
      exact findDiffSrc_touch now _ h

theorem findDiffSrc_fold_pres {n : String} {d : String}
    (srcs : List (String × SourceCfg)) (now : Nat)
    (hnot : ∀ nc ∈ srcs, nc.1 ≠ n) {rows : List SourceRow}
    (h : FindDiffSrc (hash_key1 n) d rows) :
    FindDiffSrc (hash_key1 n) d (syncSourcesDim now srcs rows) := by
  induction srcs generalizing rows with
  | nil => exact h
  | cons nc t ih =>
    have hstep := findDiffSrc_syncOne_ne
      (Ne.symm (hnot nc (List.mem_cons_self nc t))) now nc.2 h
    exact ih (fun x hx => hnot x (List.mem_cons_of_mem nc hx)) hstep

theorem syncSourcesDim_estab (now : Nat) (srcs : List (String × SourceCfg))
    (hnd : (srcs.map Prod.fst).Nodup) (rows : List SourceRow) :
    ∀ nc ∈ srcs,
      FindDiffSrc (hash_key1 nc.1) (cfgSrcDiff nc.2) (syncSourcesDim now srcs rows) := by
  induction srcs generalizing rows with
  | nil => intro nc hnc; exact absurd hnc (List.not_mem_nil nc)
  | cons hd0 t ih =>
    intro nc hnc
    have hfold : syncSourcesDim now (hd0 :: t) rows =
        syncSourcesDim now t (syncOneSource now hd0.1 hd0.2 rows) := rfl
    rcases List.mem_cons.mp hnc with rfl | hmem
    · rw [hfold]
      have hself := findDiffSrc_syncOne_self now nc.1 nc.2 rows
      have hnotin : ∀ x ∈ t, x.1 ≠ nc.1 := by
        intro x hx
        intro heq
        have : nc.1 ∈ t.map Prod.fst := by
          rw [← heq]
          exact List.mem_map_of_mem Prod.fst hx
        exact (List.nodup_cons.mp hnd).1 this
      exact findDiffSrc_fold_pres t now hnotin hself
    · rw [hfold]
      exact ih (List.nodup_cons.mp hnd).2 _ nc hmem

theorem contains_append {α : Type} [BEq α] (l1 l2 : List α) (a : α) :
    (l1 ++ l2).contains a = (l1.contains a || l2.contains a) := by
  induction l1 with
  | nil => rfl
  | cons x t ih =>
    rw [List.cons_append, List.contains_cons, List.contains_cons, ih,
      Bool.or_assoc]

theorem touchIfSrc_id_of_nil (now : Nat) (r : SourceRow) :
    touchIfSrc now [] r = r := by
  unfold touchIfSrc
  simp

theorem curSrc_touchIf (now : Nat) (ks : List Key) (hk : Key) (x : SourceRow) :
    curSrc hk (touchIfSrc now ks x) = curSrc hk x := by
  unfold touchIfSrc
  by_cases hx : (x.is_current && ks.contains x.hash_key) = true
  · rw [if_pos hx]
    rfl
  · rw [if_neg hx]

theorem hash_diff_touchIf (now : Nat) (ks : List Key) (x : SourceRow) :
    (touchIfSrc now ks x).hash_diff = x.hash_diff := by
  unfold touchIfSrc
  by_cases hx : (x.is_current && ks.contains x.hash_key) = true
  · rw [if_pos hx]
  · rw [if_neg hx]

theorem findDiffSrc_touchIf_map {hk : Key} {d : String} (now : Nat)
    (ks : List Key) {rows : List SourceRow} (h : FindDiffSrc hk d rows) :
    FindDiffSrc hk d (rows.map (touchIfSrc now ks)) :=
  findDiffSrc_map _ (curSrc_touchIf now ks hk) (hash_diff_touchIf now ks) h

theorem touchSources_eq_touchIf (now : Nat) (hk : Key) (rows : List SourceRow) :
    touchSources now hk rows = rows.map (touchIfSrc now [hk]) := by
  unfold touchSources touchIfSrc
  refine List.map_congr_left ?_
  intro x _
  have hc : (x.hash_key == hk && x.is_current) =
      (x.is_current && [hk].contains x.hash_key) := by
    rw [List.contains_cons]
    cases hb : x.hash_key == hk <;> cases hcur : x.is_current <;> rfl
  rw [hc]

theorem touchIfSrc_comp (now : Nat) (ks1 ks2 : List Key)
    (hdisj : ∀ k, k ∈ ks1 → ¬ k ∈ ks2) (r : SourceRow) :
    touchIfSrc now ks2 (touchIfSrc now ks1 r) =
      touchIfSrc now (ks1 ++ ks2) r := by
  by_cases h1 : r.hash_key ∈ ks1
  · have h2 : ¬ r.hash_key ∈ ks2 := hdisj r.hash_key h1
    by_cases hcur : r.is_current = true
    · simp [touchIfSrc, hcur, h1, h2, contains_append]
    · have hcur' : r.is_current = false := Bool.eq_false_iff.mpr hcur
      simp [touchIfSrc, hcur']
  · by_cases h2 : r.hash_key ∈ ks2
    · by_cases hcur : r.is_current = true
      · simp [touchIfSrc, hcur, h1, h2, contains_append]
      · have hcur' : r.is_current = false := Bool.eq_false_iff.mpr hcur
        simp [touchIfSrc, hcur']
    · by_cases hcur : r.is_current = true
      · simp [touchIfSrc, hcur, h1, h2, contains_append]
      · have hcur' : r.is_current = false := Bool.eq_false_iff.mpr hcur
        simp [touchIfSrc, hcur']

theorem syncOneSource_touch (now : Nat) (n : String) (c : SourceCfg)
    (rows : List SourceRow)
    (h : FindDiffSrc (hash_key1 n) (cfgSrcDiff c) rows) :
    syncOneSource now n c rows = touchSources now (hash_key1 n) rows := by
  obtain ⟨r, hf, hd⟩ := h
  rw [syncOneSource_some now n c rows r hf]
  have hbne : (r.hash_diff != cfgSrcDiff c) = false := by
    rw [hd]
    simp
  rw [if_neg (by simp [hbne])]

theorem mem_srcKeysOf {n : String} {srcs : List (String × SourceCfg)} :
    hash_key1 n ∈ srcKeysOf srcs ↔ n ∈ srcs.map Prod.fst := by
  unfold srcKeysOf hash_key1
  constructor
  · intro h
    rcases List.mem_map.mp h with ⟨nc, hnc, heq⟩
    have hn : nc.1 = n := by simpa using heq
    rw [← hn]
    exact List.mem_map_of_mem Prod.fst hnc
  · intro h
    rcases List.mem_map.mp h with ⟨nc, hnc, heq⟩
    exact List.mem_map.mpr ⟨nc, hnc, by simp [heq]⟩

theorem syncSourcesDim_touch_round (now : Nat)
    (srcs : List (String × SourceCfg)) (rows : List SourceRow)
    (hnd : (srcs.map Prod.fst).Nodup)
    (hall : ∀ nc ∈ srcs, FindDiffSrc (hash_key1 nc.1) (cfgSrcDiff nc.2) rows) :
    syncSourcesDim now srcs rows = rows.map (touchIfSrc now (srcKeysOf srcs)) := by
  induction srcs generalizing rows with
  | nil =>
    show rows = rows.map (touchIfSrc now [])
    have hmapid : rows.map (touchIfSrc now []) = rows.map id :=
      List.map_congr_left (fun x _ => touchIfSrc_id_of_nil now x)
    rw [hmapid, List.map_id]
  | cons nc t ih =>
    have hstep := syncOneSource_touch now nc.1 nc.2 rows
      (hall nc (List.mem_cons_self nc t))
    have hfold : syncSourcesDim now (nc :: t) rows =
        syncSourcesDim now t (syncOneSource now nc.1 nc.2 rows) := rfl
    rw [hfold, hstep, touchSources_eq_touchIf]
    have hallt : ∀ x ∈ t, FindDiffSrc (hash_key1 x.1) (cfgSrcDiff x.2)
        (rows.map (touchIfSrc now [hash_key1 nc.1])) := by
      intro x hx
      exact findDiffSrc_touchIf_map now _ (hall x (List.mem_cons_of_mem nc hx))
    rw [ih _ (List.nodup_cons.mp hnd).2 hallt, List.map_map]
    refine List.map_congr_left ?_
    intro x _
    show touchIfSrc now (srcKeysOf t) (touchIfSrc now [hash_key1 nc.1] x) = _
    rw [touchIfSrc_comp now [hash_key1 nc.1] (srcKeysOf t) ?_ x]
    · rfl
    · intro k hk1 hk2
      have : k = hash_key1 nc.1 := by
        rcases List.mem_singleton.mp hk1 with rfl
        rfl
      rw [this] at hk2
      have := mem_srcKeysOf.mp hk2
      exact (List.nodup_cons.mp hnd).1 this

theorem findCurrentSkill_eq_find? (hk : Key) (rows : List SkillRow) :
    findCurrentSkill hk rows = rows.find? (curSkl hk) := rfl

theorem touchSkills_eq_map (now : Nat) (hk : Key) (rows : List SkillRow) :
    touchSkills now hk rows =
      rows.map (fun r =>
        if curSkl hk r then { r with last_verified_at := some now } else r) := rfl

theorem closeSkills_eq_map (now : Nat) (hk : Key) (rows : List SkillRow) :
    closeSkills now hk rows =
      rows.map (fun r =>
        if curSkl hk r then { r with effective_to := some now, is_current := false }
        else r) := rfl

theorem findDiffSkl_map {hk : Key} {d : String} (g : SkillRow → SkillRow)
    (hp : ∀ x, curSkl hk (g x) = curSkl hk x)
    (hd : ∀ x, (g x).hash_diff = x.hash_diff) {rows : List SkillRow}
    (h : FindDiffSkl hk d rows) : FindDiffSkl hk d (rows.map g) := by
  obtain ⟨r, hf, hdiff⟩ := h
  refine ⟨g r, ?_, (hd r).trans hdiff⟩
  rw [findCurrentSkill_eq_find?, find?_map_pres g (curSkl hk) hp,
    ← findCurrentSkill_eq_find?, hf]
  rfl

theorem curSkl_touch (now : Nat) (hk hk2 : Key) (x : SkillRow) :
    curSkl hk (if curSkl hk2 x then { x with last_verified_at := some now }
               else x) = curSkl hk x := by
  by_cases hx : curSkl hk2 x = true
  · rw [if_pos hx]
    rfl
  · rw [if_neg hx]

theorem skl_hash_diff_touch (now : Nat) (hk2 : Key) (x : SkillRow) :
    (if curSkl hk2 x then { x with last_verified_at := some now }
     else x).hash_diff = x.hash_diff := by
  by_cases hx : curSkl hk2 x = true
  · rw [if_pos hx]
  · rw [if_neg hx]


theorem findDiffSkl_touch {hk : Key} {d : String} (now : Nat) (hk2 : Key)
    {rows : List SkillRow} (h : FindDiffSkl hk d rows) :
    FindDiffSkl hk d (touchSkills now hk2 rows) := by
  rw [touchSkills_eq_map]
  exact findDiffSkl_map _ (curSkl_touch now hk hk2) (skl_hash_diff_touch now hk2) h

theorem findDiffSkl_close_ne {hk : Key} {d : String} (now : Nat) {hk2 : Key}
    (hne : hk ≠ hk2) {rows : List SkillRow} (h : FindDiffSkl hk d rows) :
    FindDiffSkl hk d (closeSkills now hk2 rows) := by
  rw [closeSkills_eq_map]
  refine findDiffSkl_map _ ?_ ?_ h
  · intro x
    by_cases hx : curSkl hk2 x = true
    · have hkey : x.hash_key = hk2 := by
        unfold curSkl at hx
        simp only [Bool.and_eq_true, beq_iff_eq] at hx
        exact hx.1
      have h1 : curSkl hk x = false := by
        unfold curSkl
        rw [hkey]
        simp [beq_eq_false_iff_ne.mpr (Ne.symm hne)]
      have h2 : curSkl hk { x with effective_to := some now, is_current := false } =
          false := by
        unfold curSkl
        simp
      rw [if_pos hx, h1, h2]
    · rw [if_neg hx]
  · intro x
    by_cases hx : curSkl hk2 x = true <;> simp [hx]

theorem findDiffSkl_append {hk : Key} {d : String} {rows : List SkillRow}
    (l : List SkillRow) (h : FindDiffSkl hk d rows) :
    FindDiffSkl hk d (rows ++ l) := by
  obtain ⟨r, hf, hdiff⟩ := h
  refine ⟨r, ?_, hdiff⟩
  rw [findCurrentSkill_eq_find?] at hf ⊢
  rw [List.find?_append, hf]
  rfl

theorem curSkl_newSkillRow (now : Nat) (n : String) (c : SkillCfg) :
    curSkl (hash_key1 n) (newSkillRow now n c) = true := by
  simp [curSkl, newSkillRow]

theorem syncOneSkill_none (now : Nat) (n : String) (c : SkillCfg)
    (rows : List SkillRow)
    (hfind : findCurrentSkill (hash_key1 n) rows = none) :
    syncOneSkill now n c rows = rows ++ [newSkillRow now n c] := by
  unfold syncOneSkill
  rw [hfind]

theorem syncOneSkill_some (now : Nat) (n : String) (c : SkillCfg)
    (rows : List SkillRow) (ex : SkillRow)
    (hfind : findCurrentSkill (hash_key1 n) rows = some ex) :
    syncOneSkill now n c rows =
      (if (ex.hash_diff != cfgSkillDiff c) = true then
        closeSkills now (hash_key1 n) rows ++ [newSkillRow now n c]
       else touchSkills now (hash_key1 n) rows) := by
  unfold syncOneSkill
  rw [hfind]

theorem closeSkills_find?_none (now : Nat) (hk : Key) (rows : List SkillRow) :
    (closeSkills now hk rows).find? (curSkl hk) = none := by
  rw [closeSkills_eq_map]
  refine find?_map_none _ _ rows ?_
  intro x _
  by_cases hx : curSkl hk x = true
  · rw [if_pos hx]
    unfold curSkl
    simp
  · rw [if_neg hx]
    exact Bool.eq_false_iff.mpr hx

theorem findDiffSkl_syncOne_self (now : Nat) (n : String) (c : SkillCfg)
    (rows : List SkillRow) :
    FindDiffSkl (hash_key1 n) (cfgSkillDiff c) (syncOneSkill now n c rows) := by
  cases hfind : findCurrentSkill (hash_key1 n) rows with
  | none =>
    rw [syncOneSkill_none now n c rows hfind]
    refine ⟨newSkillRow now n c, ?_, rfl⟩
    rw [findCurrentSkill_eq_find?, List.find?_append,
      ← findCurrentSkill_eq_find?, hfind]
    simp [List.find?_cons_of_pos _ (curSkl_newSkillRow now n c)]
  | some ex =>
    rw [syncOneSkill_some now n c rows ex hfind]
    by_cases hdf : (ex.hash_diff != cfgSkillDiff c) = true
    · rw [if_pos hdf]
      refine ⟨newSkillRow now n c, ?_, rfl⟩
      rw [findCurrentSkill_eq_find?, List.find?_append,
        closeSkills_find?_none]
      simp [List.find?_cons_of_pos _ (curSkl_newSkillRow now n c)]
    · rw [if_neg hdf]
      have hdeq : ex.hash_diff = cfgSkillDiff c := by
        have := Bool.eq_false_iff.mpr hdf
        rw [bne_eq_false_iff_eq] at this
        exact this
      exact findDiffSkl_touch now (hash_key1 n) ⟨ex, hfind, hdeq⟩

theorem findDiffSkl_syncOne_ne {n n' : String} {d : String}
    (hnn : n ≠ n') (now : Nat) (c' : SkillCfg) {rows : List SkillRow}
    (h : FindDiffSkl (hash_key1 n) d rows) :
    FindDiffSkl (hash_key1 n) d (syncOneSkill now n' c' rows) := by
  have hkne : hash_key1 n ≠ hash_key1 n' := by
    simp [hash_key1, hnn]
  cases hfind : findCurrentSkill (hash_key1 n') rows with
  | none =>
    rw [syncOneSkill_none now n' c' rows hfind]
    exact findDiffSkl_append _ h
  | some ex =>
    rw [syncOneSkill_some now n' c' rows ex hfind]
    by_cases hdf : (ex.hash_diff != cfgSkillDiff c') = true
    · rw [if_pos hdf]
      exact findDiffSkl_append _ (findDiffSkl_close_ne now hkne h)
    · rw [if_neg hdf]
      exact findDiffSkl_touch now _ h

theorem findDiffSkl_fold_pres {n : String} {d : String}
    (srcs : List (String × SkillCfg)) (now : Nat)
    (hnot : ∀ nc ∈ srcs, nc.1 ≠ n) {rows : List SkillRow}
    (h : FindDiffSkl (hash_key1 n) d rows) :
    FindDiffSkl (hash_key1 n) d (syncSkillsDim now srcs rows) := by
  induction srcs generalizing rows with
  | nil => exact h
  | cons nc t ih =>
    have hstep := findDiffSkl_syncOne_ne
      (Ne.symm (hnot nc (List.mem_cons_self nc t))) now nc.2 h
    exact ih (fun x hx => hnot x (List.mem_cons_of_mem nc hx)) hstep

theorem syncSkillsDim_estab (now : Nat) (srcs : List (String × SkillCfg))
    (hnd : (srcs.map Prod.fst).Nodup) (rows : List SkillRow) :
    ∀ nc ∈ srcs,
      FindDiffSkl (hash_key1 nc.1) (cfgSkillDiff nc.2) (syncSkillsDim now srcs rows) := by
  induction srcs generalizing rows with
  | nil => intro nc hnc; exact absurd hnc (List.not_mem_nil nc)
  | cons hd0 t ih =>
    intro nc hnc
    have hfold : syncSkillsDim now (hd0 :: t) rows =
        syncSkillsDim now t (syncOneSkill now hd0.1 hd0.2 rows) := rfl
    rcases List.mem_cons.mp hnc with rfl | hmem
    · rw [hfold]
      have hself := findDiffSkl_syncOne_self now nc.1 nc.2 rows
      have hnotin : ∀ x ∈ t, x.1 ≠ nc.1 := by
        intro x hx
        intro heq
        have : nc.1 ∈ t.map Prod.fst := by
          rw [← heq]
          exact List.mem_map_of_mem Prod.fst hx
        exact (List.nodup_cons.mp hnd).1 this
      exact findDiffSkl_fold_pres t now hnotin hself
    · rw [hfold]
      exact ih (List.nodup_cons.mp hnd).2 _ nc hmem

theorem touchIfSkl_id_of_nil (now : Nat) (r : SkillRow) :
    touchIfSkl now [] r = r := by
  unfold touchIfSkl
  simp

theorem curSkl_touchIf (now : Nat) (ks : List Key) (hk : Key) (x : SkillRow) :
    curSkl hk (touchIfSkl now ks x) = curSkl hk x := by
  unfold touchIfSkl
  by_cases hx : (x.is_current && ks.contains x.hash_key) = true
  · rw [if_pos hx]
    rfl
  · rw [if_neg hx]

theorem skl_hash_diff_touchIf (now : Nat) (ks : List Key) (x : SkillRow) :
    (touchIfSkl now ks x).hash_diff = x.hash_diff := by
  unfold touchIfSkl
  by_cases hx : (x.is_current && ks.contains x.hash_key) = true
  · rw [if_pos hx]
  · rw [if_neg hx]

theorem findDiffSkl_touchIf_map {hk : Key} {d : String} (now : Nat)
    (ks : List Key) {rows : List SkillRow} (h : FindDiffSkl hk d rows) :
    FindDiffSkl hk d (rows.map (touchIfSkl now ks)) :=
  findDiffSkl_map _ (curSkl_touchIf now ks hk) (skl_hash_diff_touchIf now ks) h

theorem touchSkills_eq_touchIf (now : Nat) (hk : Key) (rows : List SkillRow) :
    touchSkills now hk rows = rows.map (touchIfSkl now [hk]) := by
  unfold touchSkills touchIfSkl
  refine List.map_congr_left ?_
  intro x _
  have hc : (x.hash_key == hk && x.is_current) =
      (x.is_current && [hk].contains x.hash_key) := by
    rw [List.contains_cons]
    cases hb : x.hash_key == hk <;> cases hcur : x.is_current <;> rfl
  rw [hc]

theorem touchIfSkl_comp (now : Nat) (ks1 ks2 : List Key)
    (hdisj : ∀ k, k ∈ ks1 → ¬ k ∈ ks2) (r : SkillRow) :
    touchIfSkl now ks2 (touchIfSkl now ks1 r) =
      touchIfSkl now (ks1 ++ ks2) r := by
  by_cases h1 : r.hash_key ∈ ks1
  · have h2 : ¬ r.hash_key ∈ ks2 := hdisj r.hash_key h1
    by_cases hcur : r.is_current = true
    · simp [touchIfSkl, hcur, h1, h2, contains_append]
    · have hcur' : r.is_current = false := Bool.eq_false_iff.mpr hcur
      simp [touchIfSkl, hcur']
  · by_cases h2 : r.hash_key ∈ ks2
    · by_cases hcur : r.is_current = true
      · simp [touchIfSkl, hcur, h1, h2, contains_append]
      · have hcur' : r.is_current = false := Bool.eq_false_iff.mpr hcur
        simp [touchIfSkl, hcur']
    · by_cases hcur : r.is_current = true
      · simp [touchIfSkl, hcur, h1, h2, contains_append]
      · have hcur' : r.is_current = false := Bool.eq_false_iff.mpr hcur
        simp [touchIfSkl, hcur']

theorem syncOneSkill_touch (now : Nat) (n : String) (c : SkillCfg)
    (rows : List SkillRow)
    (h : FindDiffSkl (hash_key1 n) (cfgSkillDiff c) rows) :
    syncOneSkill now n c rows = touchSkills now (hash_key1 n) rows := by
  obtain ⟨r, hf, hd⟩ := h
  rw [syncOneSkill_some now n c rows r hf]
  have hbne : (r.hash_diff != cfgSkillDiff c) = false := by
    rw [hd]
    simp
  rw [if_neg (by simp [hbne])]

theorem mem_sklKeysOf {n : String} {srcs : List (String × SkillCfg)} :
    hash_key1 n ∈ sklKeysOf srcs ↔ n ∈ srcs.map Prod.fst := by
  unfold sklKeysOf hash_key1
  constructor
  · intro h
    rcases List.mem_map.mp h with ⟨nc, hnc, heq⟩
    have hn : nc.1 = n := by simpa using heq
    rw [← hn]
    exact List.mem_map_of_mem Prod.fst hnc
  · intro h
    rcases List.mem_map.mp h with ⟨nc, hnc, heq⟩
    exact List.mem_map.mpr ⟨nc, hnc, by simp [heq]⟩

theorem syncSkillsDim_touch_round (now : Nat)
    (srcs : List (String × SkillCfg)) (rows : List SkillRow)
    (hnd : (srcs.map Prod.fst).Nodup)
    (hall : ∀ nc ∈ srcs, FindDiffSkl (hash_key1 nc.1) (cfgSkillDiff nc.2) rows) :
    syncSkillsDim now srcs rows = rows.map (touchIfSkl now (sklKeysOf srcs)) := by
  induction srcs generalizing rows with
  | nil =>
    show rows = rows.map (touchIfSkl now [])
    have hmapid : rows.map (touchIfSkl now []) = rows.map id :=
      List.map_congr_left (fun x _ => touchIfSkl_id_of_nil now x)
    rw [hmapid, List.map_id]
  | cons nc t ih =>
    have hstep := syncOneSkill_touch now nc.1 nc.2 rows
      (hall nc (List.mem_cons_self nc t))
    have hfold : syncSkillsDim now (nc :: t) rows =
        syncSkillsDim now t (syncOneSkill now nc.1 nc.2 rows) := rfl
    rw [hfold, hstep, touchSkills_eq_touchIf]
    have hallt : ∀ x ∈ t, FindDiffSkl (hash_key1 x.1) (cfgSkillDiff x.2)
        (rows.map (touchIfSkl now [hash_key1 nc.1])) := by
      intro x hx
      exact findDiffSkl_touchIf_map now _ (hall x (List.mem_cons_of_mem nc hx))
    rw [ih _ (List.nodup_cons.mp hnd).2 hallt, List.map_map]
    refine List.map_congr_left ?_
    intro x _
    show touchIfSkl now (sklKeysOf t) (touchIfSkl now [hash_key1 nc.1] x) = _
    rw [touchIfSkl_comp now [hash_key1 nc.1] (sklKeysOf t) ?_ x]
    · rfl
    · intro k hk1 hk2
      have : k = hash_key1 nc.1 := by
        rcases List.mem_singleton.mp hk1 with rfl
        rfl
      rw [this] at hk2
      have := mem_sklKeysOf.mp hk2
      exact (List.nodup_cons.mp hnd).1 this

theorem pageExists_append_left (hk : Key) (ps l : List PageRow)
    (h : pageExists hk ps = true) : pageExists hk (ps ++ l) = true := by
  unfold pageExists at *
  rw [List.any_append, h]
  rfl

theorem pageExists_ensure (now : Nat) (k : Key) (u : String)
    (ps : List PageRow) :
    pageExists (hash_key2 k u) (ensurePage now k u ps) = true := by
  unfold ensurePage
  by_cases h : pageExists (hash_key2 k u) ps = true
  · rw [if_pos h]
    exact h
  · rw [if_neg h]
    unfold pageExists
    rw [List.any_append]
    simp

theorem pageExists_ensure_pres (now : Nat) (k : Key) (u : String) (hk : Key)
    (ps : List PageRow) (h : pageExists hk ps = true) :
    pageExists hk (ensurePage now k u ps) = true := by
  unfold ensurePage
  by_cases hex : pageExists (hash_key2 k u) ps = true
  · rw [if_pos hex]
    exact h
  · rw [if_neg hex]
    exact pageExists_append_left hk ps _ h

theorem ensurePage_id (now : Nat) (k : Key) (u : String) (ps : List PageRow)
    (h : pageExists (hash_key2 k u) ps = true) : ensurePage now k u ps = ps := by
  unfold ensurePage
  rw [if_pos h]

theorem pageExists_fold_pres (now : Nat) (calls : List (Key × String))
    (hk : Key) (ps : List PageRow) (h : pageExists hk ps = true) :
    pageExists hk (ensurePages now calls ps) = true := by
  induction calls generalizing ps with
  | nil => exact h
  | cons c t ih => exact ih _ (pageExists_ensure_pres now c.1 c.2 hk ps h)

theorem ensurePages_estab (now : Nat) (calls : List (Key × String))
    (ps : List PageRow) :
    ∀ c ∈ calls, pageExists (hash_key2 c.1 c.2) (ensurePages now calls ps) = true := by
  induction calls generalizing ps with
  | nil => intro c hc; exact absurd hc (List.not_mem_nil c)
  | cons c0 t ih =>
    intro c hc
    rcases List.mem_cons.mp hc with rfl | hmem
    · exact pageExists_fold_pres now t _ _
        (pageExists_ensure now c.1 c.2 ps)
    · exact ih _ c hmem

theorem ensurePages_id (now : Nat) (calls : List (Key × String))
    (ps : List PageRow)
    (h : ∀ c ∈ calls, pageExists (hash_key2 c.1 c.2) ps = true) :
    ensurePages now calls ps = ps := by
  induction calls with
  | nil => rfl
  | cons c0 t ih =>
    show ensurePages now t (ensurePage now c0.1 c0.2 ps) = ps
    rw [ensurePage_id now c0.1 c0.2 ps (h c0 (List.mem_cons_self c0 t))]
    exact ih (fun c hc => h c (List.mem_cons_of_mem c0 hc))

theorem ensurePages_idem (now1 now2 : Nat) (calls : List (Key × String))
    (ps : List PageRow) :
    ensurePages now2 calls (ensurePages now1 calls ps) =
      ensurePages now1 calls ps :=
  ensurePages_id now2 calls _ (ensurePages_estab now1 calls ps)

theorem depExists_append_left (sk srck : Key) (ds l : List DepRow)
    (h : depExists sk srck ds = true) : depExists sk srck (ds ++ l) = true := by
  unfold depExists at *
  rw [List.any_append, h]
  rfl

theorem depExists_ensure (now : Nat) (sk srck : Key) (ds : List DepRow) :
    depExists sk srck (ensureDep now sk srck ds) = true := by
  unfold ensureDep
  by_cases h : depExists sk srck ds = true
  · rw [if_pos h]
    exact h
  · rw [if_neg h]
    unfold depExists
    rw [List.any_append]
    simp

theorem depExists_ensure_pres (now : Nat) (k1 k2 sk srck : Key)
    (ds : List DepRow) (h : depExists sk srck ds = true) :
    depExists sk srck (ensureDep now k1 k2 ds) = true := by
  unfold ensureDep
  by_cases hex : depExists k1 k2 ds = true
  · rw [if_pos hex]
    exact h
  · rw [if_neg hex]
    exact depExists_append_left sk srck ds _ h

theorem ensureDep_id (now : Nat) (sk srck : Key) (ds : List DepRow)
    (h : depExists sk srck ds = true) : ensureDep now sk srck ds = ds := by
  unfold ensureDep
  rw [if_pos h]

theorem depExists_fold_pres (now : Nat) (calls : List (Key × Key))
    (sk srck : Key) (ds : List DepRow) (h : depExists sk srck ds = true) :
    depExists sk srck (ensureDeps now calls ds) = true := by
  induction calls generalizing ds with
  | nil => exact h
  | cons c t ih => exact ih _ (depExists_ensure_pres now c.1 c.2 sk srck ds h)

theorem ensureDeps_estab (now : Nat) (calls : List (Key × Key))
    (ds : List DepRow) :
    ∀ c ∈ calls, depExists c.1 c.2 (ensureDeps now calls ds) = true := by
  induction calls generalizing ds with
  | nil => intro c hc; exact absurd hc (List.not_mem_nil c)
  | cons c0 t ih =>
    intro c hc
    rcases List.mem_cons.mp hc with rfl | hmem
    · exact depExists_fold_pres now t _ _ _ (depExists_ensure now c.1 c.2 ds)
    · exact ih _ c hmem

theorem ensureDeps_id (now : Nat) (calls : List (Key × Key))
    (ds : List DepRow)
    (h : ∀ c ∈ calls, depExists c.1 c.2 ds = true) :
    ensureDeps now calls ds = ds := by
  induction calls with
  | nil => rfl
  | cons c0 t ih =>
    show ensureDeps now t (ensureDep now c0.1 c0.2 ds) = ds
    rw [ensureDep_id now c0.1 c0.2 ds (h c0 (List.mem_cons_self c0 t))]
    exact ih (fun c hc => h c (List.mem_cons_of_mem c0 hc))

theorem ensureDeps_idem (now1 now2 : Nat) (calls : List (Key × Key))
    (ds : List DepRow) :
    ensureDeps now2 calls (ensureDeps now1 calls ds) = ensureDeps now1 calls ds :=
  ensureDeps_id now2 calls _ (ensureDeps_estab now1 calls ds)

theorem length_filter_map_pres {α : Type} (g : α → α) (p : α → Bool)
    (h : ∀ x, p (g x) = p x) (l : List α) :
    ((l.map g).filter p).length = (l.filter p).length := by
  induction l with
  | nil => rfl
  | cons x t ih =>
    rw [List.map_cons, List.filter_cons, List.filter_cons, h x]
    by_cases hx : p x = true
    · rw [hx]
      simp only [if_true, List.length_cons, ih]
    · rw [Bool.eq_false_iff.mpr hx]
      simp only [Bool.false_eq_true, if_false, ih]

theorem exists_mem_map_pred {α : Type} (g : α → α) (p : α → Bool)
    (h : ∀ x, p (g x) = p x) (l : List α) :
    (∃ r ∈ l.map g, p r = true) ↔ (∃ r ∈ l, p r = true) := by
  constructor
  · rintro ⟨r, hr, hp⟩
    rcases List.mem_map.mp hr with ⟨x, hx, rfl⟩
    exact ⟨x, hx, by rw [← h x]; exact hp⟩
  · rintro ⟨x, hx, hp⟩
    exact ⟨g x, List.mem_map_of_mem g hx, by rw [h x]; exact hp⟩

theorem curSrc_closeIf_ne (now : Nat) {hk hk0 : Key} (hne : hk ≠ hk0)
    (x : SourceRow) :
    curSrc hk (if curSrc hk0 x then
      { x with effective_to := some now, is_current := false } else x) =
      curSrc hk x := by
  by_cases hx : curSrc hk0 x = true
  · have hkey : x.hash_key = hk0 := by
      unfold curSrc at hx
      simp only [Bool.and_eq_true, beq_iff_eq] at hx
      exact hx.1
    rw [if_pos hx]
    unfold curSrc
    simp only [Bool.and_false]
    rw [hkey]
    simp [beq_eq_false_iff_ne.mpr (Ne.symm hne)]
  · rw [if_neg hx]

theorem curSrc_closeIf_false (now : Nat) (hk0 : Key) (x : SourceRow) :
    curSrc hk0 (if curSrc hk0 x then
      { x with effective_to := some now, is_current := false } else x) = false := by
  by_cases hx : curSrc hk0 x = true
  · rw [if_pos hx]
    unfold curSrc
    simp
  · rw [if_neg hx]
    exact Bool.eq_false_iff.mpr hx

theorem hash_key_closeIf (now : Nat) (hk0 : Key) (x : SourceRow) :
    (if curSrc hk0 x then
      { x with effective_to := some now, is_current := false } else x).hash_key =
      x.hash_key := by
  by_cases hx : curSrc hk0 x = true
  · rw [if_pos hx]
  · rw [if_neg hx]

theorem hash_key_touchIfSrc (now : Nat) (ks : List Key) (x : SourceRow) :
    (touchIfSrc now ks x).hash_key = x.hash_key := by
  unfold touchIfSrc
  by_cases hx : (x.is_current && ks.contains x.hash_key) = true
  · rw [if_pos hx]
  · rw [if_neg hx]

theorem filter_nil_of_false {α : Type} (p : α → Bool) (l : List α)
    (h : ∀ x ∈ l, p x = false) : l.filter p = [] := by
  induction l with
  | nil => rfl
  | cons x t ih =>
    rw [List.filter_cons, h x (List.mem_cons_self x t)]
    simp only [Bool.false_eq_true, if_false]
    exact ih (fun y hy => h y (List.mem_cons_of_mem x hy))

theorem uniqueCurrentSrc_map (g : SourceRow → SourceRow)
    (hp : ∀ hk x, curSrc hk (g x) = curSrc hk x)
    (hkey : ∀ x, (g x).hash_key = x.hash_key) {rows : List SourceRow}
    (h : UniqueCurrentSrc rows) : UniqueCurrentSrc (rows.map g) := by
  intro hk
  constructor
  · rw [length_filter_map_pres g (curSrc hk) (hp hk) rows]
    exact (h hk).1
  · intro ⟨r, hr, hrk⟩
    rcases List.mem_map.mp hr with ⟨x, hx, rfl⟩
    have hpres : ∃ r ∈ rows, r.hash_key = hk := ⟨x, hx, by rw [← hkey x]; exact hrk⟩
    have := (h hk).2 hpres
    exact (exists_mem_map_pred g (curSrc hk) (hp hk) rows).mpr this

theorem uniqueCurrentSrc_append_new (now : Nat) (n : String) (c : SourceCfg)
    {rows : List SourceRow}
    (hnone : rows.find? (curSrc (hash_key1 n)) = none)
    (h : UniqueCurrentSrc rows) :
    UniqueCurrentSrc (rows ++ [newSourceRow now n c]) := by
  intro hk
  have hnocur : ∀ x ∈ rows, curSrc (hash_key1 n) x = false :=
    fun x hx => Bool.eq_false_iff.mpr (List.find?_eq_none.mp hnone x hx)
  by_cases hkk : hk = hash_key1 n
  · subst hkk
    have hnopresence : ∀ x ∈ rows, x.hash_key ≠ hash_key1 n := by
      intro x hx hcon
      rcases (h (hash_key1 n)).2 ⟨x, hx, hcon⟩ with ⟨y, hy, hyc⟩
      rw [hnocur y hy] at hyc
      exact absurd hyc (by decide)
    constructor
    · rw [List.filter_append, filter_nil_of_false _ rows hnocur]
      simp [List.filter_cons, curSrc_newSourceRow now n c]
    · intro _
      refine ⟨newSourceRow now n c, List.mem_append_right rows (List.mem_singleton.mpr rfl), ?_⟩
      exact curSrc_newSourceRow now n c
  · have hnewnot : curSrc hk (newSourceRow now n c) = false := by
      unfold curSrc newSourceRow
      simp only [Bool.and_true]
      simp [beq_eq_false_iff_ne.mpr (fun hcon => hkk (hcon.symm))]
    constructor
    · rw [List.filter_append, filter_nil_of_false _ [newSourceRow now n c]
        (by intro x hx; rw [List.mem_singleton.mp hx]; exact hnewnot),
        List.append_nil]
      exact (h hk).1
    · rintro ⟨r, hr, hrk⟩
      rcases List.mem_append.mp hr with hin | hin
      · rcases (h hk).2 ⟨r, hin, hrk⟩ with ⟨y, hy, hyc⟩
        exact ⟨y, List.mem_append_left _ hy, hyc⟩
      · rw [List.mem_singleton.mp hin] at hrk
        exact absurd hrk (by
          unfold newSourceRow hash_key1
          intro hcon
          exact hkk (by rw [← hcon]; rfl))

theorem uniqueCurrentSrc_close_append (now : Nat) (n : String) (c : SourceCfg)
    {rows : List SourceRow} (h : UniqueCurrentSrc rows) :
    UniqueCurrentSrc
      (closeSources now (hash_key1 n) rows ++ [newSourceRow now n c]) := by
  intro hk
  rw [closeSources_eq_map]
  by_cases hkk : hk = hash_key1 n
  · subst hkk
    constructor
    · rw [List.filter_append, filter_nil_of_false _ _
        (by
          intro x hx
          rcases List.mem_map.mp hx with ⟨y, _, rfl⟩
          exact curSrc_closeIf_false now (hash_key1 n) y)]
      simp [List.filter_cons, curSrc_newSourceRow now n c]
    · intro _
      exact ⟨newSourceRow now n c,
        List.mem_append_right _ (List.mem_singleton.mpr rfl),
        curSrc_newSourceRow now n c⟩
  · have hnewnot : curSrc hk (newSourceRow now n c) = false := by
      unfold curSrc newSourceRow
      simp only [Bool.and_true]
      simp [beq_eq_false_iff_ne.mpr (fun hcon => hkk (hcon.symm))]
    constructor
    · rw [List.filter_append, filter_nil_of_false _ [newSourceRow now n c]
        (by intro x hx; rw [List.mem_singleton.mp hx]; exact hnewnot),
        List.append_nil,
        length_filter_map_pres _ (curSrc hk) (curSrc_closeIf_ne now hkk) rows]
      exact (h hk).1
    · rintro ⟨r, hr, hrk⟩
      rcases List.mem_append.mp hr with hin | hin
      · rcases List.mem_map.mp hin with ⟨x, hx, rfl⟩
        have hxkey : x.hash_key = hk := by
          rw [← hash_key_closeIf now (hash_key1 n) x]
          exact hrk
        rcases (h hk).2 ⟨x, hx, hxkey⟩ with ⟨y, hy, hyc⟩
        refine ⟨(if curSrc (hash_key1 n) y then
          { y with effective_to := some now, is_current := false } else y),
          List.mem_append_left _ (List.mem_map_of_mem _ hy), ?_⟩
        rw [curSrc_closeIf_ne now hkk y]
        exact hyc
      · rw [List.mem_singleton.mp hin] at hrk
        exact absurd hrk (by
          unfold newSourceRow hash_key1
          intro hcon
          exact hkk (by rw [← hcon]; rfl))

theorem uniqueCurrentSrc_syncOne (now : Nat) (n : String) (c : SourceCfg)
    {rows : List SourceRow} (h : UniqueCurrentSrc rows) :
    UniqueCurrentSrc (syncOneSource now n c rows) := by
  cases hfind : findCurrentSource (hash_key1 n) rows with
  | none =>
    rw [syncOneSource_none now n c rows hfind]
    exact uniqueCurrentSrc_append_new now n c hfind h
  | some ex =>
    rw [syncOneSource_some now n c rows ex hfind]
    by_cases hdf : (ex.hash_diff != cfgSrcDiff c) = true
    · rw [if_pos hdf]
      exact uniqueCurrentSrc_close_append now n c h
    · rw [if_neg hdf, touchSources_eq_map]
      exact uniqueCurrentSrc_map _ (fun hk x => curSrc_touch now hk (hash_key1 n) x)
        (fun x => by
          by_cases hx : curSrc (hash_key1 n) x = true
          · rw [if_pos hx]
          · rw [if_neg hx]) h

theorem uniqueCurrentSrc_syncFold (now : Nat)
    (srcs : List (String × SourceCfg)) {rows : List SourceRow}
    (h : UniqueCurrentSrc rows) :
    UniqueCurrentSrc (syncSourcesDim now srcs rows) := by
  induction srcs generalizing rows with
  | nil => exact h
  | cons nc t ih => exact ih (uniqueCurrentSrc_syncOne now nc.1 nc.2 h)

theorem curSkl_closeIf_ne (now : Nat) {hk hk0 : Key} (hne : hk ≠ hk0)
    (x : SkillRow) :
    curSkl hk (if curSkl hk0 x then
      { x with effective_to := some now, is_current := false } else x) =
      curSkl hk x := by
  by_cases hx : curSkl hk0 x = true
  · have hkey : x.hash_key = hk0 := by
      unfold curSkl at hx
      simp only [Bool.and_eq_true, beq_iff_eq] at hx
      exact hx.1
    rw [if_pos hx]
    unfold curSkl
    simp only [Bool.and_false]
    rw [hkey]
    simp [beq_eq_false_iff_ne.mpr (Ne.symm hne)]
  · rw [if_neg hx]

theorem curSkl_closeIf_false (now : Nat) (hk0 : Key) (x : SkillRow) :
    curSkl hk0 (if curSkl hk0 x then
      { x with effective_to := some now, is_current := false } else x) = false := by
  by_cases hx : curSkl hk0 x = true
  · rw [if_pos hx]
    unfold curSkl
    simp
  · rw [if_neg hx]
    exact Bool.eq_false_iff.mpr hx

theorem skl_hash_key_closeIf (now : Nat) (hk0 : Key) (x : SkillRow) :
    (if curSkl hk0 x then
      { x with effective_to := some now, is_current := false } else x).hash_key =
      x.hash_key := by
  by_cases hx : curSkl hk0 x = true
  · rw [if_pos hx]
  · rw [if_neg hx]

theorem hash_key_touchIfSkl (now : Nat) (ks : List Key) (x : SkillRow) :
    (touchIfSkl now ks x).hash_key = x.hash_key := by
  unfold touchIfSkl
  by_cases hx : (x.is_current && ks.contains x.hash_key) = true
  · rw [if_pos hx]
  · rw [if_neg hx]

theorem uniqueCurrentSkl_map (g : SkillRow → SkillRow)
    (hp : ∀ hk x, curSkl hk (g x) = curSkl hk x)
    (hkey : ∀ x, (g x).hash_key = x.hash_key) {rows : List SkillRow}
    (h : UniqueCurrentSkl rows) : UniqueCurrentSkl (rows.map g) := by
  intro hk
  constructor
  · rw [length_filter_map_pres g (curSkl hk) (hp hk) rows]
    exact (h hk).1
  · intro ⟨r, hr, hrk⟩
    rcases List.mem_map.mp hr with ⟨x, hx, rfl⟩
    have hpres : ∃ r ∈ rows, r.hash_key = hk := ⟨x, hx, by rw [← hkey x]; exact hrk⟩
    have := (h hk).2 hpres
    exact (exists_mem_map_pred g (curSkl hk) (hp hk) rows).mpr this

theorem uniqueCurrentSkl_append_new (now : Nat) (n : String) (c : SkillCfg)
    {rows : List SkillRow}
    (hnone : rows.find? (curSkl (hash_key1 n)) = none)
    (h : UniqueCurrentSkl rows) :
    UniqueCurrentSkl (rows ++ [newSkillRow now n c]) := by
  intro hk
  have hnocur : ∀ x ∈ rows, curSkl (hash_key1 n) x = false :=
    fun x hx => Bool.eq_false_iff.mpr (List.find?_eq_none.mp hnone x hx)
  by_cases hkk : hk = hash_key1 n
  · subst hkk
    have hnopresence : ∀ x ∈ rows, x.hash_key ≠ hash_key1 n := by
      intro x hx hcon
      rcases (h (hash_key1 n)).2 ⟨x, hx, hcon⟩ with ⟨y, hy, hyc⟩
      rw [hnocur y hy] at hyc
      exact absurd hyc (by decide)
    constructor
    · rw [List.filter_append, filter_nil_of_false _ rows hnocur]
      simp [List.filter_cons, curSkl_newSkillRow now n c]
    · intro _
      refine ⟨newSkillRow now n c, List.mem_append_right rows (List.mem_singleton.mpr rfl), ?_⟩
      exact curSkl_newSkillRow now n c
  · have hnewnot : curSkl hk (newSkillRow now n c) = false := by
      unfold curSkl newSkillRow
      simp only [Bool.and_true]
      simp [beq_eq_false_iff_ne.mpr (fun hcon => hkk (hcon.symm))]
    constructor
    · rw [List.filter_append, filter_nil_of_false _ [newSkillRow now n c]
        (by intro x hx; rw [List.mem_singleton.mp hx]; exact hnewnot),
        List.append_nil]
      exact (h hk).1
    · rintro ⟨r, hr, hrk⟩
      rcases List.mem_append.mp hr with hin | hin
      · rcases (h hk).2 ⟨r, hin, hrk⟩ with ⟨y, hy, hyc⟩
        exact ⟨y, List.mem_append_left _ hy, hyc⟩
      · rw [List.mem_singleton.mp hin] at hrk
        exact absurd hrk (by
          unfold newSkillRow hash_key1
          intro hcon
          exact hkk (by rw [← hcon]; rfl))

theorem uniqueCurrentSkl_close_append (now : Nat) (n : String) (c : SkillCfg)
    {rows : List SkillRow} (h : UniqueCurrentSkl rows) :
    UniqueCurrentSkl
      (closeSkills now (hash_key1 n) rows ++ [newSkillRow now n c]) := by
  intro hk
  rw [closeSkills_eq_map]
  by_cases hkk : hk = hash_key1 n
  · subst hkk
    constructor
    · rw [List.filter_append, filter_nil_of_false _ _
        (by
          intro x hx
          rcases List.mem_map.mp hx with ⟨y, _, rfl⟩
          exact curSkl_closeIf_false now (hash_key1 n) y)]
      simp [List.filter_cons, curSkl_newSkillRow now n c]
    · intro _
      exact ⟨newSkillRow now n c,
        List.mem_append_right _ (List.mem_singleton.mpr rfl),
        curSkl_newSkillRow now n c⟩
  · have hnewnot : curSkl hk (newSkillRow now n c) = false := by
      unfold curSkl newSkillRow
      simp only [Bool.and_true]
      simp [beq_eq_false_iff_ne.mpr (fun hcon => hkk (hcon.symm))]
    constructor
    · rw [List.filter_append, filter_nil_of_false _ [newSkillRow now n c]
        (by intro x hx; rw [List.mem_singleton.mp hx]; exact hnewnot),
        List.append_nil,
        length_filter_map_pres _ (curSkl hk) (curSkl_closeIf_ne now hkk) rows]
      exact (h hk).1
    · rintro ⟨r, hr, hrk⟩
      rcases List.mem_append.mp hr with hin | hin
      · rcases List.mem_map.mp hin with ⟨x, hx, rfl⟩
        have hxkey : x.hash_key = hk := by
          rw [← skl_hash_key_closeIf now (hash_key1 n) x]
          exact hrk
        rcases (h hk).2 ⟨x, hx, hxkey⟩ with ⟨y, hy, hyc⟩
        refine ⟨(if curSkl (hash_key1 n) y then
          { y with effective_to := some now, is_current := false } else y),
          List.mem_append_left _ (List.mem_map_of_mem _ hy), ?_⟩
        rw [curSkl_closeIf_ne now hkk y]
        exact hyc
      · rw [List.mem_singleton.mp hin] at hrk
        exact absurd hrk (by
          unfold newSkillRow hash_key1
          intro hcon
          exact hkk (by rw [← hcon]; rfl))

theorem uniqueCurrentSkl_syncOne (now : Nat) (n : String) (c : SkillCfg)
    {rows : List SkillRow} (h : UniqueCurrentSkl rows) :
    UniqueCurrentSkl (syncOneSkill now n c rows) := by
  cases hfind : findCurrentSkill (hash_key1 n) rows with
  | none =>
    rw [syncOneSkill_none now n c rows hfind]
    exact uniqueCurrentSkl_append_new now n c hfind h
  | some ex =>
    rw [syncOneSkill_some now n c rows ex hfind]
    by_cases hdf : (ex.hash_diff != cfgSkillDiff c) = true
    · rw [if_pos hdf]
      exact uniqueCurrentSkl_close_append now n c h
    · rw [if_neg hdf, touchSkills_eq_map]
      exact uniqueCurrentSkl_map _ (fun hk x => curSkl_touch now hk (hash_key1 n) x)
        (fun x => by
          by_cases hx : curSkl (hash_key1 n) x = true
          · rw [if_pos hx]
          · rw [if_neg hx]) h

theorem uniqueCurrentSkl_syncFold (now : Nat)
    (srcs : List (String × SkillCfg)) {rows : List SkillRow}
    (h : UniqueCurrentSkl rows) :
    UniqueCurrentSkl (syncSkillsDim now srcs rows) := by
  induction srcs generalizing rows with
  | nil => exact h
  | cons nc t ih => exact ih (uniqueCurrentSkl_syncOne now nc.1 nc.2 h)

theorem uniqueCurrentPg_ensure (now : Nat) (k : Key) (u : String)
    {ps : List PageRow} (h : UniqueCurrentPg ps) :
    UniqueCurrentPg (ensurePage now k u ps) := by
  unfold ensurePage
  by_cases hex : pageExists (hash_key2 k u) ps = true
  · rw [if_pos hex]
    exact h
  · rw [if_neg hex]
    have hnocur : ∀ p ∈ ps, curPg (hash_key2 k u) p = false := by
      intro p hp
      by_contra hcon
      rw [Bool.not_eq_false] at hcon
      refine absurd ?_ hex
      unfold pageExists
      rw [List.any_eq_true]
      exact ⟨p, hp, hcon⟩
    intro hk
    by_cases hkk : hk = hash_key2 k u
    · subst hkk
      have hnopresence : ∀ p ∈ ps, p.hash_key ≠ hash_key2 k u := by
        intro p hp hcon
        rcases (h (hash_key2 k u)).2 ⟨p, hp, hcon⟩ with ⟨y, hy, hyc⟩
        rw [hnocur y hy] at hyc
        exact absurd hyc (by decide)
      constructor
      · rw [List.filter_append, filter_nil_of_false _ ps hnocur]
        simp [List.filter_cons, curPg]
      · intro _
        refine ⟨_, List.mem_append_right ps (List.mem_singleton.mpr rfl), ?_⟩
        simp [curPg]
    · have hnewnot : curPg hk
          ({ hash_key := hash_key2 k u, source_key := k, url := u,
             effective_from := now, created_at := now } : PageRow) = false := by
        unfold curPg
        simp only [Bool.and_true]
        simp [beq_eq_false_iff_ne.mpr (fun hcon => hkk (hcon.symm))]
      constructor
      · rw [List.filter_append, filter_nil_of_false (curPg hk)
          [({ hash_key := hash_key2 k u, source_key := k, url := u,
              effective_from := now, created_at := now } : PageRow)]
          (by intro x hx; rw [List.mem_singleton.mp hx]; exact hnewnot),
          List.append_nil]
        exact (h hk).1
      · rintro ⟨p, hp, hpk⟩
        rcases List.mem_append.mp hp with hin | hin
        · rcases (h hk).2 ⟨p, hin, hpk⟩ with ⟨y, hy, hyc⟩
          exact ⟨y, List.mem_append_left _ hy, hyc⟩
        · rw [List.mem_singleton.mp hin] at hpk
          exact absurd hpk (by
            intro hcon
            exact hkk (by rw [← hcon]))

theorem uniqueCurrentPg_ensureFold (now : Nat) (calls : List (Key × String))
    {ps : List PageRow} (h : UniqueCurrentPg ps) :
    UniqueCurrentPg (ensurePages now calls ps) := by
  induction calls generalizing ps with
  | nil => exact h
  | cons c t ih => exact ih (uniqueCurrentPg_ensure now c.1 c.2 h)

theorem closedSrc_mem_syncOne (now : Nat) (n : String) (c : SourceCfg)
    {rows : List SourceRow} {r : SourceRow} (hr : r ∈ rows)
    (hc : r.is_current = false) : r ∈ syncOneSource now n c rows := by
  have hfix : ∀ g : SourceRow → SourceRow,
      (∀ x, x.is_current = false → g x = x) → r ∈ rows.map g := by
    intro g hg
    rw [← hg r hc]
    exact List.mem_map_of_mem g hr
  cases hfind : findCurrentSource (hash_key1 n) rows with
  | none =>
    rw [syncOneSource_none now n c rows hfind]
    exact List.mem_append_left _ hr
  | some ex =>
    rw [syncOneSource_some now n c rows ex hfind]
    by_cases hdf : (ex.hash_diff != cfgSrcDiff c) = true
    · rw [if_pos hdf, closeSources_eq_map]
      refine List.mem_append_left _ (hfix _ ?_)
      intro x hx
      rw [if_neg (by
        unfold curSrc
        rw [hx]
        simp)]
    · rw [if_neg hdf, touchSources_eq_map]
      refine hfix _ ?_
      intro x hx
      rw [if_neg (by
        unfold curSrc
        rw [hx]
        simp)]

theorem closedSrc_mem_syncFold (now : Nat) (srcs : List (String × SourceCfg))
    {rows : List SourceRow} {r : SourceRow} (hr : r ∈ rows)
    (hc : r.is_current = false) : r ∈ syncSourcesDim now srcs rows := by
  induction srcs generalizing rows with
  | nil => exact hr
  | cons nc t ih => exact ih (closedSrc_mem_syncOne now nc.1 nc.2 hr hc)

theorem closedSkl_mem_syncOne (now : Nat) (n : String) (c : SkillCfg)
    {rows : List SkillRow} {r : SkillRow} (hr : r ∈ rows)
    (hc : r.is_current = false) : r ∈ syncOneSkill now n c rows := by
  have hfix : ∀ g : SkillRow → SkillRow,
      (∀ x, x.is_current = false → g x = x) → r ∈ rows.map g := by
    intro g hg
    rw [← hg r hc]
    exact List.mem_map_of_mem g hr
  cases hfind : findCurrentSkill (hash_key1 n) rows with
  | none =>
    rw [syncOneSkill_none now n c rows hfind]
    exact List.mem_append_left _ hr
  | some ex =>
    rw [syncOneSkill_some now n c rows ex hfind]
    by_cases hdf : (ex.hash_diff != cfgSkillDiff c) = true
    · rw [if_pos hdf, closeSkills_eq_map]
      refine List.mem_append_left _ (hfix _ ?_)
      intro x hx
      rw [if_neg (by
        unfold curSkl
        rw [hx]
        simp)]
    · rw [if_neg hdf, touchSkills_eq_map]
      refine hfix _ ?_
      intro x hx
      rw [if_neg (by
        unfold curSkl
        rw [hx]
        simp)]

theorem closedSkl_mem_syncFold (now : Nat) (skills : List (String × SkillCfg))
    {rows : List SkillRow} {r : SkillRow} (hr : r ∈ rows)
    (hc : r.is_current = false) : r ∈ syncSkillsDim now skills rows := by
  induction skills generalizing rows with
  | nil => exact hr
  | cons nc t ih => exact ih (closedSkl_mem_syncOne now nc.1 nc.2 hr hc)

theorem mem_ensurePage (now : Nat) (k : Key) (u : String)
    {ps : List PageRow} {p : PageRow} (hp : p ∈ ps) :
    p ∈ ensurePage now k u ps := by
  unfold ensurePage
  by_cases hex : pageExists (hash_key2 k u) ps = true
  · rw [if_pos hex]
    exact hp
  · rw [if_neg hex]
    exact List.mem_append_left _ hp

theorem mem_ensurePages (now : Nat) (calls : List (Key × String))
    {ps : List PageRow} {p : PageRow} (hp : p ∈ ps) :
    p ∈ ensurePages now calls ps := by
  induction calls generalizing ps with
  | nil => exact hp
  | cons c t ih => exact ih (mem_ensurePage now c.1 c.2 hp)

theorem importWatermark_dims (now : Nat) (k : Key) (wm : Option WatermarkFact)
    (st : StoreState) :
    (importWatermark now k wm st).dim_source = st.dim_source ∧
    (importWatermark now k wm st).dim_skill = st.dim_skill ∧
    (importWatermark now k wm st).dim_page = st.dim_page := by
  unfold importWatermark
  cases wm with
  | none => exact ⟨rfl, rfl, rfl⟩
  | some w => exact ⟨rfl, rfl, rfl⟩

theorem importPage_dims (now : Nat) (k : Key) (p : PageSnap) (st : StoreState) :
    (importPage now k p st).dim_source = st.dim_source ∧
    (importPage now k p st).dim_skill = st.dim_skill ∧
    (importPage now k p st).dim_page = ensurePage now k p.url st.dim_page := by
  unfold importPage
  split <;> exact ⟨rfl, rfl, rfl⟩

theorem importFileHash_dims (now : Nat) (k : Key) (fh : Option (String × Nat))
    (st : StoreState) :
    (importFileHash now k fh st).dim_source = st.dim_source ∧
    (importFileHash now k fh st).dim_skill = st.dim_skill ∧
    (importFileHash now k fh st).dim_page = st.dim_page := by
  unfold importFileHash
  split <;> (try split) <;> exact ⟨rfl, rfl, rfl⟩

theorem importRepoEntry_dims (now : Nat) (st : StoreState)
    (entry : String × (Nat × String × Nat)) :
    (importRepoEntry now st entry).dim_source = st.dim_source ∧
    (importRepoEntry now st entry).dim_skill = st.dim_skill ∧
    (importRepoEntry now st entry).dim_page = st.dim_page := by
  unfold importRepoEntry
  split <;> (try split) <;> exact ⟨rfl, rfl, rfl⟩

theorem importPagesFold_dims (now : Nat) (k : Key) (pages : List PageSnap)
    (st : StoreState) :
    (pages.foldl (fun s p => importPage now k p s) st).dim_source = st.dim_source ∧
    (pages.foldl (fun s p => importPage now k p s) st).dim_skill = st.dim_skill ∧
    (UniqueCurrentPg st.dim_page →
      UniqueCurrentPg (pages.foldl (fun s p => importPage now k p s) st).dim_page) ∧
    (∀ q ∈ st.dim_page, q ∈ (pages.foldl (fun s p => importPage now k p s) st).dim_page) := by
  induction pages generalizing st with
  | nil => exact ⟨rfl, rfl, fun h => h, fun q hq => hq⟩
  | cons p t ih =>
    have hp := importPage_dims now k p st
    have hfold := ih (importPage now k p st)
    refine ⟨hfold.1.trans hp.1, hfold.2.1.trans hp.2.1, ?_, ?_⟩
    · intro h
      refine hfold.2.2.1 ?_
      rw [hp.2.2]
      exact uniqueCurrentPg_ensure now k p.url h
    · intro q hq
      refine hfold.2.2.2 q ?_
      rw [hp.2.2]
      exact mem_ensurePage now k p.url hq

theorem importDocsEntry_dims (now : Nat) (st : StoreState)
    (entry : String × DocSourceSnap) :
    (importDocsEntry now st entry).dim_source = st.dim_source ∧
    (importDocsEntry now st entry).dim_skill = st.dim_skill ∧
    (UniqueCurrentPg st.dim_page →
      UniqueCurrentPg (importDocsEntry now st entry).dim_page) ∧
    (∀ q ∈ st.dim_page, q ∈ (importDocsEntry now st entry).dim_page) := by
  unfold importDocsEntry
  cases hk : getSourceKey st entry.1 with
  | none => exact ⟨rfl, rfl, fun h => h, fun q hq => hq⟩
  | some k =>
    have hwm := importWatermark_dims now k entry.2.watermark st
    have hfold := importPagesFold_dims now k entry.2.pages
      (importWatermark now k entry.2.watermark st)
    have hfh := importFileHash_dims now k entry.2.file_hash
      (entry.2.pages.foldl (fun s p => importPage now k p s)
        (importWatermark now k entry.2.watermark st))
    refine ⟨hfh.1.trans (hfold.1.trans hwm.1),
      hfh.2.1.trans (hfold.2.1.trans hwm.2.1), ?_, ?_⟩
    · intro h
      rw [hfh.2.2]
      refine hfold.2.2.1 ?_
      rw [hwm.2.2]
      exact h
    · intro q hq
      rw [hfh.2.2]
      refine hfold.2.2.2 q ?_
      rw [hwm.2.2]
      exact hq

theorem import_dims (st : StoreState) (now : Nat) (snap : Snapshot) :
    (import_state_json st now snap).dim_source = st.dim_source ∧
    (import_state_json st now snap).dim_skill = st.dim_skill ∧
    (UniqueCurrentPg st.dim_page →
      UniqueCurrentPg (import_state_json st now snap).dim_page) ∧
    (∀ q ∈ st.dim_page, q ∈ (import_state_json st now snap).dim_page) := by
  unfold import_state_json
  have hdocs : ∀ (entries : List (String × DocSourceSnap)) (s : StoreState),
      (entries.foldl (importDocsEntry now) s).dim_source = s.dim_source ∧
      (entries.foldl (importDocsEntry now) s).dim_skill = s.dim_skill ∧
      (UniqueCurrentPg s.dim_page →
        UniqueCurrentPg (entries.foldl (importDocsEntry now) s).dim_page) ∧
      (∀ q ∈ s.dim_page, q ∈ (entries.foldl (importDocsEntry now) s).dim_page) := by
    intro entries
    induction entries with
    | nil => exact fun s => ⟨rfl, rfl, fun h => h, fun q hq => hq⟩
    | cons e t ih =>
      intro s
      have he := importDocsEntry_dims now s e
      have ht := ih (importDocsEntry now s e)
      exact ⟨ht.1.trans he.1, ht.2.1.trans he.2.1,
        fun h => ht.2.2.1 (he.2.2.1 h),
        fun q hq => ht.2.2.2 q (he.2.2.2 q hq)⟩
  have hrepos : ∀ (entries : List (String × (Nat × String × Nat))) (s : StoreState),
      (entries.foldl (importRepoEntry now) s).dim_source = s.dim_source ∧
      (entries.foldl (importRepoEntry now) s).dim_skill = s.dim_skill ∧
      (entries.foldl (importRepoEntry now) s).dim_page = s.dim_page := by
    intro entries
    induction entries with
    | nil => exact fun s => ⟨rfl, rfl, rfl⟩
    | cons e t ih =>
      intro s
      have he := importRepoEntry_dims now s e
      have ht := ih (importRepoEntry now s e)
      exact ⟨ht.1.trans he.1, ht.2.1.trans he.2.1, ht.2.2.trans he.2.2⟩
  have hd := hdocs snap.docs st
  have hr := hrepos snap.sources (snap.docs.foldl (importDocsEntry now) st)
  refine ⟨hr.1.trans hd.1, hr.2.1.trans hd.2.1, ?_, ?_⟩
  · intro h
    rw [hr.2.2]
    exact hd.2.2.1 h
  · intro q hq
    rw [hr.2.2]
    exact hd.2.2.2 q hq

theorem syncSourcesDim_append (now : Nat) (a b : List (String × SourceCfg))
    (rows : List SourceRow) :
    syncSourcesDim now (a ++ b) rows =
      syncSourcesDim now b (syncSourcesDim now a rows) :=
  List.foldl_append _ _ a b

theorem syncOneSource_close (now : Nat) (n : String) (c : SourceCfg)
    (rows : List SourceRow) (ex : SourceRow)
    (hfind : findCurrentSource (hash_key1 n) rows = some ex)
    (hdf : ex.hash_diff ≠ cfgSrcDiff c) :
    syncOneSource now n c rows =
      closeSources now (hash_key1 n) rows ++ [newSourceRow now n c] := by
  rw [syncOneSource_some now n c rows ex hfind, if_pos (bne_iff_ne.mpr hdf)]

theorem touchIfSrc_id_of_not_mem (now : Nat) (ks : List Key) (r : SourceRow)
    (h : ¬ r.hash_key ∈ ks) : touchIfSrc now ks r = r := by
  unfold touchIfSrc
  rw [if_neg]
  intro hcon
  rw [Bool.and_eq_true, List.elem_iff] at hcon
  exact h hcon.2

theorem scd_comp (now : Nat) (hk0 : Key) (ks1 ks2 : List Key)
    (h01 : ¬ hk0 ∈ ks1) (h02 : ¬ hk0 ∈ ks2)
    (hdisj : ∀ k ∈ ks1, ¬ k ∈ ks2) (r : SourceRow) :
    touchIfSrc now ks2
      ((fun x => if curSrc hk0 x then
          { x with effective_to := some now, is_current := false } else x)
        (touchIfSrc now ks1 r)) =
      scdCloseTouch now hk0 ks1 ks2 r := by
  by_cases hcur : r.is_current = true
  · by_cases hkey : r.hash_key = hk0
    · simp [touchIfSrc, scdCloseTouch, curSrc, hcur, hkey, h01, h02]
    · by_cases h1 : r.hash_key ∈ ks1
      · have h2 : ¬ r.hash_key ∈ ks2 := hdisj r.hash_key h1
        simp [touchIfSrc, scdCloseTouch, curSrc, hcur, hkey, h1, h2]
      · by_cases h2 : r.hash_key ∈ ks2
        · simp [touchIfSrc, scdCloseTouch, curSrc, hcur, hkey, h1, h2]
        · simp [touchIfSrc, scdCloseTouch, curSrc, hcur, hkey, h1, h2]
  · have hcur' : r.is_current = false := Bool.eq_false_iff.mpr hcur
    simp [touchIfSrc, scdCloseTouch, curSrc, hcur']

theorem countP_or_disjoint {α : Type} (p q : α → Bool) (l : List α)
    (h : ∀ x ∈ l, ¬(p x = true ∧ q x = true)) :
    l.countP (fun x => p x || q x) = l.countP p + l.countP q := by
  induction l with
  | nil => rfl
  | cons x t ih =>
    have ht := ih (fun y hy => h y (List.mem_cons_of_mem x hy))
    have hx := h x (List.mem_cons_self x t)
    by_cases hp : p x = true
    · have hq : q x = false := by
        by_contra hc
        rw [Bool.not_eq_false] at hc
        exact hx ⟨hp, hc⟩
      rw [List.countP_cons, List.countP_cons, List.countP_cons]
      simp only [hp, hq, Bool.or_false, if_true, Bool.false_eq_true, if_false, ht]
      omega
    · have hp' : p x = false := Bool.eq_false_iff.mpr hp
      by_cases hq : q x = true
      · rw [List.countP_cons, List.countP_cons, List.countP_cons]
        simp only [hp', hq, Bool.false_or, if_true, Bool.false_eq_true, if_false, ht]
        omega
      · have hq' : q x = false := Bool.eq_false_iff.mpr hq
        rw [List.countP_cons, List.countP_cons, List.countP_cons]
        simp only [hp', hq', Bool.or_false, Bool.false_eq_true, if_false, ht]
        omega

theorem scd_closed_pointwise (now : Nat) (hk0 : Key) (ks1 ks2 : List Key)
    (r : SourceRow) :
    (!(scdCloseTouch now hk0 ks1 ks2 r).is_current) =
      ((!r.is_current) || curSrc hk0 r) := by
  by_cases hcur : r.is_current = true
  · by_cases hkey : r.hash_key = hk0
    · simp [scdCloseTouch, curSrc, hcur, hkey]
    · by_cases hmem : r.hash_key ∈ ks1 ∨ r.hash_key ∈ ks2
      · simp [scdCloseTouch, curSrc, hcur, hkey, hmem]
      · simp [scdCloseTouch, curSrc, hcur, hkey, hmem]
  · have hcur' : r.is_current = false := Bool.eq_false_iff.mpr hcur
    simp [scdCloseTouch, curSrc, hcur']

theorem scd_curSrc_false (now : Nat) (hk0 : Key) (ks1 ks2 : List Key)
    (r : SourceRow) :
    curSrc hk0 (scdCloseTouch now hk0 ks1 ks2 r) = false := by
  by_cases hcur : r.is_current = true
  · by_cases hkey : r.hash_key = hk0
    · simp [scdCloseTouch, curSrc, hcur, hkey]
    · by_cases hmem : r.hash_key ∈ ks1 ∨ r.hash_key ∈ ks2
      · simp [scdCloseTouch, curSrc, hcur, hkey, hmem]
      · simp [scdCloseTouch, curSrc, hcur, hkey, hmem]
  · have hcur' : r.is_current = false := Bool.eq_false_iff.mpr hcur
    simp [scdCloseTouch, curSrc, hcur']

theorem filter_length_one_of_findDiff {hk : Key} {d : String}
    {rows : List SourceRow} (hfd : FindDiffSrc hk d rows)
    (hinv : UniqueCurrentSrc rows) :
    (rows.filter (curSrc hk)).length = 1 := by
  obtain ⟨r, hf, -⟩ := hfd
  rw [findCurrentSource_eq_find?] at hf
  have hmem : r ∈ rows := List.mem_of_find?_eq_some hf
  have hsat : curSrc hk r = true := List.find?_some hf
  have hone : r ∈ rows.filter (curSrc hk) := List.mem_filter.mpr ⟨hmem, hsat⟩
  have hlen : 0 < (rows.filter (curSrc hk)).length :=
    List.length_pos_of_mem hone
  have hle := (hinv hk).1
  omega

theorem scdCloseTouch_id (now : Nat) (hk0 : Key) (ks1 ks2 : List Key)
    (r : SourceRow) (h0 : r.hash_key ≠ hk0)
    (h1 : ¬ r.hash_key ∈ ks1) (h2 : ¬ r.hash_key ∈ ks2) :
    scdCloseTouch now hk0 ks1 ks2 r = r := by
  by_cases hcur : r.is_current = true
  · simp [scdCloseTouch, hcur, h0, h1, h2]
  · have hcur' : r.is_current = false := Bool.eq_false_iff.mpr hcur
    simp [scdCloseTouch, hcur']

theorem countP_congr_eq {α : Type} (p q : α → Bool) (l : List α)
    (h : ∀ x ∈ l, p x = q x) : l.countP p = l.countP q := by
  induction l with
  | nil => rfl
  | cons x t ih =>
    rw [List.countP_cons, List.countP_cons, h x (List.mem_cons_self x t),
      ih (fun y hy => h y (List.mem_cons_of_mem x hy))]

theorem scd_round (now2 : Nat) (l1 l2 : List (String × SourceCfg))
    (n0 : String) (c0 c0' : SourceCfg) (rows1 : List SourceRow)
    (hnd1 : (l1.map Prod.fst).Nodup) (hnd2 : (l2.map Prod.fst).Nodup)
    (hn0l1 : ¬ n0 ∈ l1.map Prod.fst) (hn0l2 : ¬ n0 ∈ l2.map Prod.fst)
    (hdisj : ∀ a ∈ l1.map Prod.fst, ¬ a ∈ l2.map Prod.fst)
    (hdf : cfgSrcDiff c0 ≠ cfgSrcDiff c0')
    (hall1 : ∀ nc ∈ l1, FindDiffSrc (hash_key1 nc.1) (cfgSrcDiff nc.2) rows1)
    (hall0 : FindDiffSrc (hash_key1 n0) (cfgSrcDiff c0) rows1)
    (hall2 : ∀ nc ∈ l2, FindDiffSrc (hash_key1 nc.1) (cfgSrcDiff nc.2) rows1) :
    syncSourcesDim now2 (l1 ++ (n0, c0') :: l2) rows1 =
      rows1.map (scdCloseTouch now2 (hash_key1 n0) (srcKeysOf l1) (srcKeysOf l2)) ++
        [newSourceRow now2 n0 c0'] := by
  have h01 : ¬ hash_key1 n0 ∈ srcKeysOf l1 := fun h => hn0l1 (mem_srcKeysOf.mp h)
  have h02 : ¬ hash_key1 n0 ∈ srcKeysOf l2 := fun h => hn0l2 (mem_srcKeysOf.mp h)
  have hdisjK : ∀ k ∈ srcKeysOf l1, ¬ k ∈ srcKeysOf l2 := by
    intro k hk1 hk2
    rcases List.mem_map.mp hk1 with ⟨nc, hnc, rfl⟩
    exact hdisj nc.1 (List.mem_map_of_mem Prod.fst hnc) (mem_srcKeysOf.mp hk2)
  have hstep2 : syncSourcesDim now2 l1 rows1 =
      rows1.map (touchIfSrc now2 (srcKeysOf l1)) :=
    syncSourcesDim_touch_round now2 l1 rows1 hnd1 hall1
  obtain ⟨ex, hex, hexd⟩ :
      FindDiffSrc (hash_key1 n0) (cfgSrcDiff c0)
        (rows1.map (touchIfSrc now2 (srcKeysOf l1))) :=
    findDiffSrc_touchIf_map now2 _ hall0
  have hstep3 : syncOneSource now2 n0 c0'
        (rows1.map (touchIfSrc now2 (srcKeysOf l1))) =
      closeSources now2 (hash_key1 n0)
        (rows1.map (touchIfSrc now2 (srcKeysOf l1))) ++
        [newSourceRow now2 n0 c0'] :=
    syncOneSource_close now2 n0 c0' _ ex hex (by rw [hexd]; exact hdf)
  have hallY : ∀ nc ∈ l2, FindDiffSrc (hash_key1 nc.1) (cfgSrcDiff nc.2)
      (closeSources now2 (hash_key1 n0)
        (rows1.map (touchIfSrc now2 (srcKeysOf l1))) ++
        [newSourceRow now2 n0 c0']) := by
    intro nc hnc
    have hne : nc.1 ≠ n0 := fun he => hn0l2 (he ▸ List.mem_map_of_mem Prod.fst hnc)
    have hkne : hash_key1 nc.1 ≠ hash_key1 n0 :=
      fun he => hne (by simpa [hash_key1] using he)
    exact findDiffSrc_append _
      (findDiffSrc_close_ne now2 hkne
        (findDiffSrc_touchIf_map now2 _ (hall2 nc hnc)))
  have hstep5 := syncSourcesDim_touch_round now2 l2 _ hnd2 hallY
  have hnewid : touchIfSrc now2 (srcKeysOf l2) (newSourceRow now2 n0 c0') =
      newSourceRow now2 n0 c0' :=
    touchIfSrc_id_of_not_mem now2 _ _ h02
  calc syncSourcesDim now2 (l1 ++ (n0, c0') :: l2) rows1
      = syncSourcesDim now2 ((n0, c0') :: l2) (syncSourcesDim now2 l1 rows1) :=
        syncSourcesDim_append now2 l1 _ rows1
    _ = syncSourcesDim now2 l2 (syncOneSource now2 n0 c0'
          (syncSourcesDim now2 l1 rows1)) := rfl
    _ = syncSourcesDim now2 l2 (closeSources now2 (hash_key1 n0)
          (rows1.map (touchIfSrc now2 (srcKeysOf l1))) ++
          [newSourceRow now2 n0 c0']) := by
        rw [hstep2, hstep3]
    _ = (closeSources now2 (hash_key1 n0)
          (rows1.map (touchIfSrc now2 (srcKeysOf l1))) ++
          [newSourceRow now2 n0 c0']).map (touchIfSrc now2 (srcKeysOf l2)) :=
        hstep5
    _ = (closeSources now2 (hash_key1 n0)
          (rows1.map (touchIfSrc now2 (srcKeysOf l1)))).map
            (touchIfSrc now2 (srcKeysOf l2)) ++
          [newSourceRow now2 n0 c0'] := by
        rw [List.map_append]
        simp [hnewid]
    _ = rows1.map (scdCloseTouch now2 (hash_key1 n0) (srcKeysOf l1)
          (srcKeysOf l2)) ++ [newSourceRow now2 n0 c0'] := by
        rw [closeSources_eq_map, List.map_map, List.map_map]
        congr 1
        refine List.map_congr_left ?_
        intro r _
        exact scd_comp now2 (hash_key1 n0) (srcKeysOf l1) (srcKeysOf l2)
          h01 h02 hdisjK r

/-! ## Helper lemmas for the export/import round trip -/

theorem find?_map_uniform {α β : Type} (q : α → Bool) (g : α → β) (L : List α)
    (v : β) (huni : ∀ x ∈ L, q x = true → g x = v)
    (hex : ∃ x ∈ L, q x = true) :
    (L.find? q).map g = some v := by
  obtain ⟨x, hx, hq⟩ := hex
  cases hfind : L.find? q with
  | none =>
    have hnone := List.find?_eq_none.mp hfind x hx
    rw [hq] at hnone
    exact absurd rfl hnone
  | some y =>
    exact congrArg some (huni y (List.mem_of_find?_eq_some hfind)
      (List.find?_some hfind))

theorem find?_bind_uniform {α β : Type} (q : α → Bool) (g : α → Option β)
    (L : List α) (v : Option β) (huni : ∀ x ∈ L, q x = true → g x = v)
    (hex : ∃ x ∈ L, q x = true) :
    (L.find? q).bind g = v := by
  obtain ⟨x, hx, hq⟩ := hex
  cases hfind : L.find? q with
  | none =>
    have hnone := List.find?_eq_none.mp hfind x hx
    rw [hq] at hnone
    exact absurd rfl hnone
  | some y =>
    exact huni y (List.mem_of_find?_eq_some hfind) (List.find?_some hfind)

theorem find?_none_of {α : Type} (q : α → Bool) (L : List α)
    (h : ∀ x ∈ L, q x = false) : L.find? q = none :=
  List.find?_eq_none.mpr (fun x hx => by rw [h x hx]; exact Bool.false_ne_true)

theorem flatMap_nil_of {α β : Type} (f : α → List β) (l : List α)
    (h : ∀ a ∈ l, f a = []) : l.flatMap f = [] := by
  induction l with
  | nil => rfl
  | cons x t ih =>
    rw [List.flatMap_cons, h x (List.mem_cons_self x t),
      ih (fun a ha => h a (List.mem_cons_of_mem x ha))]
    rfl

theorem flatMap_single {α β : Type} (f : α → List β) (l1 l2 : List α)
    (a : α) (h1 : ∀ x ∈ l1, f x = []) (h2 : ∀ x ∈ l2, f x = []) :
    (l1 ++ a :: l2).flatMap f = f a := by
  rw [List.flatMap_append, List.flatMap_cons, flatMap_nil_of f l1 h1,
    flatMap_nil_of f l2 h2, List.nil_append, List.append_nil]

theorem pickLatest_fold_mem {α : Type} (ts : α → Nat) (l : List α) :
    ∀ (acc : Option α) (x : α),
      l.foldl (fun acc y =>
        match acc with
        | none => some y
        | some b => if ts b ≤ ts y then some y else some b) acc = some x →
      acc = some x ∨ x ∈ l := by
  induction l with
  | nil => intro acc x h; exact Or.inl h
  | cons y t ih =>
    intro acc x h
    rcases ih _ x h with hacc | hmem
    · cases acc with
      | none =>
        have hyx : y = x := by
          have : some y = some x := hacc
          exact Option.some_inj.mp this
        exact Or.inr (hyx ▸ List.mem_cons_self y t)
      | some b =>
        by_cases hle : ts b ≤ ts y
        · have : some y = some x := by
            have hacc' : (if ts b ≤ ts y then some y else some b) = some x := hacc
            rw [if_pos hle] at hacc'
            exact hacc'
          exact Or.inr (Option.some_inj.mp this ▸ List.mem_cons_self y t)
        · have : some b = some x := by
            have hacc' : (if ts b ≤ ts y then some y else some b) = some x := hacc
            rw [if_neg hle] at hacc'
            exact hacc'
          exact Or.inl this
    · exact Or.inr (List.mem_cons_of_mem y hmem)

theorem pickLatest_mem {α : Type} (ts : α → Nat) (l : List α) (x : α)
    (h : pickLatest ts l = some x) : x ∈ l := by
  rcases pickLatest_fold_mem ts l none x h with hacc | hmem
  · exact absurd hacc (by simp)
  · exact hmem

theorem pickLatest_fold_isSome {α : Type} (ts : α → Nat) (l : List α) :
    ∀ b : α,
      (l.foldl (fun acc y =>
        match acc with
        | none => some y
        | some b => if ts b ≤ ts y then some y else some b) (some b)).isSome
        = true := by
  induction l with
  | nil => intro b; rfl
  | cons y t ih =>
    intro b
    show (t.foldl _ (if ts b ≤ ts y then some y else some b)).isSome = true
    by_cases hle : ts b ≤ ts y
    · rw [if_pos hle]; exact ih y
    · rw [if_neg hle]; exact ih b

theorem pickLatest_isSome {α : Type} (ts : α → Nat) (y : α) (t : List α) :
    (pickLatest ts (y :: t)).isSome = true :=
  pickLatest_fold_isSome ts t y

theorem countP_le_countP {α : Type} (p q : α → Bool) (l : List α)
    (h : ∀ x ∈ l, p x = true → q x = true) : l.countP p ≤ l.countP q := by
  induction l with
  | nil => exact Nat.le_refl 0
  | cons x t ih =>
    rw [List.countP_cons, List.countP_cons]
    have ht := ih (fun y hy => h y (List.mem_cons_of_mem x hy))
    by_cases hp : p x = true
    · rw [if_pos hp, if_pos (h x (List.mem_cons_self x t) hp)]
      omega
    · rw [if_neg hp]
      by_cases hq : q x = true
      · rw [if_pos hq]; omega
      · rw [if_neg hq]; omega

theorem two_le_countP_of_two {α : Type} (p : α → Bool) (l : List α)
    (a b : α) (ha : a ∈ l) (hb : b ∈ l) (hne : a ≠ b)
    (hpa : p a = true) (hpb : p b = true) : 2 ≤ l.countP p := by
  induction l with
  | nil => exact absurd ha (List.not_mem_nil a)
  | cons x t ih =>
    rw [List.countP_cons]
    rcases List.mem_cons.mp ha with rfl | hat
    · have hbt : b ∈ t := by
        rcases List.mem_cons.mp hb with rfl | hbt
        · exact absurd rfl hne
        · exact hbt
      have h1 : 0 < t.countP p := List.countP_pos_iff.mpr ⟨b, hbt, hpb⟩
      rw [if_pos hpa]
      omega
    · rcases List.mem_cons.mp hb with rfl | hbt
      · have h1 : 0 < t.countP p := List.countP_pos_iff.mpr ⟨a, hat, hpa⟩
        rw [if_pos hpb]
        omega
      · have h2 := ih hat hbt
        omega

theorem filterMap_names_sublist {α β : Type} (f : α → Option β) (g : α → β)
    (l : List α) (h : ∀ a ∈ l, ∀ b, f a = some b → b = g a) :
    (l.filterMap f).Sublist (l.map g) := by
  induction l with
  | nil => exact List.Sublist.refl []
  | cons x t ih =>
    rw [List.filterMap_cons, List.map_cons]
    have ht := ih (fun a ha => h a (List.mem_cons_of_mem x ha))
    cases hfx : f x with
    | none => exact ht.cons (g x)
    | some b =>
      rw [h x (List.mem_cons_self x t) b hfx]
      exact ht.cons₂ (g x)

theorem current_names_nodup (rows : List SourceRow) (q : SourceRow → Bool)
    (hq : ∀ r, q r = true → r.is_current = true)
    (hWK : ∀ r ∈ rows, r.hash_key = [r.source_name])
    (hinv : UniqueCurrentSrc rows) :
    ((rows.filter q).map (fun r => r.source_name)).Nodup := by
  rw [List.nodup_iff_count_le_one]
  intro n
  rw [List.count_eq_countP, List.countP_map, List.countP_filter]
  have hle : rows.countP
      (fun a => ((fun x => x == n) ∘ fun r => r.source_name) a && q a)
      ≤ rows.countP (curSrc [n]) := by
    refine countP_le_countP _ _ rows ?_
    intro r hr hpr
    simp only [Function.comp, Bool.and_eq_true, beq_iff_eq] at hpr
    unfold curSrc
    rw [hWK r hr, hpr.1]
    simp [hq r hpr.2]
  have hone : rows.countP (curSrc [n]) ≤ 1 := by
    rw [List.countP_eq_length_filter]
    exact (hinv [n]).1
  exact Nat.le_trans hle hone

theorem docs_repo_names_ne (rows : List SourceRow)
    (hWK : ∀ r ∈ rows, r.hash_key = [r.source_name])
    (hinv : UniqueCurrentSrc rows)
    (r1 : SourceRow) (h1 : r1 ∈ rows) (hd1 : r1.source_type = "docs")
    (hc1 : r1.is_current = true)
    (r2 : SourceRow) (h2 : r2 ∈ rows) (hd2 : r2.source_type = "source")
    (hc2 : r2.is_current = true) : r1.source_name ≠ r2.source_name := by
  intro heq
  have hne : r1 ≠ r2 := by
    intro he
    rw [he, hd2] at hd1
    exact absurd hd1 (by decide)
  have hp1 : curSrc [r1.source_name] r1 = true := by
    unfold curSrc
    rw [hWK r1 h1]
    simp [hc1]
  have hp2 : curSrc [r1.source_name] r2 = true := by
    unfold curSrc
    rw [hWK r2 h2, ← heq]
    simp [hc2]
  have h2le := two_le_countP_of_two (curSrc [r1.source_name]) rows r1 r2
    h1 h2 hne hp1 hp2
  have hone : rows.countP (curSrc [r1.source_name]) ≤ 1 := by
    rw [List.countP_eq_length_filter]
    exact (hinv [r1.source_name]).1
  omega

theorem key1_beq_false {m n : String} (h : m ≠ n) :
    (([m] : Key) == [n]) = false := by
  rw [beq_eq_false_iff_ne]
  intro he
  injection he with h1 h2
  exact h h1

theorem key2_eq_iff {m n u v : String} :
    ([m] ++ [u] : Key) = [n] ++ [v] ↔ m = n ∧ u = v := by
  constructor
  · intro h
    have h' : [m, u] = ([n, v] : List String) := h
    injection h' with h1 h2
    injection h2 with h3 h4
    exact ⟨h1, h3⟩
  · rintro ⟨rfl, rfl⟩
    rfl

theorem getSourceKey_eq_some (st : StoreState) (m : String)
    (hWK : ∀ r ∈ st.dim_source, r.hash_key = [r.source_name])
    (hex : ∃ r ∈ st.dim_source, r.source_name = m ∧ r.is_current = true) :
    getSourceKey st m = some [m] := by
  unfold getSourceKey
  obtain ⟨r, hr, hn, hc⟩ := hex
  cases hfind : st.dim_source.find?
      (fun r => r.source_name == m && r.is_current) with
  | none =>
    have hnone := List.find?_eq_none.mp hfind r hr
    simp [hn, hc] at hnone
  | some y =>
    have hy := List.find?_some hfind
    simp only [Bool.and_eq_true, beq_iff_eq] at hy
    have hkey := hWK y (List.mem_of_find?_eq_some hfind)
    show some y.hash_key = some [m]
    rw [hkey, hy.1]

theorem getSourceKey_shape (st : StoreState) (m : String)
    (hWK : ∀ r ∈ st.dim_source, r.hash_key = [r.source_name])
    (k : Key) (hk : getSourceKey st m = some k) : k = [m] := by
  unfold getSourceKey at hk
  cases hfind : st.dim_source.find?
      (fun r => r.source_name == m && r.is_current) with
  | none =>
    rw [hfind] at hk
    exact absurd hk (by simp)
  | some y =>
    rw [hfind] at hk
    have hy := List.find?_some hfind
    simp only [Bool.and_eq_true, beq_iff_eq] at hy
    have hkey := hWK y (List.mem_of_find?_eq_some hfind)
    have hsome : some y.hash_key = some k := hk
    rw [hkey, hy.1] at hsome
    exact (Option.some_inj.mp hsome).symm

theorem flatMap_congr {α β : Type} (f g : α → List β) (l : List α)
    (h : ∀ a ∈ l, f a = g a) : l.flatMap f = l.flatMap g := by
  induction l with
  | nil => rfl
  | cons x t ih =>
    rw [List.flatMap_cons, List.flatMap_cons, h x (List.mem_cons_self x t),
      ih (fun a ha => h a (List.mem_cons_of_mem x ha))]

theorem ensurePages_append (now : Nat) (a b : List (Key × String))
    (ps : List PageRow) :
    ensurePages now (a ++ b) ps = ensurePages now b (ensurePages now a ps) :=
  List.foldl_append _ _ a b

theorem getSourceKey_congr (s1 s2 : StoreState)
    (h : s1.dim_source = s2.dim_source) (n : String) :
    getSourceKey s1 n = getSourceKey s2 n := by
  unfold getSourceKey
  rw [h]

theorem importWatermark_chars (now : Nat) (k : Key) (wm : Option WatermarkFact)
    (st : StoreState) :
    (importWatermark now k wm st).dim_source = st.dim_source ∧
    (importWatermark now k wm st).fact_watermark_check =
      st.fact_watermark_check ++
        (match wm with
         | some w => [wmFactOf now k w]
         | none => []) ∧
    (importWatermark now k wm st).fact_change = st.fact_change ∧
    (importWatermark now k wm st).dim_page = st.dim_page := by
  cases wm with
  | none => exact ⟨rfl, by simp [importWatermark], rfl, rfl⟩
  | some w => exact ⟨rfl, by simp [importWatermark, wmFactOf], rfl, rfl⟩

theorem importPage_chars (now : Nat) (k : Key) (p : PageSnap)
    (st : StoreState) :
    (importPage now k p st).dim_source = st.dim_source ∧
    (importPage now k p st).fact_watermark_check = st.fact_watermark_check ∧
    (importPage now k p st).fact_change = st.fact_change ++
      (if p.hash != "" then [pageFactOf now k p] else []) ∧
    (importPage now k p st).dim_page = ensurePage now k p.url st.dim_page := by
  by_cases h : (p.hash != "") = true
  · exact ⟨by simp [importPage, h], by simp [importPage, h],
      by simp [importPage, pageFactOf, h], by simp [importPage, h]⟩
  · exact ⟨by simp [importPage, h], by simp [importPage, h],
      by simp [importPage, h], by simp [importPage, h]⟩

theorem importPagesFold_chars (now : Nat) (k : Key) (pages : List PageSnap)
    (st : StoreState) :
    (pages.foldl (fun s p => importPage now k p s) st).dim_source
        = st.dim_source ∧
    (pages.foldl (fun s p => importPage now k p s) st).fact_watermark_check
        = st.fact_watermark_check ∧
    (pages.foldl (fun s p => importPage now k p s) st).fact_change
        = st.fact_change ++
          (pages.filter (fun p => p.hash != "")).map (pageFactOf now k) ∧
    (pages.foldl (fun s p => importPage now k p s) st).dim_page
        = ensurePages now (pages.map (fun p => (k, p.url))) st.dim_page := by
  induction pages generalizing st with
  | nil => exact ⟨rfl, rfl, by simp, rfl⟩
  | cons p t ih =>
    have hp := importPage_chars now k p st
    have ht := ih (importPage now k p st)
    refine ⟨ht.1.trans hp.1, ht.2.1.trans hp.2.1, ?_, ?_⟩
    · show (t.foldl (fun s p => importPage now k p s)
          (importPage now k p st)).fact_change = _
      rw [ht.2.2.1, hp.2.2.1, List.filter_cons]
      by_cases h : (p.hash != "") = true
      · rw [if_pos h, if_pos h, List.map_cons, List.append_assoc]
        rfl
      · rw [if_neg h, if_neg h]
        simp
    · show (t.foldl (fun s p => importPage now k p s)
          (importPage now k p st)).dim_page = _
      rw [ht.2.2.2, hp.2.2.2, List.map_cons]
      rfl

theorem importFileHash_chars (now : Nat) (k : Key)
    (fh : Option (String × Nat)) (st : StoreState) :
    (importFileHash now k fh st).dim_source = st.dim_source ∧
    (importFileHash now k fh st).fact_watermark_check =
      st.fact_watermark_check ∧
    (importFileHash now k fh st).fact_change = st.fact_change ++
      (match fh with
       | some hv => if hv.1 != "" then [fileFactOf now k hv] else []
       | none => []) ∧
    (importFileHash now k fh st).dim_page = st.dim_page := by
  cases fh with
  | none => exact ⟨rfl, rfl, by simp [importFileHash], rfl⟩
  | some hv =>
    by_cases h : (hv.1 != "") = true
    · exact ⟨by simp [importFileHash, h], by simp [importFileHash, h],
        by simp [importFileHash, fileFactOf, h], by simp [importFileHash, h]⟩
    · exact ⟨by simp [importFileHash, h], by simp [importFileHash, h],
        by simp [importFileHash, h], by simp [importFileHash, h]⟩

theorem importDocsEntry_chars (now : Nat) (st : StoreState)
    (e : String × DocSourceSnap) :
    (importDocsEntry now st e).dim_source = st.dim_source ∧
    (importDocsEntry now st e).fact_watermark_check =
      st.fact_watermark_check ++
        (match getSourceKey st e.1 with
         | some k => entryWmFacts now k e.2
         | none => []) ∧
    (importDocsEntry now st e).fact_change = st.fact_change ++
      (match getSourceKey st e.1 with
       | some k => entryChangeFacts now k e.2
       | none => []) ∧
    (importDocsEntry now st e).dim_page =
      (match getSourceKey st e.1 with
       | some k =>
         ensurePages now (e.2.pages.map (fun p => (k, p.url))) st.dim_page
       | none => st.dim_page) := by
  unfold importDocsEntry
  cases hk : getSourceKey st e.1 with
  | none => exact ⟨rfl, by simp, by simp, rfl⟩
  | some k =>
    have hwm := importWatermark_chars now k e.2.watermark st
    have hpf := importPagesFold_chars now k e.2.pages
      (importWatermark now k e.2.watermark st)
    have hfh := importFileHash_chars now k e.2.file_hash
      (e.2.pages.foldl (fun s p => importPage now k p s)
        (importWatermark now k e.2.watermark st))
    refine ⟨?_, ?_, ?_, ?_⟩
    · exact hfh.1.trans (hpf.1.trans hwm.1)
    · rw [hfh.2.1, hpf.2.1, hwm.2.1]
      rfl
    · rw [hfh.2.2.1, hpf.2.2.1, hwm.2.2.1, List.append_assoc]
      rfl
    · rw [hfh.2.2.2, hpf.2.2.2, hwm.2.2.2]

theorem importDocsFold_chars (now : Nat)
    (entries : List (String × DocSourceSnap)) (st : StoreState) :
    (entries.foldl (importDocsEntry now) st).dim_source = st.dim_source ∧
    (entries.foldl (importDocsEntry now) st).fact_watermark_check =
      st.fact_watermark_check ++ entries.flatMap (fun e =>
        match getSourceKey st e.1 with
        | some k => entryWmFacts now k e.2
        | none => []) ∧
    (entries.foldl (importDocsEntry now) st).fact_change =
      st.fact_change ++ entries.flatMap (fun e =>
        match getSourceKey st e.1 with
        | some k => entryChangeFacts now k e.2
        | none => []) ∧
    (entries.foldl (importDocsEntry now) st).dim_page =
      ensurePages now (entries.flatMap (fun e =>
        match getSourceKey st e.1 with
        | some k => e.2.pages.map (fun p => (k, p.url))
        | none => [])) st.dim_page := by
  induction entries generalizing st with
  | nil => exact ⟨rfl, by simp, by simp, rfl⟩
  | cons e t ih =>
    have he := importDocsEntry_chars now st e
    have ht := ih (importDocsEntry now st e)
    have hgsk : ∀ m, getSourceKey (importDocsEntry now st e) m =
        getSourceKey st m :=
      fun m => getSourceKey_congr _ _ he.1 m
    refine ⟨ht.1.trans he.1, ?_, ?_, ?_⟩
    · show (t.foldl (importDocsEntry now)
          (importDocsEntry now st e)).fact_watermark_check = _
      rw [ht.2.1, flatMap_congr _ (fun e' =>
          match getSourceKey st e'.1 with
          | some k => entryWmFacts now k e'.2
          | none => []) t (fun a _ => by rw [hgsk a.1]),
        he.2.1, List.flatMap_cons, List.append_assoc]
    · show (t.foldl (importDocsEntry now)
          (importDocsEntry now st e)).fact_change = _
      rw [ht.2.2.1, flatMap_congr _ (fun e' =>
          match getSourceKey st e'.1 with
          | some k => entryChangeFacts now k e'.2
          | none => []) t (fun a _ => by rw [hgsk a.1]),
        he.2.2.1, List.flatMap_cons, List.append_assoc]
    · show (t.foldl (importDocsEntry now)
          (importDocsEntry now st e)).dim_page = _
      rw [ht.2.2.2, flatMap_congr _ (fun e' =>
          match getSourceKey st e'.1 with
          | some k => e'.2.pages.map (fun p => (k, p.url))
          | none => []) t (fun a _ => by rw [hgsk a.1]),
        he.2.2.2, List.flatMap_cons, ensurePages_append]
      cases hk : getSourceKey st e.1 with
      | none => rfl
      | some k => rfl

theorem importRepoFold_chars (now : Nat)
    (entries : List (String × (Nat × String × Nat))) (st : StoreState) :
    (entries.foldl (importRepoEntry now) st).dim_source = st.dim_source ∧
    (entries.foldl (importRepoEntry now) st).fact_watermark_check =
      st.fact_watermark_check ∧
    (entries.foldl (importRepoEntry now) st).fact_change =
      st.fact_change ++ entries.flatMap (fun e =>
        match getSourceKey st e.1 with
        | some k => repoEntryFacts now k e.2
        | none => []) ∧
    (entries.foldl (importRepoEntry now) st).dim_page = st.dim_page := by
  induction entries generalizing st with
  | nil => exact ⟨rfl, rfl, by simp, rfl⟩
  | cons e t ih =>
    have he : (importRepoEntry now st e).dim_source = st.dim_source ∧
        (importRepoEntry now st e).fact_watermark_check =
          st.fact_watermark_check ∧
        (importRepoEntry now st e).fact_change = st.fact_change ++
          (match getSourceKey st e.1 with
           | some k => repoEntryFacts now k e.2
           | none => []) ∧
        (importRepoEntry now st e).dim_page = st.dim_page := by
      unfold importRepoEntry
      cases hk : getSourceKey st e.1 with
      | none => exact ⟨rfl, rfl, by simp, rfl⟩
      | some k =>
        by_cases hc : (e.2.2.1 != "" || e.2.2.2 != 0) = true
        · exact ⟨by simp [hc], by simp [hc], by simp [repoEntryFacts,
            repoFactOf, hc], by simp [hc]⟩
        · exact ⟨by simp [hc], by simp [hc], by simp [repoEntryFacts, hc],
            by simp [hc]⟩
    have ht := ih (importRepoEntry now st e)
    have hgsk : ∀ m, getSourceKey (importRepoEntry now st e) m =
        getSourceKey st m :=
      fun m => getSourceKey_congr _ _ he.1 m
    refine ⟨ht.1.trans he.1, ht.2.1.trans he.2.1, ?_, ht.2.2.2.trans he.2.2.2⟩
    show (t.foldl (importRepoEntry now)
        (importRepoEntry now st e)).fact_change = _
    rw [ht.2.2.1, flatMap_congr _ (fun e' =>
        match getSourceKey st e'.1 with
        | some k => repoEntryFacts now k e'.2
        | none => []) t (fun a _ => by rw [hgsk a.1]),
      he.2.2.1, List.flatMap_cons, List.append_assoc]

theorem import_chars (fresh : StoreState) (now : Nat) (snap : Snapshot) :
    (import_state_json fresh now snap).dim_source = fresh.dim_source ∧
    (import_state_json fresh now snap).fact_watermark_check =
      fresh.fact_watermark_check ++ importedWmFacts fresh now snap ∧
    (import_state_json fresh now snap).fact_change =
      fresh.fact_change ++ importedChangeFacts fresh now snap ∧
    (import_state_json fresh now snap).dim_page =
      ensurePages now (importedPageCalls fresh snap) fresh.dim_page := by
  unfold import_state_json importedWmFacts importedChangeFacts
    importedPageCalls
  have hd := importDocsFold_chars now snap.docs fresh
  have hr := importRepoFold_chars now snap.sources
    (snap.docs.foldl (importDocsEntry now) fresh)
  have hgsk : ∀ m, getSourceKey (snap.docs.foldl (importDocsEntry now) fresh) m
      = getSourceKey fresh m :=
    fun m => getSourceKey_congr _ _ hd.1 m
  refine ⟨hr.1.trans hd.1, hr.2.1.trans hd.2.1, ?_, hr.2.2.2.trans hd.2.2.2⟩
  rw [hr.2.2.1, flatMap_congr _ (fun e =>
      match getSourceKey fresh e.1 with
      | some k => repoEntryFacts now k e.2
      | none => []) snap.sources (fun a _ => by rw [hgsk a.1]),
    hd.2.2.1, List.append_assoc]

theorem beq_some_none {α : Type} [BEq α] (a : α) :
    ((some a : Option α) == none) = false := rfl

theorem bne_none_none {α : Type} [BEq α] :
    ((none : Option α) != none) = false := rfl

theorem bne_some_none {α : Type} [BEq α] (a : α) :
    ((some a : Option α) != none) = true := rfl

theorem beq_some_some {α : Type} [BEq α] (a b : α) :
    ((some a : Option α) == some b) = (a == b) := rfl

theorem key2_beq_eq (a b u v : String) :
    (([a] ++ [u] : Key) == ([b] ++ [v])) = ((a == b) && (u == v)) := by
  show ((a == b) && ((u == v) && true)) = ((a == b) && (u == v))
  rw [Bool.and_true]

theorem append_singleton_inj {α : Type} {k1 k2 : List α} {x y : α}
    (h : k1 ++ [x] = k2 ++ [y]) : k1 = k2 ∧ x = y := by
  induction k1 generalizing k2 with
  | nil =>
    cases k2 with
    | nil =>
      injection h with h1 h2
      exact ⟨rfl, h1⟩
    | cons c k2' =>
      injection h with h1 h2
      exfalso
      cases k2' <;> simp at h2
  | cons c k1' ih =>
    cases k2 with
    | nil =>
      injection h with h1 h2
      exfalso
      cases k1' <;> simp at h2
    | cons c2 k2' =>
      injection h with h1 h2
      rcases ih h2 with ⟨hk, hx⟩
      exact ⟨by rw [h1, hk], hx⟩

/-- `_ensure_page` keeps the page-key shape `source_key ++ [url]`. -/
theorem WKp_ensurePage (now : Nat) (k : Key) (u : String) (ps : List PageRow)
    (h : ∀ p ∈ ps, p.hash_key = p.source_key ++ [p.url]) :
    ∀ p ∈ ensurePage now k u ps, p.hash_key = p.source_key ++ [p.url] := by
  intro p hp
  unfold ensurePage at hp
  by_cases hex : pageExists (hash_key2 k u) ps = true
  · rw [if_pos hex] at hp
    exact h p hp
  · rw [if_neg hex] at hp
    rcases List.mem_append.mp hp with hmem | hnew
    · exact h p hmem
    · rcases List.mem_singleton.mp hnew with rfl
      rfl

theorem WKp_ensurePages (now : Nat) (calls : List (Key × String))
    (ps : List PageRow)
    (h : ∀ p ∈ ps, p.hash_key = p.source_key ++ [p.url]) :
    ∀ p ∈ ensurePages now calls ps, p.hash_key = p.source_key ++ [p.url] := by
  induction calls generalizing ps with
  | nil => exact h
  | cons c t ih =>
    exact ih (ensurePage now c.1 c.2 ps) (WKp_ensurePage now c.1 c.2 ps h)

theorem docsCurrentSources_congr (s1 s2 : StoreState)
    (h : s1.dim_source = s2.dim_source) :
    docsCurrentSources s1 = docsCurrentSources s2 := by
  unfold docsCurrentSources
  rw [h]

theorem repoCurrentSources_congr (s1 s2 : StoreState)
    (h : s1.dim_source = s2.dim_source) :
    repoCurrentSources s1 = repoCurrentSources s2 := by
  unfold repoCurrentSources
  rw [h]

/-- Every docs entry of an exported snapshot carries the export of its own
source name, is nonempty, and names a current docs source. -/
theorem export_docs_entry (st : StoreState) (e : String × DocSourceSnap)
    (h : e ∈ (export_state_json st).docs) :
    e.2 = exportDocSource st e.1 ∧ e.2.isEmptySnap = false ∧
      ∃ r ∈ docsCurrentSources st, r.source_name = e.1 := by
  unfold export_state_json at h
  rcases List.mem_filterMap.mp h with ⟨r, hr, heq⟩
  by_cases hemp : (exportDocSource st r.source_name).isEmptySnap = true
  · rw [if_pos hemp] at heq
    exact absurd heq (by simp)
  · rw [if_neg hemp] at heq
    have he : (r.source_name, exportDocSource st r.source_name) = e :=
      Option.some_inj.mp heq
    have h1 : e.1 = r.source_name := by rw [← he]
    have h2 : e.2 = exportDocSource st r.source_name := by rw [← he]
    refine ⟨by rw [h2, h1], ?_, r, hr, h1.symm⟩
    rw [h2]
    exact Bool.eq_false_iff.mpr hemp

/-- Every sources entry of an exported snapshot is the latest check of its
own repo name. -/
theorem export_sources_entry (st : StoreState)
    (e : String × (Nat × String × Nat))
    (h : e ∈ (export_state_json st).sources) :
    (∃ f, get_latest_source_check st e.1 = some f ∧
      e.2 = (f.detected_at, f.commit_hash.getD "", f.commit_count.getD 0)) ∧
      ∃ r ∈ repoCurrentSources st, r.source_name = e.1 := by
  unfold export_state_json at h
  rcases List.mem_filterMap.mp h with ⟨r, hr, heq⟩
  cases hf : get_latest_source_check st r.source_name with
  | none => rw [hf] at heq; exact absurd heq (by simp)
  | some f =>
    rw [hf] at heq
    have he : (r.source_name,
        (f.detected_at, f.commit_hash.getD "", f.commit_count.getD 0)) = e :=
      Option.some_inj.mp heq
    have h1 : e.1 = r.source_name := by rw [← he]
    have h2 : e.2 = (f.detected_at, f.commit_hash.getD "",
        f.commit_count.getD 0) := by rw [← he]
    exact ⟨⟨f, by rw [h1, hf], h2⟩, r, hr, h1.symm⟩

/-! Per-entry evaluations of the fact filters the re-export reads. -/

theorem filter_fileFacts_match (fh : Option (String × Nat)) (now : Nat)
    (k : Key) (p : ChangeFact → Bool)
    (h : ∀ hv, p (fileFactOf now k hv) = false) :
    ((match fh with
      | some hv => if hv.1 != "" then [fileFactOf now k hv] else []
      | none => []) : List ChangeFact).filter p = [] := by
  cases fh with
  | none => rfl
  | some hv =>
    show ((if (hv.1 != "") = true then [fileFactOf now k hv] else []) :
      List ChangeFact).filter p = []
    by_cases hb : (hv.1 != "") = true
    · rw [if_pos hb]
      simp [List.filter_cons, h hv]
    · rw [if_neg hb]
      rfl

theorem entry_wm_filter_ne (fresh : StoreState) (now : Nat)
    (x : String × DocSourceSnap) (n : String) (hx : x.1 ≠ n)
    (hWKsf : ∀ r ∈ fresh.dim_source, r.hash_key = [r.source_name]) :
    ((match getSourceKey fresh x.1 with
      | some k => entryWmFacts now k x.2
      | none => []) : List WatermarkFact).filter
      (fun f => f.source_key == [n]) = [] := by
  cases hk : getSourceKey fresh x.1 with
  | none => rfl
  | some k =>
    have hkx := getSourceKey_shape fresh x.1 hWKsf k hk
    subst hkx
    unfold entryWmFacts
    cases x.2.watermark with
    | none => rfl
    | some w =>
      show [wmFactOf now [x.1] w].filter (fun f => f.source_key == [n]) = []
      simp [wmFactOf, key1_beq_false hx]

theorem entry_change_filter_file_ne (fresh : StoreState) (now : Nat)
    (x : String × DocSourceSnap) (n : String) (hx : x.1 ≠ n)
    (hWKsf : ∀ r ∈ fresh.dim_source, r.hash_key = [r.source_name]) :
    ((match getSourceKey fresh x.1 with
      | some k => entryChangeFacts now k x.2
      | none => []) : List ChangeFact).filter
      (fun f => f.source_key == [n] && f.page_key == none) = [] := by
  cases hk : getSourceKey fresh x.1 with
  | none => rfl
  | some k =>
    have hkx := getSourceKey_shape fresh x.1 hWKsf k hk
    subst hkx
    unfold entryChangeFacts
    rw [List.filter_append]
    have h1 : ((x.2.pages.filter (fun p => p.hash != "")).map
        (pageFactOf now [x.1])).filter
        (fun f => f.source_key == [n] && f.page_key == none) = [] := by
      refine filter_nil_of_false _ _ ?_
      intro f hf
      rcases List.mem_map.mp hf with ⟨p, hp, rfl⟩
      simp [pageFactOf, key1_beq_false hx]
    have h2 := filter_fileFacts_match x.2.file_hash now [x.1]
      (fun f => f.source_key == [n] && f.page_key == none)
      (fun hv => by simp [fileFactOf, key1_beq_false hx])
    rw [h1, h2]
    rfl

theorem entry_change_filter_page_ne (fresh : StoreState) (now : Nat)
    (x : String × DocSourceSnap) (n u : String) (hx : x.1 ≠ n)
    (hWKsf : ∀ r ∈ fresh.dim_source, r.hash_key = [r.source_name]) :
    ((match getSourceKey fresh x.1 with
      | some k => entryChangeFacts now k x.2
      | none => []) : List ChangeFact).filter
      (fun f => f.page_key == some ([n] ++ [u])) = [] := by
  cases hk : getSourceKey fresh x.1 with
  | none => rfl
  | some k =>
    have hkx := getSourceKey_shape fresh x.1 hWKsf k hk
    subst hkx
    unfold entryChangeFacts
    rw [List.filter_append]
    have h1 : ((x.2.pages.filter (fun p => p.hash != "")).map
        (pageFactOf now [x.1])).filter
        (fun f => f.page_key == some ([n] ++ [u])) = [] := by
      refine filter_nil_of_false _ _ ?_
      intro f hf
      rcases List.mem_map.mp hf with ⟨p, hp, rfl⟩
      show ((pageFactOf now [x.1] p).page_key == some ([n] ++ [u])) = false
      have : (pageFactOf now [x.1] p).page_key = some ([x.1] ++ [p.url]) := rfl
      rw [this, beq_some_some, key2_beq_eq,
        beq_eq_false_iff_ne.mpr hx]
      rfl
    have h2 := filter_fileFacts_match x.2.file_hash now [x.1]
      (fun f => f.page_key == some ([n] ++ [u]))
      (fun hv => by simp [fileFactOf])
    rw [h1, h2]
    rfl

theorem entry_repo_filter_file_ne (fresh : StoreState) (now : Nat)
    (x : String × (Nat × String × Nat)) (n : String) (hx : x.1 ≠ n)
    (hWKsf : ∀ r ∈ fresh.dim_source, r.hash_key = [r.source_name]) :
    ((match getSourceKey fresh x.1 with
      | some k => repoEntryFacts now k x.2
      | none => []) : List ChangeFact).filter
      (fun f => f.source_key == [n] && f.page_key == none) = [] := by
  cases hk : getSourceKey fresh x.1 with
  | none => rfl
  | some k =>
    have hkx := getSourceKey_shape fresh x.1 hWKsf k hk
    subst hkx
    show ((if (x.2.2.1 != "" || x.2.2.2 != 0) = true
        then [repoFactOf now [x.1] x.2] else []) : List ChangeFact).filter
        (fun f => f.source_key == [n] && f.page_key == none) = []
    by_cases hc : (x.2.2.1 != "" || x.2.2.2 != 0) = true
    · rw [if_pos hc]
      simp [repoFactOf, key1_beq_false hx]
    · rw [if_neg hc]
      rfl

theorem entry_repo_filter_page (fresh : StoreState) (now : Nat)
    (x : String × (Nat × String × Nat)) (n u : String) :
    ((match getSourceKey fresh x.1 with
      | some k => repoEntryFacts now k x.2
      | none => []) : List ChangeFact).filter
      (fun f => f.page_key == some ([n] ++ [u])) = [] := by
  cases hk : getSourceKey fresh x.1 with
  | none => rfl
  | some k =>
    show ((if (x.2.2.1 != "" || x.2.2.2 != 0) = true
        then [repoFactOf now k x.2] else []) : List ChangeFact).filter
        (fun f => f.page_key == some ([n] ++ [u])) = []
    by_cases hc : (x.2.2.1 != "" || x.2.2.2 != 0) = true
    · rw [if_pos hc]
      simp [repoFactOf]
    · rw [if_neg hc]
      rfl

theorem entry_change_filter_repo (fresh : StoreState) (now : Nat)
    (x : String × DocSourceSnap) (n : String) :
    ((match getSourceKey fresh x.1 with
      | some k => entryChangeFacts now k x.2
      | none => []) : List ChangeFact).filter
      (fun f => f.source_key == [n] && f.commit_hash != none) = [] := by
  cases hk : getSourceKey fresh x.1 with
  | none => rfl
  | some k =>
    unfold entryChangeFacts
    rw [List.filter_append]
    have h1 : ((x.2.pages.filter (fun p => p.hash != "")).map
        (pageFactOf now k)).filter
        (fun f => f.source_key == [n] && f.commit_hash != none) = [] := by
      refine filter_nil_of_false _ _ ?_
      intro f hf
      rcases List.mem_map.mp hf with ⟨p, hp, rfl⟩
      simp [pageFactOf, bne_none_none]
    have h2 := filter_fileFacts_match x.2.file_hash now k
      (fun f => f.source_key == [n] && f.commit_hash != none)
      (fun hv => by simp [fileFactOf, bne_none_none])
    rw [h1, h2]
    rfl

theorem entry_repo_filter_repo_ne (fresh : StoreState) (now : Nat)
    (x : String × (Nat × String × Nat)) (n : String) (hx : x.1 ≠ n)
    (hWKsf : ∀ r ∈ fresh.dim_source, r.hash_key = [r.source_name]) :
    ((match getSourceKey fresh x.1 with
      | some k => repoEntryFacts now k x.2
      | none => []) : List ChangeFact).filter
      (fun f => f.source_key == [n] && f.commit_hash != none) = [] := by
  cases hk : getSourceKey fresh x.1 with
  | none => rfl
  | some k =>
    have hkx := getSourceKey_shape fresh x.1 hWKsf k hk
    subst hkx
    show ((if (x.2.2.1 != "" || x.2.2.2 != 0) = true
        then [repoFactOf now [x.1] x.2] else []) : List ChangeFact).filter
        (fun f => f.source_key == [n] && f.commit_hash != none) = []
    by_cases hc : (x.2.2.1 != "" || x.2.2.2 != 0) = true
    · rw [if_pos hc]
      simp [repoFactOf, key1_beq_false hx]
    · rw [if_neg hc]
      rfl

theorem imported_wm_filter (fresh : StoreState) (now : Nat) (snap : Snapshot)
    (n : String) (s : DocSourceSnap) (d1 d2 : List (String × DocSourceSnap))
    (hsnap : snap.docs = d1 ++ (n, s) :: d2)
    (hn1 : ∀ x ∈ d1, x.1 ≠ n) (hn2 : ∀ x ∈ d2, x.1 ≠ n)
    (hWKsf : ∀ r ∈ fresh.dim_source, r.hash_key = [r.source_name])
    (hkn : getSourceKey fresh n = some [n]) :
    (importedWmFacts fresh now snap).filter (fun f => f.source_key == [n]) =
      entryWmFacts now [n] s := by
  unfold importedWmFacts
  rw [hsnap, List.filter_flatMap,
    flatMap_single _ d1 d2 (n, s)
      (fun x hx => entry_wm_filter_ne fresh now x n (hn1 x hx) hWKsf)
      (fun x hx => entry_wm_filter_ne fresh now x n (hn2 x hx) hWKsf)]
  show ((match getSourceKey fresh n with
      | some k => entryWmFacts now k s
      | none => []) : List WatermarkFact).filter
      (fun f => f.source_key == [n]) = entryWmFacts now [n] s
  rw [hkn]
  show (entryWmFacts now [n] s).filter (fun f => f.source_key == [n]) =
    entryWmFacts now [n] s
  unfold entryWmFacts
  cases s.watermark with
  | none => rfl
  | some w =>
    show [wmFactOf now [n] w].filter (fun f => f.source_key == [n]) =
      [wmFactOf now [n] w]
    simp [wmFactOf]

theorem imported_wm_filter_none (fresh : StoreState) (now : Nat)
    (snap : Snapshot) (n : String)
    (hall : ∀ x ∈ snap.docs, x.1 ≠ n)
    (hWKsf : ∀ r ∈ fresh.dim_source, r.hash_key = [r.source_name]) :
    (importedWmFacts fresh now snap).filter (fun f => f.source_key == [n])
      = [] := by
  unfold importedWmFacts
  rw [List.filter_flatMap]
  exact flatMap_nil_of _ snap.docs
    (fun x hx => entry_wm_filter_ne fresh now x n (hall x hx) hWKsf)

theorem imported_change_filter_file (fresh : StoreState) (now : Nat)
    (snap : Snapshot) (n : String) (s : DocSourceSnap)
    (d1 d2 : List (String × DocSourceSnap))
    (hsnap : snap.docs = d1 ++ (n, s) :: d2)
    (hn1 : ∀ x ∈ d1, x.1 ≠ n) (hn2 : ∀ x ∈ d2, x.1 ≠ n)
    (hWKsf : ∀ r ∈ fresh.dim_source, r.hash_key = [r.source_name])
    (hkn : getSourceKey fresh n = some [n])
    (hrepo : ∀ x ∈ snap.sources, x.1 ≠ n) :
    (importedChangeFacts fresh now snap).filter
      (fun f => f.source_key == [n] && f.page_key == none) =
      ((match s.file_hash with
        | some hv => if hv.1 != "" then [fileFactOf now [n] hv] else []
        | none => []) : List ChangeFact) := by
  unfold importedChangeFacts
  rw [List.filter_append, hsnap, List.filter_flatMap, List.filter_flatMap,
    flatMap_single _ d1 d2 (n, s)
      (fun x hx => entry_change_filter_file_ne fresh now x n (hn1 x hx) hWKsf)
      (fun x hx => entry_change_filter_file_ne fresh now x n (hn2 x hx) hWKsf),
    flatMap_nil_of _ snap.sources
      (fun x hx => entry_repo_filter_file_ne fresh now x n (hrepo x hx) hWKsf),
    List.append_nil]
  show ((match getSourceKey fresh n with
      | some k => entryChangeFacts now k s
      | none => []) : List ChangeFact).filter
      (fun f => f.source_key == [n] && f.page_key == none) = _
  rw [hkn]
  show (entryChangeFacts now [n] s).filter
      (fun f => f.source_key == [n] && f.page_key == none) = _
  unfold entryChangeFacts
  rw [List.filter_append]
  have h1 : ((s.pages.filter (fun p => p.hash != "")).map
      (pageFactOf now [n])).filter
      (fun f => f.source_key == [n] && f.page_key == none) = [] := by
    refine filter_nil_of_false _ _ ?_
    intro f hf
    rcases List.mem_map.mp hf with ⟨p, hp, rfl⟩
    simp [pageFactOf, beq_some_none]
  rw [h1, List.nil_append]
  cases s.file_hash with
  | none => rfl
  | some hv =>
    show ((if (hv.1 != "") = true then [fileFactOf now [n] hv] else []) :
        List ChangeFact).filter
        (fun f => f.source_key == [n] && f.page_key == none) =
      ((if (hv.1 != "") = true then [fileFactOf now [n] hv] else []) :
        List ChangeFact)
    by_cases hb : (hv.1 != "") = true
    · rw [if_pos hb]
      simp [List.filter_cons, fileFactOf]
    · rw [if_neg hb]
      rfl

theorem imported_change_filter_file_none (fresh : StoreState) (now : Nat)
    (snap : Snapshot) (n : String)
    (hdocs : ∀ x ∈ snap.docs, x.1 ≠ n)
    (hrepo : ∀ x ∈ snap.sources, x.1 ≠ n)
    (hWKsf : ∀ r ∈ fresh.dim_source, r.hash_key = [r.source_name]) :
    (importedChangeFacts fresh now snap).filter
      (fun f => f.source_key == [n] && f.page_key == none) = [] := by
  unfold importedChangeFacts
  rw [List.filter_append, List.filter_flatMap, List.filter_flatMap,
    flatMap_nil_of _ snap.docs
      (fun x hx => entry_change_filter_file_ne fresh now x n (hdocs x hx) hWKsf),
    flatMap_nil_of _ snap.sources
      (fun x hx => entry_repo_filter_file_ne fresh now x n (hrepo x hx) hWKsf)]
  rfl

theorem imported_change_filter_page (fresh : StoreState) (now : Nat)
    (snap : Snapshot) (n : String) (s : DocSourceSnap)
    (d1 d2 : List (String × DocSourceSnap)) (u : String)
    (hsnap : snap.docs = d1 ++ (n, s) :: d2)
    (hn1 : ∀ x ∈ d1, x.1 ≠ n) (hn2 : ∀ x ∈ d2, x.1 ≠ n)
    (hWKsf : ∀ r ∈ fresh.dim_source, r.hash_key = [r.source_name])
    (hkn : getSourceKey fresh n = some [n])
    (hpg : ∀ p ∈ s.pages, ¬ p.hash = "") :
    (importedChangeFacts fresh now snap).filter
      (fun f => f.page_key == some ([n] ++ [u])) =
      (s.pages.filter (fun p => p.url == u)).map (pageFactOf now [n]) := by
  unfold importedChangeFacts
  rw [List.filter_append, hsnap, List.filter_flatMap, List.filter_flatMap,
    flatMap_single _ d1 d2 (n, s)
      (fun x hx => entry_change_filter_page_ne fresh now x n u (hn1 x hx) hWKsf)
      (fun x hx => entry_change_filter_page_ne fresh now x n u (hn2 x hx) hWKsf),
    flatMap_nil_of _ snap.sources
      (fun x _ => entry_repo_filter_page fresh now x n u),
    List.append_nil]
  show ((match getSourceKey fresh n with
      | some k => entryChangeFacts now k s
      | none => []) : List ChangeFact).filter
      (fun f => f.page_key == some ([n] ++ [u])) = _
  rw [hkn]
  show (entryChangeFacts now [n] s).filter
      (fun f => f.page_key == some ([n] ++ [u])) = _
  unfold entryChangeFacts
  rw [List.filter_append]
  have h2 := filter_fileFacts_match s.file_hash now [n]
    (fun f => f.page_key == some ([n] ++ [u]))
    (fun hv => by simp [fileFactOf])
  rw [h2, List.append_nil,
    List.filter_eq_self.mpr (fun p hp => bne_iff_ne.mpr (hpg p hp)),
    List.filter_map]
  congr 1
  refine List.filter_congr ?_
  intro p hp
  show ((pageFactOf now [n] p).page_key == some ([n] ++ [u])) = (p.url == u)
  have hpk : (pageFactOf now [n] p).page_key = some ([n] ++ [p.url]) := rfl
  rw [hpk, beq_some_some, key2_beq_eq]
  simp

theorem imported_change_filter_page_none (fresh : StoreState) (now : Nat)
    (snap : Snapshot) (n u : String)
    (hdocs : ∀ x ∈ snap.docs, x.1 ≠ n)
    (hWKsf : ∀ r ∈ fresh.dim_source, r.hash_key = [r.source_name]) :
    (importedChangeFacts fresh now snap).filter
      (fun f => f.page_key == some ([n] ++ [u])) = [] := by
  unfold importedChangeFacts
  rw [List.filter_append, List.filter_flatMap, List.filter_flatMap,
    flatMap_nil_of _ snap.docs
      (fun x hx => entry_change_filter_page_ne fresh now x n u (hdocs x hx) hWKsf),
    flatMap_nil_of _ snap.sources
      (fun x _ => entry_repo_filter_page fresh now x n u)]
  rfl

theorem imported_change_filter_repo (fresh : StoreState) (now : Nat)
    (snap : Snapshot) (n : String) (v : Nat × String × Nat)
    (r1 r2 : List (String × (Nat × String × Nat)))
    (hsnap : snap.sources = r1 ++ (n, v) :: r2)
    (hn1 : ∀ x ∈ r1, x.1 ≠ n) (hn2 : ∀ x ∈ r2, x.1 ≠ n)
    (hWKsf : ∀ r ∈ fresh.dim_source, r.hash_key = [r.source_name])
    (hkn : getSourceKey fresh n = some [n]) :
    (importedChangeFacts fresh now snap).filter
      (fun f => f.source_key == [n] && f.commit_hash != none) =
      repoEntryFacts now [n] v := by
  unfold importedChangeFacts
  rw [List.filter_append, List.filter_flatMap,
    flatMap_nil_of _ snap.docs
      (fun x _ => entry_change_filter_repo fresh now x n),
    List.nil_append, hsnap, List.filter_flatMap,
    flatMap_single _ r1 r2 (n, v)
      (fun x hx => entry_repo_filter_repo_ne fresh now x n (hn1 x hx) hWKsf)
      (fun x hx => entry_repo_filter_repo_ne fresh now x n (hn2 x hx) hWKsf)]
  show ((match getSourceKey fresh n with
      | some k => repoEntryFacts now k v
      | none => []) : List ChangeFact).filter
      (fun f => f.source_key == [n] && f.commit_hash != none) =
      repoEntryFacts now [n] v
  rw [hkn]
  show ((if (v.2.1 != "" || v.2.2 != 0) = true
      then [repoFactOf now [n] v] else []) : List ChangeFact).filter
      (fun f => f.source_key == [n] && f.commit_hash != none) =
      repoEntryFacts now [n] v
  unfold repoEntryFacts
  by_cases hc : (v.2.1 != "" || v.2.2 != 0) = true
  · rw [if_pos hc]
    simp [List.filter_cons, repoFactOf, bne_some_none]
  · rw [if_neg hc]
    rfl

theorem imported_change_filter_repo_none (fresh : StoreState) (now : Nat)
    (snap : Snapshot) (n : String)
    (hrepo : ∀ x ∈ snap.sources, x.1 ≠ n)
    (hWKsf : ∀ r ∈ fresh.dim_source, r.hash_key = [r.source_name]) :
    (importedChangeFacts fresh now snap).filter
      (fun f => f.source_key == [n] && f.commit_hash != none) = [] := by
  unfold importedChangeFacts
  rw [List.filter_append, List.filter_flatMap, List.filter_flatMap,
    flatMap_nil_of _ snap.docs
      (fun x _ => entry_change_filter_repo fresh now x n),
    flatMap_nil_of _ snap.sources
      (fun x hx => entry_repo_filter_repo_ne fresh now x n (hrepo x hx) hWKsf)]
  rfl

/-! Readers of the imported store. -/

theorem roundtrip_gsk (fresh : StoreState) (now : Nat) (snap : Snapshot)
    (m : String) :
    getSourceKey (import_state_json fresh now snap) m = getSourceKey fresh m :=
  getSourceKey_congr _ _ (import_chars fresh now snap).1 m

theorem roundtrip_wm (fresh : StoreState) (now : Nat) (snap : Snapshot)
    (n : String) (s : DocSourceSnap) (d1 d2 : List (String × DocSourceSnap))
    (hfw : fresh.fact_watermark_check = [])
    (hsnap : snap.docs = d1 ++ (n, s) :: d2)
    (hn1 : ∀ x ∈ d1, x.1 ≠ n) (hn2 : ∀ x ∈ d2, x.1 ≠ n)
    (hWKsf : ∀ r ∈ fresh.dim_source, r.hash_key = [r.source_name])
    (hkn : getSourceKey fresh n = some [n]) :
    get_latest_watermark (import_state_json fresh now snap) n =
      s.watermark.map (wmFactOf now [n]) := by
  unfold get_latest_watermark
  rw [roundtrip_gsk fresh now snap n, hkn]
  show pickLatest (fun f => f.checked_at)
    ((import_state_json fresh now snap).fact_watermark_check.filter
      (fun f => f.source_key == [n])) = s.watermark.map (wmFactOf now [n])
  rw [(import_chars fresh now snap).2.1, hfw, List.nil_append,
    imported_wm_filter fresh now snap n s d1 d2 hsnap hn1 hn2 hWKsf hkn]
  unfold entryWmFacts
  cases s.watermark with
  | none => rfl
  | some w => rfl

theorem roundtrip_wm_none (fresh : StoreState) (now : Nat) (snap : Snapshot)
    (n : String) (hfw : fresh.fact_watermark_check = [])
    (hdocs : ∀ x ∈ snap.docs, x.1 ≠ n)
    (hWKsf : ∀ r ∈ fresh.dim_source, r.hash_key = [r.source_name])
    (hkn : getSourceKey fresh n = some [n]) :
    get_latest_watermark (import_state_json fresh now snap) n = none := by
  unfold get_latest_watermark
  rw [roundtrip_gsk fresh now snap n, hkn]
  show pickLatest (fun f => f.checked_at)
    ((import_state_json fresh now snap).fact_watermark_check.filter
      (fun f => f.source_key == [n])) = none
  rw [(import_chars fresh now snap).2.1, hfw, List.nil_append,
    imported_wm_filter_none fresh now snap n hdocs hWKsf]
  rfl

theorem roundtrip_fh (fresh : StoreState) (now : Nat) (snap : Snapshot)
    (n : String) (s : DocSourceSnap) (d1 d2 : List (String × DocSourceSnap))
    (hfc : fresh.fact_change = [])
    (hsnap : snap.docs = d1 ++ (n, s) :: d2)
    (hn1 : ∀ x ∈ d1, x.1 ≠ n) (hn2 : ∀ x ∈ d2, x.1 ≠ n)
    (hWKsf : ∀ r ∈ fresh.dim_source, r.hash_key = [r.source_name])
    (hkn : getSourceKey fresh n = some [n])
    (hrepo : ∀ x ∈ snap.sources, x.1 ≠ n) :
    get_file_hash (import_state_json fresh now snap) n =
      (match s.file_hash with
       | some hv => if hv.1 != "" then some (fileFactOf now [n] hv) else none
       | none => none) := by
  unfold get_file_hash
  rw [roundtrip_gsk fresh now snap n, hkn]
  show pickLatest (fun f => f.detected_at)
    ((import_state_json fresh now snap).fact_change.filter
      (fun f => f.source_key == [n] && f.page_key == none)) = _
  rw [(import_chars fresh now snap).2.2.1, hfc, List.nil_append,
    imported_change_filter_file fresh now snap n s d1 d2 hsnap hn1 hn2
      hWKsf hkn hrepo]
  cases s.file_hash with
  | none => rfl
  | some hv =>
    show pickLatest (fun f => f.detected_at)
      ((if (hv.1 != "") = true then [fileFactOf now [n] hv] else []) :
        List ChangeFact) =
      (if (hv.1 != "") = true then some (fileFactOf now [n] hv) else none)
    by_cases hb : (hv.1 != "") = true
    · rw [if_pos hb, if_pos hb]
      rfl
    · rw [if_neg hb, if_neg hb]
      rfl

theorem roundtrip_fh_none (fresh : StoreState) (now : Nat) (snap : Snapshot)
    (n : String) (hfc : fresh.fact_change = [])
    (hdocs : ∀ x ∈ snap.docs, x.1 ≠ n)
    (hrepo : ∀ x ∈ snap.sources, x.1 ≠ n)
    (hWKsf : ∀ r ∈ fresh.dim_source, r.hash_key = [r.source_name])
    (hkn : getSourceKey fresh n = some [n]) :
    get_file_hash (import_state_json fresh now snap) n = none := by
  unfold get_file_hash
  rw [roundtrip_gsk fresh now snap n, hkn]
  show pickLatest (fun f => f.detected_at)
    ((import_state_json fresh now snap).fact_change.filter
      (fun f => f.source_key == [n] && f.page_key == none)) = none
  rw [(import_chars fresh now snap).2.2.1, hfc, List.nil_append,
    imported_change_filter_file_none fresh now snap n hdocs hrepo hWKsf]
  rfl

theorem roundtrip_pagefact (fresh : StoreState) (now : Nat) (snap : Snapshot)
    (n : String) (s : DocSourceSnap) (d1 d2 : List (String × DocSourceSnap))
    (u : String) (hfc : fresh.fact_change = [])
    (hsnap : snap.docs = d1 ++ (n, s) :: d2)
    (hn1 : ∀ x ∈ d1, x.1 ≠ n) (hn2 : ∀ x ∈ d2, x.1 ≠ n)
    (hWKsf : ∀ r ∈ fresh.dim_source, r.hash_key = [r.source_name])
    (hkn : getSourceKey fresh n = some [n])
    (hpg : ∀ p ∈ s.pages, ¬ p.hash = "") :
    latestPageFact (import_state_json fresh now snap) ([n] ++ [u]) =
      pickLatest (fun f => f.detected_at)
        ((s.pages.filter (fun p => p.url == u)).map (pageFactOf now [n])) := by
  unfold latestPageFact
  rw [(import_chars fresh now snap).2.2.1, hfc, List.nil_append,
    imported_change_filter_page fresh now snap n s d1 d2 u hsnap hn1 hn2
      hWKsf hkn hpg]

theorem roundtrip_pagefact_none (fresh : StoreState) (now : Nat)
    (snap : Snapshot) (n u : String) (hfc : fresh.fact_change = [])
    (hdocs : ∀ x ∈ snap.docs, x.1 ≠ n)
    (hWKsf : ∀ r ∈ fresh.dim_source, r.hash_key = [r.source_name]) :
    latestPageFact (import_state_json fresh now snap) ([n] ++ [u]) = none := by
  unfold latestPageFact
  rw [(import_chars fresh now snap).2.2.1, hfc, List.nil_append,
    imported_change_filter_page_none fresh now snap n u hdocs hWKsf]
  rfl

theorem roundtrip_repo (fresh : StoreState) (now : Nat) (snap : Snapshot)
    (n : String) (v : Nat × String × Nat)
    (r1 r2 : List (String × (Nat × String × Nat)))
    (hfc : fresh.fact_change = [])
    (hsnap : snap.sources = r1 ++ (n, v) :: r2)
    (hn1 : ∀ x ∈ r1, x.1 ≠ n) (hn2 : ∀ x ∈ r2, x.1 ≠ n)
    (hWKsf : ∀ r ∈ fresh.dim_source, r.hash_key = [r.source_name])
    (hkn : getSourceKey fresh n = some [n])
    (hc : (v.2.1 != "" || v.2.2 != 0) = true) :
    get_latest_source_check (import_state_json fresh now snap) n =
      some (repoFactOf now [n] v) := by
  unfold get_latest_source_check
  rw [roundtrip_gsk fresh now snap n, hkn]
  show pickLatest (fun f => f.detected_at)
    ((import_state_json fresh now snap).fact_change.filter
      (fun f => f.source_key == [n] && f.commit_hash != none)) =
    some (repoFactOf now [n] v)
  rw [(import_chars fresh now snap).2.2.1, hfc, List.nil_append,
    imported_change_filter_repo fresh now snap n v r1 r2 hsnap hn1 hn2
      hWKsf hkn]
  unfold repoEntryFacts
  rw [if_pos hc]
  rfl

theorem roundtrip_repo_none (fresh : StoreState) (now : Nat) (snap : Snapshot)
    (n : String) (hfc : fresh.fact_change = [])
    (hrepo : ∀ x ∈ snap.sources, x.1 ≠ n)
    (hWKsf : ∀ r ∈ fresh.dim_source, r.hash_key = [r.source_name])
    (hkn : getSourceKey fresh n = some [n]) :
    get_latest_source_check (import_state_json fresh now snap) n = none := by
  unfold get_latest_source_check
  rw [roundtrip_gsk fresh now snap n, hkn]
  show pickLatest (fun f => f.detected_at)
    ((import_state_json fresh now snap).fact_change.filter
      (fun f => f.source_key == [n] && f.commit_hash != none)) = none
  rw [(import_chars fresh now snap).2.2.1, hfc, List.nil_append,
    imported_change_filter_repo_none fresh now snap n hrepo hWKsf]
  rfl

theorem WKp_import (fresh : StoreState) (now : Nat) (snap : Snapshot)
    (hWKpf : ∀ p ∈ fresh.dim_page, p.hash_key = p.source_key ++ [p.url]) :
    ∀ p ∈ (import_state_json fresh now snap).dim_page,
      p.hash_key = p.source_key ++ [p.url] := by
  intro p hp
  rw [(import_chars fresh now snap).2.2.2] at hp
  exact WKp_ensurePages now _ fresh.dim_page hWKpf p hp

theorem currentPagesOf_import_mem (fresh : StoreState) (now : Nat)
    (snap : Snapshot) (n : String)
    (hWKpf : ∀ p ∈ fresh.dim_page, p.hash_key = p.source_key ++ [p.url])
    (r : PageRow)
    (hr : r ∈ currentPagesOf (import_state_json fresh now snap) [n]) :
    r.source_key = [n] ∧ r.hash_key = [n] ++ [r.url] := by
  unfold currentPagesOf at hr
  have hmem := (List.mem_filter.mp hr).1
  have hpred := (List.mem_filter.mp hr).2
  simp only [Bool.and_eq_true, beq_iff_eq] at hpred
  have hWK := WKp_import fresh now snap hWKpf r hmem
  exact ⟨hpred.1, by rw [hWK, hpred.1]⟩

theorem imported_page_row (fresh : StoreState) (now : Nat) (snap : Snapshot)
    (n : String) (s : DocSourceSnap) (u : String)
    (hWKpf : ∀ p ∈ fresh.dim_page, p.hash_key = p.source_key ++ [p.url])
    (hmem : (n, s) ∈ snap.docs) (hkn : getSourceKey fresh n = some [n])
    (p0 : PageSnap) (hp0 : p0 ∈ s.pages) (hurl : p0.url = u) :
    ∃ r ∈ currentPagesOf (import_state_json fresh now snap) [n],
      r.hash_key = [n] ++ [u] ∧ r.url = u := by
  have hcall : (([n], u) : Key × String) ∈ importedPageCalls fresh snap := by
    refine List.mem_flatMap.mpr ⟨(n, s), hmem, ?_⟩
    show (([n], u) : Key × String) ∈
      (match getSourceKey fresh n with
       | some k => s.pages.map (fun p : PageSnap => (k, p.url))
       | none => ([] : List (Key × String)))
    rw [hkn]
    show (([n], u) : Key × String) ∈
      s.pages.map (fun p : PageSnap => ([n], p.url))
    exact List.mem_map.mpr ⟨p0, hp0, by rw [hurl]⟩
  have hex := ensurePages_estab now (importedPageCalls fresh snap)
    fresh.dim_page (([n], u)) hcall
  rw [← (import_chars fresh now snap).2.2.2] at hex
  unfold pageExists at hex
  rcases List.any_eq_true.mp hex with ⟨r, hrmem, hpred⟩
  simp only [Bool.and_eq_true, beq_iff_eq] at hpred
  have hWK := WKp_import fresh now snap hWKpf r hrmem
  have hkey : r.source_key ++ [r.url] = [n] ++ [u] := by
    rw [← hWK, hpred.1]
    rfl
  rcases append_singleton_inj hkey with ⟨hsk, hru⟩
  refine ⟨r, ?_, ?_, hru⟩
  · unfold currentPagesOf
    refine List.mem_filter.mpr ⟨hrmem, ?_⟩
    simp [hsk, hpred.2]
  · rw [hpred.1]
    rfl

theorem mem_get_all_import (fresh : StoreState) (now : Nat) (snap : Snapshot)
    (n : String) (q : String × ChangeFact)
    (hkn : getSourceKey fresh n = some [n])
    (hq : q ∈ get_all_page_hashes (import_state_json fresh now snap) n) :
    ∃ r ∈ currentPagesOf (import_state_json fresh now snap) [n],
      (latestPageFact (import_state_json fresh now snap) r.hash_key).map
        (fun f => (r.url, f)) = some q := by
  have hgsk : getSourceKey (import_state_json fresh now snap) n = some [n] := by
    rw [roundtrip_gsk]
    exact hkn
  unfold get_all_page_hashes at hq
  rw [hgsk] at hq
  have hq' : q ∈ (currentPagesOf (import_state_json fresh now snap)
      [n]).filterMap (fun p =>
        (latestPageFact (import_state_json fresh now snap) p.hash_key).map
          (fun f => (p.url, f))) := hq
  exact List.mem_filterMap.mp hq'

theorem roundtrip_pages_ex (fresh : StoreState) (now : Nat) (snap : Snapshot)
    (n : String) (s : DocSourceSnap) (d1 d2 : List (String × DocSourceSnap))
    (u : String) (p0 : PageSnap)
    (hfc : fresh.fact_change = [])
    (hsnap : snap.docs = d1 ++ (n, s) :: d2)
    (hn1 : ∀ x ∈ d1, x.1 ≠ n) (hn2 : ∀ x ∈ d2, x.1 ≠ n)
    (hWKsf : ∀ r ∈ fresh.dim_source, r.hash_key = [r.source_name])
    (hWKpf : ∀ p ∈ fresh.dim_page, p.hash_key = p.source_key ++ [p.url])
    (hkn : getSourceKey fresh n = some [n])
    (hpg : ∀ p ∈ s.pages, ¬ p.hash = "")
    (hp0 : p0 ∈ s.pages) (hurl : p0.url = u) :
    ∃ q ∈ get_all_page_hashes (import_state_json fresh now snap) n,
      q.1 = u := by
  have hmem : (n, s) ∈ snap.docs := by
    rw [hsnap]
    exact List.mem_append_right _ (List.mem_cons_self _ _)
  rcases imported_page_row fresh now snap n s u hWKpf hmem hkn p0 hp0 hurl with
    ⟨r, hrcur, hrkey, hru⟩
  have hlat := roundtrip_pagefact fresh now snap n s d1 d2 u hfc hsnap hn1
    hn2 hWKsf hkn hpg
  have hne : ((s.pages.filter (fun p => p.url == u)).map
      (pageFactOf now [n])) ≠ [] := by
    intro hnil
    rw [List.map_eq_nil_iff] at hnil
    have hp0f : p0 ∈ s.pages.filter (fun p => p.url == u) :=
      List.mem_filter.mpr ⟨hp0, by rw [hurl]; exact beq_self_eq_true u⟩
    rw [hnil] at hp0f
    exact absurd hp0f (List.not_mem_nil p0)
  rcases List.exists_cons_of_ne_nil hne with ⟨f0, fs, hlist⟩
  have hsome : (latestPageFact (import_state_json fresh now snap)
      ([n] ++ [u])).isSome = true := by
    rw [hlat, hlist]
    exact pickLatest_isSome _ f0 fs
  rcases Option.isSome_iff_exists.mp hsome with ⟨f, hf⟩
  have hgsk : getSourceKey (import_state_json fresh now snap) n = some [n] := by
    rw [roundtrip_gsk]
    exact hkn
  unfold get_all_page_hashes
  rw [hgsk]
  show ∃ q ∈ (currentPagesOf (import_state_json fresh now snap)
      [n]).filterMap (fun p =>
        (latestPageFact (import_state_json fresh now snap) p.hash_key).map
          (fun f => (p.url, f))), q.1 = u
  refine ⟨(r.url, f), ?_, by rw [hru]⟩
  refine List.mem_filterMap.mpr ⟨r, hrcur, ?_⟩
  rw [hrkey, hf]
  rfl

theorem roundtrip_pages_uniform (fresh : StoreState) (now : Nat)
    (snap : Snapshot) (n : String) (s : DocSourceSnap)
    (d1 d2 : List (String × DocSourceSnap)) (u : String) (h0 : String)
    (hfc : fresh.fact_change = [])
    (hsnap : snap.docs = d1 ++ (n, s) :: d2)
    (hn1 : ∀ x ∈ d1, x.1 ≠ n) (hn2 : ∀ x ∈ d2, x.1 ≠ n)
    (hWKsf : ∀ r ∈ fresh.dim_source, r.hash_key = [r.source_name])
    (hWKpf : ∀ p ∈ fresh.dim_page, p.hash_key = p.source_key ++ [p.url])
    (hkn : getSourceKey fresh n = some [n])
    (hpg : ∀ p ∈ s.pages, ¬ p.hash = "")
    (hug : ∀ p ∈ s.pages, p.url = u → p.hash = h0) :
    ∀ q ∈ get_all_page_hashes (import_state_json fresh now snap) n,
      q.1 = u → q.2.new_hash = h0 := by
  intro q hq hqu
  rcases mem_get_all_import fresh now snap n q hkn hq with ⟨r, hrcur, heq⟩
  cases hlat : latestPageFact (import_state_json fresh now snap) r.hash_key with
  | none =>
    rw [hlat] at heq
    exact absurd heq (by simp)
  | some f =>
    rw [hlat] at heq
    have hq2 : (r.url, f) = q := Option.some_inj.mp heq
    rcases currentPagesOf_import_mem fresh now snap n hWKpf r hrcur with
      ⟨-, hkey⟩
    have hruu : r.url = u := by
      rw [← hq2] at hqu
      exact hqu
    rw [hruu] at hkey
    have hlat2 : latestPageFact (import_state_json fresh now snap)
        ([n] ++ [u]) = some f := by
      rw [← hkey]
      exact hlat
    rw [roundtrip_pagefact fresh now snap n s d1 d2 u hfc hsnap hn1 hn2
      hWKsf hkn hpg] at hlat2
    have hfmem := pickLatest_mem _ _ f hlat2
    rcases List.mem_map.mp hfmem with ⟨p, hpfilter, hfeq⟩
    have hpu : p.url = u := beq_iff_eq.mp (List.mem_filter.mp hpfilter).2
    have hpmem := (List.mem_filter.mp hpfilter).1
    have hnh : f.new_hash = p.hash := by
      rw [← hfeq]
      rfl
    have hq2' : q.2 = f := by
      rw [← hq2]
    rw [hq2', hnh]
    exact hug p hpmem hpu

theorem roundtrip_pages_absent (fresh : StoreState) (now : Nat)
    (snap : Snapshot) (n : String) (s : DocSourceSnap)
    (d1 d2 : List (String × DocSourceSnap)) (u : String)
    (hfc : fresh.fact_change = [])
    (hsnap : snap.docs = d1 ++ (n, s) :: d2)
    (hn1 : ∀ x ∈ d1, x.1 ≠ n) (hn2 : ∀ x ∈ d2, x.1 ≠ n)
    (hWKsf : ∀ r ∈ fresh.dim_source, r.hash_key = [r.source_name])
    (hWKpf : ∀ p ∈ fresh.dim_page, p.hash_key = p.source_key ++ [p.url])
    (hkn : getSourceKey fresh n = some [n])
    (hpg : ∀ p ∈ s.pages, ¬ p.hash = "")
    (hnou : ∀ p ∈ s.pages, p.url ≠ u) :
    ∀ q ∈ get_all_page_hashes (import_state_json fresh now snap) n,
      q.1 ≠ u := by
  intro q hq hqu
  rcases mem_get_all_import fresh now snap n q hkn hq with ⟨r, hrcur, heq⟩
  cases hlat : latestPageFact (import_state_json fresh now snap) r.hash_key with
  | none =>
    rw [hlat] at heq
    exact absurd heq (by simp)
  | some f =>
    rw [hlat] at heq
    have hq2 : (r.url, f) = q := Option.some_inj.mp heq
    rcases currentPagesOf_import_mem fresh now snap n hWKpf r hrcur with
      ⟨-, hkey⟩
    have hruu : r.url = u := by
      rw [← hq2] at hqu
      exact hqu
    rw [hruu] at hkey
    have hlat2 : latestPageFact (import_state_json fresh now snap)
        ([n] ++ [u]) = some f := by
      rw [← hkey]
      exact hlat
    rw [roundtrip_pagefact fresh now snap n s d1 d2 u hfc hsnap hn1 hn2
      hWKsf hkn hpg] at hlat2
    have hfmem := pickLatest_mem _ _ f hlat2
    rcases List.mem_map.mp hfmem with ⟨p, hpfilter, -⟩
    exact hnou p (List.mem_filter.mp hpfilter).1
      (beq_iff_eq.mp (List.mem_filter.mp hpfilter).2)

theorem roundtrip_pages_empty (fresh : StoreState) (now : Nat)
    (snap : Snapshot) (n : String)
    (hfc : fresh.fact_change = [])
    (hdocs : ∀ x ∈ snap.docs, x.1 ≠ n)
    (hWKsf : ∀ r ∈ fresh.dim_source, r.hash_key = [r.source_name])
    (hWKpf : ∀ p ∈ fresh.dim_page, p.hash_key = p.source_key ++ [p.url])
    (hkn : getSourceKey fresh n = some [n]) :
    get_all_page_hashes (import_state_json fresh now snap) n = [] := by
  have hgsk : getSourceKey (import_state_json fresh now snap) n = some [n] := by
    rw [roundtrip_gsk]
    exact hkn
  unfold get_all_page_hashes
  rw [hgsk]
  show (currentPagesOf (import_state_json fresh now snap) [n]).filterMap
    (fun p => (latestPageFact (import_state_json fresh now snap)
      p.hash_key).map (fun f => (p.url, f))) = []
  rw [List.filterMap_eq_nil_iff]
  intro r hr
  rcases currentPagesOf_import_mem fresh now snap n hWKpf r hr with ⟨-, hkey⟩
  rw [hkey, roundtrip_pagefact_none fresh now snap n r.url hfc hdocs hWKsf]
  rfl

theorem names_split {γ : Type} (l : List (String × γ)) (n : String)
    (x : String × γ) (hnd : (l.map Prod.fst).Nodup) (hmem : x ∈ l)
    (hname : x.1 = n) :
    ∃ d1 d2, l = d1 ++ x :: d2 ∧ (∀ y ∈ d1, y.1 ≠ n) ∧
      (∀ y ∈ d2, y.1 ≠ n) := by
  rcases List.append_of_mem hmem with ⟨d1, d2, hsplit⟩
  have hnd' : (d1.map Prod.fst ++ x.1 :: d2.map Prod.fst).Nodup := by
    have h := hnd
    rw [hsplit, List.map_append, List.map_cons] at h
    exact h
  rcases List.nodup_append.mp hnd' with ⟨-, hndc, hdisj⟩
  rcases List.nodup_cons.mp hndc with ⟨hnotin, -⟩
  refine ⟨d1, d2, hsplit, ?_, ?_⟩
  · intro y hy heq
    exact hdisj (List.mem_map_of_mem Prod.fst hy)
      (by rw [heq, ← hname]; exact List.mem_cons_self _ _)
  · intro y hy heq
    refine hnotin ?_
    rw [hname, ← heq]
    exact List.mem_map_of_mem Prod.fst hy

theorem find_entry_of_split {γ : Type} (l : List (String × γ)) (n : String)
    (s : γ) (d1 d2 : List (String × γ)) (hsplit : l = d1 ++ (n, s) :: d2)
    (hn1 : ∀ y ∈ d1, y.1 ≠ n) :
    l.find? (fun e => e.1 == n) = some (n, s) := by
  rw [hsplit, List.find?_append,
    find?_none_of _ d1 (fun y hy => beq_eq_false_iff_ne.mpr (hn1 y hy)),
    Option.none_or]
  exact List.find?_cons_of_pos d2 (beq_self_eq_true n)

theorem ex2_no_entry (fresh : StoreState) (now : Nat) (snap : Snapshot)
    (name : String)
    (hfc : fresh.fact_change = [])
    (hfw : fresh.fact_watermark_check = [])
    (hWKsf : ∀ r ∈ fresh.dim_source, r.hash_key = [r.source_name])
    (hWKpf : ∀ p ∈ fresh.dim_page, p.hash_key = p.source_key ++ [p.url])
    (hdocsAll : ∀ x ∈ snap.docs, x.1 ≠ name)
    (hrepoAll : ∀ x ∈ snap.sources, x.1 ≠ name) :
    (export_state_json (import_state_json fresh now snap)).docs.find?
      (fun e => e.1 == name) = none := by
  refine find?_none_of _ _ ?_
  intro x hx
  refine beq_eq_false_iff_ne.mpr ?_
  intro hxname
  rcases export_docs_entry _ x hx with ⟨hval, hnonempty, r, hrmem, hrname⟩
  have hrmem' : r ∈ docsCurrentSources fresh := by
    rw [← docsCurrentSources_congr (import_state_json fresh now snap) fresh
      (import_chars fresh now snap).1]
    exact hrmem
  have hrcur : r.is_current = true := by
    unfold docsCurrentSources at hrmem'
    have hp := (List.mem_filter.mp hrmem').2
    simp only [Bool.and_eq_true] at hp
    exact hp.2
  have hrdim : r ∈ fresh.dim_source := (List.mem_filter.mp hrmem').1
  have hkn : getSourceKey fresh name = some [name] :=
    getSourceKey_eq_some fresh name hWKsf
      ⟨r, hrdim, by rw [hrname, hxname], hrcur⟩
  have hwm := roundtrip_wm_none fresh now snap name hfw hdocsAll hWKsf hkn
  have hpages := roundtrip_pages_empty fresh now snap name hfc hdocsAll
    hWKsf hWKpf hkn
  have hfh := roundtrip_fh_none fresh now snap name hfc hdocsAll hrepoAll
    hWKsf hkn
  have hempty : (exportDocSource (import_state_json fresh now snap)
      name).isEmptySnap = true := by
    unfold exportDocSource DocSourceSnap.isEmptySnap
    simp [hwm, hpages, hfh]
  rw [hval, hxname, hempty] at hnonempty
  exact absurd hnonempty (by decide)

theorem ex2_entry_exists (fresh : StoreState) (now : Nat) (snap : Snapshot)
    (name : String)
    (hfd : ∃ r ∈ docsCurrentSources fresh, r.source_name = name)
    (hnon : (exportDocSource (import_state_json fresh now snap)
      name).isEmptySnap = false) :
    (name, exportDocSource (import_state_json fresh now snap) name) ∈
      (export_state_json (import_state_json fresh now snap)).docs := by
  rcases hfd with ⟨r, hrmem, hrname⟩
  unfold export_state_json
  refine List.mem_filterMap.mpr ⟨r, ?_, ?_⟩
  · rw [docsCurrentSources_congr (import_state_json fresh now snap) fresh
      (import_chars fresh now snap).1]
    exact hrmem
  · show (if (exportDocSource (import_state_json fresh now snap)
        r.source_name).isEmptySnap = true then none
      else some (r.source_name, exportDocSource
        (import_state_json fresh now snap) r.source_name)) =
      some (name, exportDocSource (import_state_json fresh now snap) name)
    rw [hrname, if_neg (by simp [hnon])]

/-- The central round-trip lemma: importing a well-formed snapshot into a
fresh store synced from the same configuration and re-exporting reproduces
every per-unit fingerprint of the snapshot. -/
theorem snapshot_roundtrip (fresh : StoreState) (now : Nat) (snap : Snapshot)
    (hfc : fresh.fact_change = [])
    (hfw : fresh.fact_watermark_check = [])
    (hWKsf : ∀ r ∈ fresh.dim_source, r.hash_key = [r.source_name])
    (hWKpf : ∀ p ∈ fresh.dim_page, p.hash_key = p.source_key ++ [p.url])
    (hndd : (snap.docs.map Prod.fst).Nodup)
    (hnds : (snap.sources.map Prod.fst).Nodup)
    (hpg : ∀ e ∈ snap.docs, ∀ p ∈ e.2.pages, ¬ p.hash = "")
    (hug : ∀ e ∈ snap.docs, ∀ p ∈ e.2.pages, ∀ q ∈ e.2.pages,
      p.url = q.url → p.hash = q.hash)
    (hfhne : ∀ e ∈ snap.docs, ∀ hv, e.2.file_hash = some hv → ¬ hv.1 = "")
    (hrpne : ∀ e ∈ snap.sources, (e.2.2.1 != "" || e.2.2.2 != 0) = true)
    (hdres : ∀ e ∈ snap.docs,
      ∃ r ∈ docsCurrentSources fresh, r.source_name = e.1)
    (hsres : ∀ e ∈ snap.sources,
      ∃ r ∈ repoCurrentSources fresh, r.source_name = e.1)
    (hdr : ∀ nd m, (∃ r ∈ docsCurrentSources fresh, r.source_name = nd) →
      (∃ r ∈ repoCurrentSources fresh, r.source_name = m) → nd ≠ m) :
    ∀ name url,
      pageHashLookup (export_state_json (import_state_json fresh now snap))
        name url = pageHashLookup snap name url ∧
      fileHashLookup (export_state_json (import_state_json fresh now snap))
        name = fileHashLookup snap name ∧
      repoLookup (export_state_json (import_state_json fresh now snap)) name =
        repoLookup snap name := by
  intro name url
  have hdocs2 : docsCurrentSources (import_state_json fresh now snap) =
      docsCurrentSources fresh :=
    docsCurrentSources_congr _ _ (import_chars fresh now snap).1
  have hrepo2 : repoCurrentSources (import_state_json fresh now snap) =
      repoCurrentSources fresh :=
    repoCurrentSources_congr _ _ (import_chars fresh now snap).1
  have hkn_of_docs : ∀ m, (∃ r ∈ docsCurrentSources fresh, r.source_name = m) →
      getSourceKey fresh m = some [m] := by
    intro m hm
    rcases hm with ⟨r, hr, hrn⟩
    unfold docsCurrentSources at hr
    have hp := (List.mem_filter.mp hr).2
    simp only [Bool.and_eq_true] at hp
    exact getSourceKey_eq_some fresh m hWKsf
      ⟨r, (List.mem_filter.mp hr).1, hrn, hp.2⟩
  have hkn_of_repo : ∀ m, (∃ r ∈ repoCurrentSources fresh, r.source_name = m) →
      getSourceKey fresh m = some [m] := by
    intro m hm
    rcases hm with ⟨r, hr, hrn⟩
    unfold repoCurrentSources at hr
    have hp := (List.mem_filter.mp hr).2
    simp only [Bool.and_eq_true] at hp
    exact getSourceKey_eq_some fresh m hWKsf
      ⟨r, (List.mem_filter.mp hr).1, hrn, hp.2⟩
  have hrepo_ne_of_docs : ∀ m,
      (∃ r ∈ docsCurrentSources fresh, r.source_name = m) →
      ∀ x ∈ snap.sources, x.1 ≠ m := by
    intro m hm x hx heq
    exact (hdr m x.1 hm (hsres x hx)) heq.symm
  -- the repo component
  have hrepoC : repoLookup (export_state_json
      (import_state_json fresh now snap)) name = repoLookup snap name := by
    by_cases hPr : ∃ e ∈ snap.sources, e.1 = name
    · rcases hPr with ⟨⟨en, ev⟩, he0, hename⟩
      have hename' : en = name := hename
      have he : (name, ev) ∈ snap.sources := by
        rw [← hename']
        exact he0
      rcases names_split snap.sources name (name, ev) hnds he rfl with
        ⟨r1, r2, hsplit, hn1, hn2⟩
      have hkn : getSourceKey fresh name = some [name] :=
        hkn_of_repo name (hsres (name, ev) he)
      have hlsc := roundtrip_repo fresh now snap name ev r1 r2 hfc hsplit hn1
        hn2 hWKsf hkn (hrpne (name, ev) he)
      have hsnapval : repoLookup snap name = some (ev.2.1, ev.2.2) := by
        unfold repoLookup
        rw [find_entry_of_split snap.sources name ev r1 r2 hsplit hn1]
        rfl
      have hval : repoLookup (export_state_json
          (import_state_json fresh now snap)) name =
          some (ev.2.1, ev.2.2) := by
        unfold repoLookup
        refine find?_map_uniform _ _ _ _ ?_ ?_
        · intro x hx hxname
          rcases export_sources_entry _ x hx with ⟨⟨f, hf, hx2⟩, -⟩
          have hxn : x.1 = name := beq_iff_eq.mp hxname
          rw [hxn, hlsc] at hf
          have hff : f = repoFactOf now [name] ev :=
            (Option.some_inj.mp hf).symm
          show (x.2.2.1, x.2.2.2) = (ev.2.1, ev.2.2)
          rw [hx2, hff]
          rfl
        · rcases hsres (name, ev) he with ⟨r, hrmem, hrname⟩
          refine ⟨(name, (ev.1, ev.2.1, ev.2.2)), ?_, beq_self_eq_true name⟩
          show (name, (ev.1, ev.2.1, ev.2.2)) ∈
            (repoCurrentSources (import_state_json fresh now snap)).filterMap
              (fun r => (get_latest_source_check
                (import_state_json fresh now snap) r.source_name).map
                (fun f => (r.source_name, (f.detected_at,
                  f.commit_hash.getD "", f.commit_count.getD 0))))
          rw [hrepo2]
          refine List.mem_filterMap.mpr ⟨r, hrmem, ?_⟩
          rw [hrname, hlsc]
          rfl
      rw [hval, hsnapval]
    · have hall : ∀ x ∈ snap.sources, x.1 ≠ name :=
        fun x hx heq => hPr ⟨x, hx, heq⟩
      have hsnapnone : repoLookup snap name = none := by
        unfold repoLookup
        rw [find?_none_of _ _
          (fun x hx => beq_eq_false_iff_ne.mpr (hall x hx))]
        rfl
      have hexnone : repoLookup (export_state_json
          (import_state_json fresh now snap)) name = none := by
        unfold repoLookup
        have hpf : ∀ x ∈ (export_state_json
            (import_state_json fresh now snap)).sources,
            (x.1 == name) = false := by
          intro x hx
          refine beq_eq_false_iff_ne.mpr ?_
          intro hxname
          rcases export_sources_entry _ x hx with ⟨⟨f, hf, -⟩, r, hrmem, hrname⟩
          have hrmem' : r ∈ repoCurrentSources fresh := by
            rw [← hrepo2]
            exact hrmem
          have hkn : getSourceKey fresh name = some [name] :=
            hkn_of_repo name ⟨r, hrmem', by rw [hrname, hxname]⟩
          have hnone := roundtrip_repo_none fresh now snap name hfc hall
            hWKsf hkn
          rw [hxname, hnone] at hf
          exact absurd hf (by simp)
        rw [find?_none_of _ _ hpf]
        rfl
      rw [hexnone, hsnapnone]
  -- the docs components
  have hdocsC : pageHashLookup (export_state_json
      (import_state_json fresh now snap)) name url =
      pageHashLookup snap name url ∧
      fileHashLookup (export_state_json
        (import_state_json fresh now snap)) name =
      fileHashLookup snap name := by
    by_cases hPd : ∃ e ∈ snap.docs, e.1 = name
    · rcases hPd with ⟨⟨en, s⟩, he0, hename⟩
      have hename' : en = name := hename
      have he : (name, s) ∈ snap.docs := by
        rw [← hename']
        exact he0
      rcases names_split snap.docs name (name, s) hndd he rfl with
        ⟨d1, d2, hsplit, hn1, hn2⟩
      have hkn : getSourceKey fresh name = some [name] :=
        hkn_of_docs name (hdres (name, s) he)
      have hrepoAll : ∀ x ∈ snap.sources, x.1 ≠ name :=
        hrepo_ne_of_docs name (hdres (name, s) he)
      have hpgs : ∀ p ∈ s.pages, ¬ p.hash = "" := hpg (name, s) he
      have hsnapfind := find_entry_of_split snap.docs name s d1 d2 hsplit hn1
      constructor
      · -- pageHashLookup
        by_cases hu : ∃ p ∈ s.pages, p.url = url
        · rcases hu with ⟨p0, hp0, hp0u⟩
          have hugs : ∀ p ∈ s.pages, p.url = url → p.hash = p0.hash :=
            fun p hp hpu => hug (name, s) he p hp p0 hp0 (by rw [hpu, hp0u])
          have hsnapval : pageHashLookup snap name url = some p0.hash := by
            unfold pageHashLookup
            rw [hsnapfind]
            show (s.pages.find? (fun p => p.url == url)).map
              (fun p => p.hash) = some p0.hash
            refine find?_map_uniform _ _ _ _ ?_
              ⟨p0, hp0, by rw [hp0u]; exact beq_self_eq_true url⟩
            intro p hp hpu
            exact hugs p hp (beq_iff_eq.mp hpu)
          have hex := roundtrip_pages_ex fresh now snap name s d1 d2 url p0
            hfc hsplit hn1 hn2 hWKsf hWKpf hkn hpgs hp0 hp0u
          have huni := roundtrip_pages_uniform fresh now snap name s d1 d2
            url p0.hash hfc hsplit hn1 hn2 hWKsf hWKpf hkn hpgs hugs
          have hpages2 : ((exportDocSource (import_state_json fresh now snap)
              name).pages.find? (fun p => p.url == url)).map
              (fun p => p.hash) = some p0.hash := by
            refine find?_map_uniform _ _ _ _ ?_ ?_
            · intro q' hq' hq'u
              simp only [exportDocSource] at hq'
              rcases List.mem_map.mp hq' with ⟨q, hq, hqeq⟩
              have hq1 : q.1 = url := by
                rw [← hqeq] at hq'u
                exact beq_iff_eq.mp hq'u
              have hh := huni q hq hq1
              rw [← hqeq]
              exact hh
            · rcases hex with ⟨q, hq, hq1⟩
              simp only [exportDocSource]
              refine ⟨_, List.mem_map_of_mem _ hq, ?_⟩
              show (q.1 == url) = true
              rw [hq1]
              exact beq_self_eq_true url
          have hnon : (exportDocSource (import_state_json fresh now snap)
              name).isEmptySnap = false := by
            have hpne : (exportDocSource (import_state_json fresh now snap)
                name).pages ≠ [] := by
              intro hnil
              rcases hex with ⟨q, hq, -⟩
              simp only [exportDocSource] at hnil
              rw [List.map_eq_nil_iff] at hnil
              rw [hnil] at hq
              exact absurd hq (List.not_mem_nil q)
            have hpe : (exportDocSource (import_state_json fresh now snap)
                name).pages.isEmpty = false := by
              cases hc : (exportDocSource (import_state_json fresh now snap)
                  name).pages with
              | nil => exact absurd hc hpne
              | cons a t => rfl
            unfold DocSourceSnap.isEmptySnap
            rw [hpe]
            simp
          have hexval : pageHashLookup (export_state_json
              (import_state_json fresh now snap)) name url =
              some p0.hash := by
            unfold pageHashLookup
            refine find?_bind_uniform _ _ _ _ ?_
              ⟨(name, exportDocSource (import_state_json fresh now snap) name),
                ex2_entry_exists fresh now snap name (hdres (name, s) he) hnon,
                beq_self_eq_true name⟩
            intro x hx hxname
            have hx2 := (export_docs_entry _ x hx).1
            have hxn := beq_iff_eq.mp hxname
            rw [hx2, hxn]
            exact hpages2
          rw [hexval, hsnapval]
        · have hnou : ∀ p ∈ s.pages, p.url ≠ url :=
            fun p hp heq => hu ⟨p, hp, heq⟩
          have hsnapval : pageHashLookup snap name url = none := by
            unfold pageHashLookup
            rw [hsnapfind]
            show (s.pages.find? (fun p => p.url == url)).map
              (fun p => p.hash) = none
            rw [find?_none_of _ _
              (fun p hp => beq_eq_false_iff_ne.mpr (hnou p hp))]
            rfl
          have habs := roundtrip_pages_absent fresh now snap name s d1 d2 url
            hfc hsplit hn1 hn2 hWKsf hWKpf hkn hpgs hnou
          have hexval : pageHashLookup (export_state_json
              (import_state_json fresh now snap)) name url = none := by
            unfold pageHashLookup
            cases hfind : (export_state_json
                (import_state_json fresh now snap)).docs.find?
                (fun e => e.1 == name) with
            | none => rfl
            | some x =>
              have hx2 := (export_docs_entry _ x
                (List.mem_of_find?_eq_some hfind)).1
              have hxn : x.1 = name := by
                have hpx := List.find?_some hfind
                simp only [beq_iff_eq] at hpx
                exact hpx
              show (x.2.pages.find? (fun p => p.url == url)).map
                (fun p => p.hash) = none
              rw [hx2, hxn]
              have hfn : ((exportDocSource (import_state_json fresh now snap)
                  name).pages.find? (fun p => p.url == url)) = none := by
                refine find?_none_of _ _ ?_
                intro q' hq'
                simp only [exportDocSource] at hq'
                rcases List.mem_map.mp hq' with ⟨q, hq, hqeq⟩
                refine beq_eq_false_iff_ne.mpr ?_
                intro hqu
                have hq1 : q.1 = url := by
                  rw [← hqeq] at hqu
                  exact hqu
                exact habs q hq hq1
              rw [hfn]
              rfl
          rw [hexval, hsnapval]
      · -- fileHashLookup
        have hfh2 := roundtrip_fh fresh now snap name s d1 d2 hfc hsplit hn1
          hn2 hWKsf hkn hrepoAll
        have hsnapside : fileHashLookup snap name =
            s.file_hash.map (fun hv => hv.1) := by
          unfold fileHashLookup
          rw [hsnapfind]
          rfl
        cases hsfh : s.file_hash with
        | some hv =>
          have hvne : (hv.1 != "") = true :=
            bne_iff_ne.mpr (hfhne (name, s) he hv hsfh)
          have hgf : get_file_hash (import_state_json fresh now snap) name =
              some (fileFactOf now [name] hv) := by
            rw [hfh2, hsfh]
            show (if (hv.1 != "") = true then some (fileFactOf now [name] hv)
              else none) = some (fileFactOf now [name] hv)
            rw [if_pos hvne]
          have hsnap2fh : (exportDocSource (import_state_json fresh now snap)
              name).file_hash = some (hv.1, hv.2) := by
            show (get_file_hash (import_state_json fresh now snap) name).map
              (fun f => (f.new_hash, f.detected_at)) = some (hv.1, hv.2)
            rw [hgf]
            rfl
          have hnon : (exportDocSource (import_state_json fresh now snap)
              name).isEmptySnap = false := by
            unfold DocSourceSnap.isEmptySnap
            rw [hsnap2fh]
            simp
          have hex2 : fileHashLookup (export_state_json
              (import_state_json fresh now snap)) name = some hv.1 := by
            unfold fileHashLookup
            refine find?_bind_uniform _ _ _ _ ?_
              ⟨(name, exportDocSource (import_state_json fresh now snap) name),
                ex2_entry_exists fresh now snap name (hdres (name, s) he) hnon,
                beq_self_eq_true name⟩
            intro x hx hxname
            have hx2 := (export_docs_entry _ x hx).1
            have hxn := beq_iff_eq.mp hxname
            show x.2.file_hash.map (fun hv => hv.1) = some hv.1
            rw [hx2, hxn, hsnap2fh]
            rfl
          rw [hex2, hsnapside, hsfh]
          rfl
        | none =>
          have hgf : get_file_hash (import_state_json fresh now snap) name =
              none := by
            rw [hfh2, hsfh]
          have hsnap2fh : (exportDocSource (import_state_json fresh now snap)
              name).file_hash = none := by
            show (get_file_hash (import_state_json fresh now snap) name).map
              (fun f => (f.new_hash, f.detected_at)) = none
            rw [hgf]
            rfl
          have hex2 : fileHashLookup (export_state_json
              (import_state_json fresh now snap)) name = none := by
            unfold fileHashLookup
            cases hfind : (export_state_json
                (import_state_json fresh now snap)).docs.find?
                (fun e => e.1 == name) with
            | none => rfl
            | some x =>
              have hx2 := (export_docs_entry _ x
                (List.mem_of_find?_eq_some hfind)).1
              have hxn : x.1 = name := by
                have hpx := List.find?_some hfind
                simp only [beq_iff_eq] at hpx
                exact hpx
              show x.2.file_hash.map (fun hv => hv.1) = none
              rw [hx2, hxn, hsnap2fh]
              rfl
          rw [hex2, hsnapside, hsfh]
          rfl
    · -- no snapshot entry named `name`
      have hall : ∀ x ∈ snap.docs, x.1 ≠ name :=
        fun x hx heq => hPd ⟨x, hx, heq⟩
      have hsnapdocs_none : snap.docs.find? (fun e => e.1 == name) = none :=
        find?_none_of _ _ (fun x hx => beq_eq_false_iff_ne.mpr (hall x hx))
      have hexdocs_none : (export_state_json
          (import_state_json fresh now snap)).docs.find?
          (fun e => e.1 == name) = none := by
        by_cases hfd : ∃ r ∈ docsCurrentSources fresh, r.source_name = name
        · exact ex2_no_entry fresh now snap name hfc hfw hWKsf hWKpf hall
            (hrepo_ne_of_docs name hfd)
        · refine find?_none_of _ _ ?_
          intro x hx
          refine beq_eq_false_iff_ne.mpr ?_
          intro hxname
          rcases (export_docs_entry _ x hx).2.2 with ⟨r, hrmem, hrname⟩
          refine hfd ⟨r, ?_, by rw [hrname, hxname]⟩
          rw [← hdocs2]
          exact hrmem
      constructor
      · unfold pageHashLookup
        rw [hexdocs_none, hsnapdocs_none]
      · unfold fileHashLookup
        rw [hexdocs_none, hsnapdocs_none]
  exact ⟨hdocsC.1, hdocsC.2, hrepoC⟩

theorem export_docs_names_nodup (st : StoreState)
    (hWK : ∀ r ∈ st.dim_source, r.hash_key = [r.source_name])
    (hinv : UniqueCurrentSrc st.dim_source) :
    ((export_state_json st).docs.map Prod.fst).Nodup := by
  have hnames : ((docsCurrentSources st).map
      (fun r => r.source_name)).Nodup := by
    unfold docsCurrentSources
    refine current_names_nodup st.dim_source _ ?_ hWK hinv
    intro r hq
    simp only [Bool.and_eq_true] at hq
    exact hq.2
  have hsub : ((export_state_json st).docs.map Prod.fst).Sublist
      ((docsCurrentSources st).map (fun r => r.source_name)) := by
    unfold export_state_json
    rw [List.map_filterMap]
    refine filterMap_names_sublist _ _ _ ?_
    intro r hr b hb
    by_cases hemp : (exportDocSource st r.source_name).isEmptySnap = true
    · rw [if_pos hemp] at hb
      exact absurd hb (by simp)
    · rw [if_neg hemp] at hb
      have hsb : some r.source_name = some b := hb
      exact (Option.some_inj.mp hsb).symm
  exact List.Nodup.sublist hsub hnames

theorem export_sources_names_nodup (st : StoreState)
    (hWK : ∀ r ∈ st.dim_source, r.hash_key = [r.source_name])
    (hinv : UniqueCurrentSrc st.dim_source) :
    ((export_state_json st).sources.map Prod.fst).Nodup := by
  have hnames : ((repoCurrentSources st).map
      (fun r => r.source_name)).Nodup := by
    unfold repoCurrentSources
    refine current_names_nodup st.dim_source _ ?_ hWK hinv
    intro r hq
    simp only [Bool.and_eq_true] at hq
    exact hq.2
  have hsub : ((export_state_json st).sources.map Prod.fst).Sublist
      ((repoCurrentSources st).map (fun r => r.source_name)) := by
    unfold export_state_json
    rw [List.map_filterMap]
    refine filterMap_names_sublist _ _ _ ?_
    intro r hr b hb
    cases hf : get_latest_source_check st r.source_name with
    | none =>
      rw [hf] at hb
      exact absurd hb (by simp)
    | some f =>
      rw [hf] at hb
      have hsb : some r.source_name = some b := hb
      exact (Option.some_inj.mp hsb).symm
  exact List.Nodup.sublist hsub hnames

/-- Every page entry of an exported docs snapshot carries the latest fact of
the page key determined by its url. -/
theorem export_page_elt (st : StoreState) (n : String) (pq : PageSnap)
    (hWKs : ∀ r ∈ st.dim_source, r.hash_key = [r.source_name])
    (hWKp : ∀ p ∈ st.dim_page, p.hash_key = p.source_key ++ [p.url])
    (hpq : pq ∈ (exportDocSource st n).pages) :
    ∃ f, latestPageFact st ([n] ++ [pq.url]) = some f ∧
      pq.hash = f.new_hash := by
  simp only [exportDocSource] at hpq
  rcases List.mem_map.mp hpq with ⟨g, hg, hgeq⟩
  cases hk : getSourceKey st n with
  | none =>
    unfold get_all_page_hashes at hg
    rw [hk] at hg
    exact absurd hg (List.not_mem_nil g)
  | some k =>
    have hkn : k = [n] := getSourceKey_shape st n hWKs k hk
    subst hkn
    unfold get_all_page_hashes at hg
    rw [hk] at hg
    have hg' : g ∈ (currentPagesOf st [n]).filterMap (fun p =>
        (latestPageFact st p.hash_key).map (fun f => (p.url, f))) := hg
    rcases List.mem_filterMap.mp hg' with ⟨row, hrow, hroweq⟩
    have hrowsk : row.source_key = [n] := by
      unfold currentPagesOf at hrow
      have hp := (List.mem_filter.mp hrow).2
      simp only [Bool.and_eq_true, beq_iff_eq] at hp
      exact hp.1
    have hrowkey : row.hash_key = [n] ++ [row.url] := by
      rw [hWKp row (List.mem_filter.mp hrow).1, hrowsk]
    cases hlat : latestPageFact st row.hash_key with
    | none =>
      rw [hlat] at hroweq
      exact absurd hroweq (by simp)
    | some f =>
      rw [hlat] at hroweq
      have hgval : (row.url, f) = g := Option.some_inj.mp hroweq
      have hurl : pq.url = row.url := by
        rw [← hgeq, ← hgval]
      have hhash : pq.hash = f.new_hash := by
        rw [← hgeq, ← hgval]
      refine ⟨f, ?_, hhash⟩
      rw [hurl, ← hrowkey]
      exact hlat

theorem export_pages_uniform (st : StoreState)
    (hWKs : ∀ r ∈ st.dim_source, r.hash_key = [r.source_name])
    (hWKp : ∀ p ∈ st.dim_page, p.hash_key = p.source_key ++ [p.url]) :
    ∀ e ∈ (export_state_json st).docs, ∀ p ∈ e.2.pages, ∀ q ∈ e.2.pages,
      p.url = q.url → p.hash = q.hash := by
  intro e he p hp q hq hpq
  have he2 := (export_docs_entry st e he).1
  rw [he2] at hp hq
  rcases export_page_elt st e.1 p hWKs hWKp hp with ⟨f1, hf1, hh1⟩
  rcases export_page_elt st e.1 q hWKs hWKp hq with ⟨f2, hf2, hh2⟩
  rw [hpq] at hf1
  rw [hf1] at hf2
  have hf12 : f1 = f2 := Option.some_inj.mp hf2
  rw [hh1, hh2, hf12]

theorem uniqueCurrentSrc_singleton (r : SourceRow) (hc : r.is_current = true) :
    UniqueCurrentSrc [r] := by
  intro hk
  constructor
  · exact List.length_filter_le _ _
  · rintro ⟨x, hx, hxk⟩
    rcases List.mem_singleton.mp hx with rfl
    refine ⟨x, List.mem_singleton.mpr rfl, ?_⟩
    unfold curSrc
    rw [hxk]
    simp [hc]

theorem check_deprecations_isEmpty_iff (commits : List Commit) :
    (check_deprecations commits).isEmpty = true ↔
      ∀ c ∈ commits,
        (DEPRECATION_KEYWORDS.any (fun kw => containsSub (strToLower c.subject) kw)) = false := by
  simp only [check_deprecations, List.isEmpty_iff, List.filterMap_eq_nil_iff]
  constructor
  · intro h c hc
    have := h c hc
    by_contra hb
    simp only [Bool.not_eq_false] at hb
    simp [hb] at this
  · intro h c hc
    simp [h c hc]

theorem analyze_watched_isEmpty_iff (watched changed : List String) :
    (analyze_watched_files watched changed).isEmpty = true ↔
      ∀ wf ∈ watched, ¬ wf ∈ changed := by
  simp only [analyze_watched_files, List.isEmpty_iff, List.filter_eq_nil_iff]
  constructor
  · intro h wf hw hc
    have := h wf hw
    rw [List.elem_iff] at this
    exact this hc
  · intro h wf hw
    intro hc
    rw [List.elem_iff] at hc
    exact h wf hw hc

/-! ## Claim theorems: the pure classifier and detector -/

/-- Claim C4: `classify_change` is the specified pure function — empty old
content gives ADDITIVE, otherwise the lower-cased symmetric line-set
difference is scanned against the BREAKING keyword family, then the ADDITIVE
family, else COSMETIC; with the three spec examples. -/
theorem c4_classify_change_is_specified (oldC newC : String) (h : oldC ≠ "") :
    (∀ n : String, classify_change "" n = "ADDITIVE") ∧
    classify_change oldC newC =
      (if CHANGE_KEYWORDS_BREAKING.any (fun kw => containsSub (diffText oldC newC) kw) then
        "BREAKING"
       else if CHANGE_KEYWORDS_ADDITIVE.any (fun kw => containsSub (diffText oldC newC) kw) then
        "ADDITIVE"
       else "COSMETIC") ∧
    classify_change "a\nb" "a\nb\nremoved old endpoint" = "BREAKING" ∧
    classify_change "" "a\nb" = "ADDITIVE" ∧
    classify_change "a\nb" "a\nb\nfix typo" = "COSMETIC" := by
  refine ⟨fun n => rfl, ?_, by decide, rfl, by decide⟩
  have hb : (oldC == "") = false := beq_eq_false_iff_ne.mpr h
  simp [classify_change, hb]

/-- Witness for C4 at the spec's COSMETIC example. -/
theorem c4_classify_change_is_specified_witness :
    classify_change "a\nb" "a\nb\nfix typo" =
      (if CHANGE_KEYWORDS_BREAKING.any
            (fun kw => containsSub (diffText "a\nb" "a\nb\nfix typo") kw) then
        "BREAKING"
       else if CHANGE_KEYWORDS_ADDITIVE.any
            (fun kw => containsSub (diffText "a\nb" "a\nb\nfix typo") kw) then
        "ADDITIVE"
       else "COSMETIC") :=
  (c4_classify_change_is_specified "a\nb" "a\nb\nfix typo" (by decide)).2.1

/-- Claim C5: the watermark detector reports changed on a failed probe and
when no conditional indicator is present; it reports unchanged exactly when
an indicator is present and both values match the stored watermark; and a
source with no stored `last_modified` whose probe returns one is changed. -/
theorem c5_detect_change_policy (stored : Watermark) (nowIso lm etag : String)
    (hstored : stored.last_modified = "") (hlm : lm ≠ "") :
    (∀ w n, detect_change .fail w n = (true, w)) ∧
    (∀ w n a b, (detect_change (.ok a b) w n).1 = false ↔
      (¬(a = "" ∧ b = "") ∧ a = w.last_modified ∧ b = w.etag)) ∧
    (∀ w n, (detect_change (.ok "" "") w n).1 = true) ∧
    (detect_change (.ok lm etag) stored nowIso).1 = true := by
  have key : ∀ w n a b, (detect_change (.ok a b) w n).1 = false ↔
      (¬(a = "" ∧ b = "") ∧ a = w.last_modified ∧ b = w.etag) := by
    intro w n a b
    simp only [detect_change]
    rcases hab : (a == "" && b == "") with _ | _
    · have hne : ¬(a = "" ∧ b = "") := by
        rintro ⟨rfl, rfl⟩
        simp at hab
      simp [hne]
    · simp only [Bool.and_eq_true, beq_iff_eq] at hab
      obtain ⟨rfl, rfl⟩ := hab
      simp
  refine ⟨fun w n => rfl, key, ?_, ?_⟩
  · intro w n
    simp [detect_change]
  · have := key stored nowIso lm etag
    rcases hfst : (detect_change (.ok lm etag) stored nowIso).1 with _ | _
    · exfalso
      rcases this.mp hfst with ⟨-, h1, -⟩
      exact hlm (h1.trans hstored)
    · rfl

/-- Witness for C5 with an empty stored watermark and a probe returning a
`Last-Modified` value. -/
theorem c5_detect_change_policy_witness :
    (detect_change (.ok "Wed" "") {} "t").1 = true :=
  (c5_detect_change_policy {} "t" "Wed" "" rfl (by decide)).2.2.2

/-- Claim C7: the source-repository batch classification is BREAKING when a
commit subject holds a deprecation-style keyword, else ADDITIVE when a
watched file is among the changed files, else COSMETIC when there is a
commit, else NONE. -/
theorem c7_classify_batch_spec (commits : List Commit)
    (changed watched : List String) :
    (classify_batch commits changed watched = "BREAKING" ↔
      ∃ c ∈ commits,
        (DEPRECATION_KEYWORDS.any (fun kw => containsSub (strToLower c.subject) kw)) = true) ∧
    (classify_batch commits changed watched = "ADDITIVE" ↔
      ((∀ c ∈ commits,
          (DEPRECATION_KEYWORDS.any (fun kw => containsSub (strToLower c.subject) kw)) = false) ∧
        ∃ wf ∈ watched, wf ∈ changed)) ∧
    (classify_batch commits changed watched = "COSMETIC" ↔
      ((∀ c ∈ commits,
          (DEPRECATION_KEYWORDS.any (fun kw => containsSub (strToLower c.subject) kw)) = false) ∧
        (∀ wf ∈ watched, ¬ wf ∈ changed) ∧ commits ≠ [])) ∧
    (classify_batch commits changed watched = "NONE" ↔
      ((∀ wf ∈ watched, ¬ wf ∈ changed) ∧ commits = [])) := by
  unfold classify_batch
  by_cases h1 : (check_deprecations commits).isEmpty = true
  · have h1' := (check_deprecations_isEmpty_iff commits).mp h1
    by_cases h2 : (analyze_watched_files watched changed).isEmpty = true
    · have h2' := (analyze_watched_isEmpty_iff watched changed).mp h2
      by_cases h3 : commits.isEmpty = true
      · have h3' := List.isEmpty_iff.mp h3
        simp only [h1, h2, h3, Bool.not_true, if_false, if_true]
        refine ⟨?_, ?_, ?_, ?_⟩
        · constructor
          · intro h; exact absurd h (by decide)
          · rintro ⟨c, hc, hkw⟩
            rw [h1' c hc] at hkw
            exact absurd hkw (by decide)
        · constructor
          · intro h; exact absurd h (by decide)
          · rintro ⟨-, wf, hw, hc⟩
            exact absurd hc (h2' wf hw)
        · constructor
          · intro h; exact absurd h (by decide)
          · rintro ⟨-, -, hne⟩
            exact absurd h3' hne
        · exact ⟨fun _ => ⟨h2', h3'⟩, fun _ => rfl⟩
      · have h3' : commits ≠ [] := by
          intro hnil
          rw [hnil] at h3
          exact h3 rfl
        simp only [h1, h2, h3, Bool.not_true, Bool.not_false, if_false, if_true]
        refine ⟨?_, ?_, ?_, ?_⟩
        · constructor
          · intro h; exact absurd h (by decide)
          · rintro ⟨c, hc, hkw⟩
            rw [h1' c hc] at hkw
            exact absurd hkw (by decide)
        · constructor
          · intro h; exact absurd h (by decide)
          · rintro ⟨-, wf, hw, hc⟩
            exact absurd hc (h2' wf hw)
        · exact ⟨fun _ => ⟨h1', h2', h3'⟩, fun _ => rfl⟩
        · constructor
          · intro h; exact absurd h (by decide)
          · rintro ⟨-, hnil⟩
            exact absurd hnil h3'
    · have h2' : ∃ wf ∈ watched, wf ∈ changed := by
        by_contra hno
        push_neg at hno
        exact h2 ((analyze_watched_isEmpty_iff watched changed).mpr hno)
      simp only [h1, h2, Bool.not_true, Bool.not_false, if_false, if_true]
      refine ⟨?_, ?_, ?_, ?_⟩
      · constructor
        · intro h; exact absurd h (by decide)
        · rintro ⟨c, hc, hkw⟩
          rw [h1' c hc] at hkw
          exact absurd hkw (by decide)
      · exact ⟨fun _ => ⟨h1', h2'⟩, fun _ => rfl⟩
      · constructor
        · intro h; exact absurd h (by decide)
        · rintro ⟨-, hno, -⟩
          rcases h2' with ⟨wf, hw, hc⟩
          exact absurd hc (hno wf hw)
      · constructor
        · intro h; exact absurd h (by decide)
        · rintro ⟨hno, -⟩
          rcases h2' with ⟨wf, hw, hc⟩
          exact absurd hc (hno wf hw)
  · have h1' : ∃ c ∈ commits,
        (DEPRECATION_KEYWORDS.any (fun kw => containsSub (strToLower c.subject) kw)) = true := by
      by_contra hno
      push_neg at hno
      refine h1 ((check_deprecations_isEmpty_iff commits).mpr ?_)
      intro c hc
      have := hno c hc
      simp only [Bool.not_eq_true] at this
      exact this
    have hCommitsNe : commits ≠ [] := by
      rintro rfl
      rcases h1' with ⟨c, hc, -⟩
      exact absurd hc (List.not_mem_nil c)
    have hb1 : (check_deprecations commits).isEmpty = false :=
      Bool.eq_false_iff.mpr h1
    simp only [hb1, Bool.not_false, if_true]
    refine ⟨⟨fun _ => h1', fun _ => trivial⟩, ?_, ?_, ?_⟩
    · constructor
      · intro h; exact absurd h (by decide)
      · rintro ⟨hall, -⟩
        rcases h1' with ⟨c, hc, hkw⟩
        rw [hall c hc] at hkw
        exact absurd hkw (by decide)
    · constructor
      · intro h; exact absurd h (by decide)
      · rintro ⟨hall, -, -⟩
        rcases h1' with ⟨c, hc, hkw⟩
        rw [hall c hc] at hkw
        exact absurd hkw (by decide)
    · constructor
      · intro h; exact absurd h (by decide)
      · rintro ⟨-, hnil⟩
        exact absurd hnil hCommitsNe

/-- Claim C2: every fact-recording method called with a natural key that has
no current dimension row fails with the named error, returning no new state
(the Python method raises before any insert, so nothing is written). -/
theorem c2_unknown_key_rejection (st : StoreState) (srcName skName : String)
    (hsrc : getSourceKey st srcName = none)
    (hsk : getSkillKey st skName = none) :
    (∀ now lm etag ch rs sid,
      record_watermark_check st now srcName lm etag ch rs sid =
        .error ("Unknown source: " ++ srcName)) ∧
    (∀ now cl oh nh sm cp pu chh cc rs sid,
      record_change st now srcName cl oh nh sm cp pu chh cc rs sid =
        .error ("Unknown source: " ++ srcName)) ∧
    (∀ now iv errs warns tt rs sid,
      record_validation st now skName iv errs warns tt rs sid =
        .error ("Unknown skill: " ++ skName)) ∧
    (∀ now mode status ca bp rs sid,
      record_update_attempt st now skName mode status ca bp rs sid =
        .error ("Unknown skill: " ++ skName)) ∧
    (∀ now fp ft lc wc cc chash rs sid,
      record_content_measurement st now skName fp ft lc wc cc chash rs sid =
        .error ("Unknown skill: " ++ skName)) := by
  refine ⟨?_, ?_, ?_, ?_, ?_⟩ <;> intros <;>
    simp [record_watermark_check, record_change, record_validation,
      record_update_attempt, record_content_measurement, hsrc, hsk]

/-- Witness for C2 on the empty store. -/
theorem c2_unknown_key_rejection_witness :
    record_watermark_check emptyStore 0 "ghost" "" "" true "docs_monitor" none =
      .error ("Unknown source: " ++ "ghost") :=
  (c2_unknown_key_rejection emptyStore "ghost" "ghost" rfl rfl).1
    0 "" "" true "docs_monitor" none

/-- Claim C8: dimension sync, lazy page creation, every fact-recording
method and snapshot import preserve the invariant that each present hash key
of `dim_source`, `dim_skill` and `dim_page` has exactly one current row
(at most one current row per key, and every present key has a current row),
and none of these operations modifies a closed historical row (each closed
row survives verbatim). -/
theorem c8_single_current_row_invariant (st : StoreState) (cfg : Config)
    (now : Nat) (snap : Snapshot) (k : Key) (u : String)
    (hinv : DimsInv st) :
    (DimsInv (syncDimensions cfg now st) ∧
      ClosedKept st (syncDimensions cfg now st)) ∧
    (DimsInv { st with dim_page := ensurePage now k u st.dim_page } ∧
      ClosedKept st { st with dim_page := ensurePage now k u st.dim_page }) ∧
    (∀ n lm etag ch rs sid st2,
      record_watermark_check st now n lm etag ch rs sid = .ok st2 →
        DimsInv st2 ∧ ClosedKept st st2) ∧
    (∀ n cl oh nh sm cp pu chh cc rs sid st2,
      record_change st now n cl oh nh sm cp pu chh cc rs sid = .ok st2 →
        DimsInv st2 ∧ ClosedKept st st2) ∧
    (∀ n iv errs warns tt rs sid st2,
      record_validation st now n iv errs warns tt rs sid = .ok st2 →
        DimsInv st2 ∧ ClosedKept st st2) ∧
    (∀ n mode status ca bp rs sid st2,
      record_update_attempt st now n mode status ca bp rs sid = .ok st2 →
        DimsInv st2 ∧ ClosedKept st st2) ∧
    (∀ n fp ft lc wc cc ch rs sid st2,
      record_content_measurement st now n fp ft lc wc cc ch rs sid = .ok st2 →
        DimsInv st2 ∧ ClosedKept st st2) ∧
    (DimsInv (import_state_json st now snap) ∧
      ClosedKept st (import_state_json st now snap)) := by
  obtain ⟨hsrc, hskl, hpg⟩ := hinv
  refine ⟨⟨⟨?_, ?_, ?_⟩, ?_, ?_, ?_⟩, ⟨⟨hsrc, hskl, ?_⟩, ?_, ?_, ?_⟩,
    ?_, ?_, ?_, ?_, ?_, ?_⟩
  · exact uniqueCurrentSrc_syncFold now cfg.sources hsrc
  · exact uniqueCurrentSkl_syncFold now cfg.skills hskl
  · exact uniqueCurrentPg_ensureFold now (pageCalls cfg.sources) hpg
  · intro r hr hc
    exact closedSrc_mem_syncFold now cfg.sources hr hc
  · intro r hr hc
    exact closedSkl_mem_syncFold now cfg.skills hr hc
  · intro p hp _
    exact mem_ensurePages now (pageCalls cfg.sources) hp
  · exact uniqueCurrentPg_ensure now k u hpg
  · intro r hr _
    exact hr
  · intro r hr _
    exact hr
  · intro p hp _
    exact mem_ensurePage now k u hp
  · intro n lm etag ch rs sid st2 h
    cases hkc : getSourceKey st n with
    | none => simp [record_watermark_check, hkc] at h
    | some sk =>
      simp only [record_watermark_check, hkc, Except.ok.injEq] at h
      subst h
      exact ⟨⟨hsrc, hskl, hpg⟩, fun r hr _ => hr, fun r hr _ => hr,
        fun p hp _ => hp⟩
  · intro n cl oh nh sm cp pu chh cc rs sid st2 h
    cases hkc : getSourceKey st n with
    | none => simp [record_change, hkc] at h
    | some sk =>
      simp only [record_change, hkc, Except.ok.injEq] at h
      subst h
      rcases pu with _ | u2
      · exact ⟨⟨hsrc, hskl, hpg⟩, fun r hr _ => hr, fun r hr _ => hr,
          fun p hp _ => hp⟩
      · by_cases hu : (u2 != "") = true
        · simp only [hu, if_true]
          exact ⟨⟨hsrc, hskl, uniqueCurrentPg_ensure now sk u2 hpg⟩,
            fun r hr _ => hr, fun r hr _ => hr,
            fun p hp _ => mem_ensurePage now sk u2 hp⟩
        · simp only [Bool.eq_false_iff.mpr hu, Bool.false_eq_true, if_false]
          exact ⟨⟨hsrc, hskl, hpg⟩, fun r hr _ => hr, fun r hr _ => hr,
            fun p hp _ => hp⟩
  · intro n iv errs warns tt rs sid st2 h
    cases hkc : getSkillKey st n with
    | none => simp [record_validation, hkc] at h
    | some sk =>
      simp only [record_validation, hkc, Except.ok.injEq] at h
      subst h
      exact ⟨⟨hsrc, hskl, hpg⟩, fun r hr _ => hr, fun r hr _ => hr,
        fun p hp _ => hp⟩
  · intro n mode status ca bp rs sid st2 h
    cases hkc : getSkillKey st n with
    | none => simp [record_update_attempt, hkc] at h
    | some sk =>
      simp only [record_update_attempt, hkc, Except.ok.injEq] at h
      subst h
      exact ⟨⟨hsrc, hskl, hpg⟩, fun r hr _ => hr, fun r hr _ => hr,
        fun p hp _ => hp⟩
  · intro n fp ft lc wc cc ch rs sid st2 h
    cases hkc : getSkillKey st n with
    | none => simp [record_content_measurement, hkc] at h
    | some sk =>
      simp only [record_content_measurement, hkc, Except.ok.injEq] at h
      subst h
      exact ⟨⟨hsrc, hskl, hpg⟩, fun r hr _ => hr, fun r hr _ => hr,
        fun p hp _ => hp⟩
  · have hd := import_dims st now snap
    refine ⟨⟨?_, ?_, ?_⟩, ?_, ?_, ?_⟩
    · rw [hd.1]
      exact hsrc
    · rw [hd.2.1]
      exact hskl
    · exact hd.2.2.1 hpg
    · intro r hr _
      rw [hd.1]
      exact hr
    · intro r hr _
      rw [hd.2.1]
      exact hr
    · intro p hp _
      exact hd.2.2.2 p hp

/-- Witness for C8: the empty store with a one-source configuration. -/
theorem c8_single_current_row_invariant_witness :
    DimsInv (syncDimensions
      { sources := [("docs-a",
          { type := some "docs", llms_full_url := some "https://x/llms.txt" })] }
      0 emptyStore) := by
  have hempty : DimsInv emptyStore := by
    refine ⟨?_, ?_, ?_⟩ <;>
      · intro hk
        refine ⟨by simp [emptyStore], ?_⟩
        rintro ⟨r, hr, -⟩
        exact absurd hr (List.not_mem_nil r)
  exact (c8_single_current_row_invariant emptyStore
    { sources := [("docs-a",
        { type := some "docs", llms_full_url := some "https://x/llms.txt" })] }
    0 { docs := [], sources := [] } [] "" hempty).1.1

/-- Claim C6: `identify_changes` returns exactly one change entry per
considered unit whose fingerprint differs from the stored hash, carrying old
and new content; a watched unit absent from the parsed bundle yields no
entry and no error; an empty bundle yields an empty change list. -/
theorem c6_identify_changes_exact (text : String) (watched : List String)
    (stored : List (String × StoredPage)) (u : String) (_hu : u ∈ watched)
    (habsent : (parse_llms_full text).find? (fun p => p.1 == u) = none) :
    (∀ w s, identify_changes "" w s = []) ∧
    ((identify_changes text watched stored).map
        (fun e => (e.url, e.old_hash, e.new_hash, e.old_content, e.new_content)) =
      ((if watched.isEmpty then parse_llms_full text
        else (parse_llms_full text).filter (fun p => watched.contains p.1)).filter
          (fun p => sha256 p.2 != (lookupStored stored p.1).hash)).map
        (fun p => (p.1, (lookupStored stored p.1).hash, sha256 p.2,
                   (lookupStored stored p.1).content_preview, p.2))) ∧
    (∀ e ∈ identify_changes text watched stored, e.url ≠ u) ∧
    parse_llms_full "# T\nSource: https://ex/a\nhello" =
      [("https://ex/a", "hello")] := by
  have hParseEmpty : parse_llms_full "" = [] := rfl
  have hmain : ∀ ps : List (String × String),
      (ps.filterMap (fun p =>
        let page_hash := sha256 p.2
        let old := lookupStored stored p.1
        if page_hash != old.hash then
          some ({ url := p.1, old_hash := old.hash, new_hash := page_hash,
                  old_content := old.content_preview, new_content := p.2,
                  content_preview := p.2.take 3000 } : PageChange)
        else none)).map
          (fun e : PageChange =>
            (e.url, e.old_hash, e.new_hash, e.old_content, e.new_content)) =
      (ps.filter (fun p => sha256 p.2 != (lookupStored stored p.1).hash)).map
        (fun p => (p.1, (lookupStored stored p.1).hash, sha256 p.2,
                   (lookupStored stored p.1).content_preview, p.2)) := by
    intro ps
    induction ps with
    | nil => rfl
    | cons p t ih =>
      by_cases hc : (sha256 p.2 != (lookupStored stored p.1).hash) = true
      · simp only [List.filterMap_cons, List.filter_cons, hc, if_true,
          List.map_cons]
        rw [ih]
      · have hc' : (sha256 p.2 != (lookupStored stored p.1).hash) = false :=
          Bool.eq_false_iff.mpr hc
        simp only [List.filterMap_cons, List.filter_cons, hc']
        exact ih
  have hclause2 : (identify_changes text watched stored).map
        (fun e => (e.url, e.old_hash, e.new_hash, e.old_content, e.new_content)) =
      ((if watched.isEmpty then parse_llms_full text
        else (parse_llms_full text).filter (fun p => watched.contains p.1)).filter
          (fun p => sha256 p.2 != (lookupStored stored p.1).hash)).map
        (fun p => (p.1, (lookupStored stored p.1).hash, sha256 p.2,
                   (lookupStored stored p.1).content_preview, p.2)) :=
    hmain (if watched.isEmpty then parse_llms_full text
      else (parse_llms_full text).filter (fun p => watched.contains p.1))
  refine ⟨?_, hclause2, ?_, by decide⟩
  · intro w s
    simp [identify_changes, hParseEmpty]
  · intro e he
    have hmem1 : (e.url, e.old_hash, e.new_hash, e.old_content, e.new_content) ∈
        (identify_changes text watched stored).map
          (fun x => (x.url, x.old_hash, x.new_hash, x.old_content, x.new_content)) :=
      List.mem_map_of_mem _ he
    rw [hclause2] at hmem1
    rcases List.mem_map.mp hmem1 with ⟨p, hpfil, hptup⟩
    have hp1 : p.1 = e.url := congrArg (fun t => t.1) hptup
    have hpages : p ∈ parse_llms_full text := by
      have hpin := (List.mem_filter.mp hpfil).1
      by_cases hw : watched.isEmpty
      · rw [if_pos hw] at hpin
        exact hpin
      · rw [if_neg hw] at hpin
        exact (List.mem_filter.mp hpin).1
    have hfind := List.find?_eq_none.mp habsent p hpages
    intro hne
    rw [← hp1] at hne
    rw [hne] at hfind
    simp at hfind

/-- Witness for C6: the spec's one-page bundle, with a watched unit that the
bundle does not contain. -/
theorem c6_identify_changes_exact_witness :
    parse_llms_full "# T\nSource: https://ex/a\nhello" =
      [("https://ex/a", "hello")] :=
  (c6_identify_changes_exact "# T\nSource: https://ex/a\nhello"
    ["https://ex/b"] [] "https://ex/b" (by decide) (by decide)).2.2.2

/-- Claim C9: when the bundle fetch of the identify step fails, the docs
orchestrator records exactly one ERROR-classified change fact for the source
(no page key, empty hashes), returns a single ERROR entry instead of
propagating the exception, and persists no per-page change fact in that
round (the watermark-check fact of the detect layer is also recorded, as on
every round). -/
theorem c9_fetch_failure_contained (st : StoreState) (now : Nat)
    (nowIso : String) (name : String) (cfg : SourceCfg) (probe : ProbeResult)
    (e : String) (localFile : Option String) (k : Key) (u : String)
    (hurl : cfg.llms_full_url = some u) (hu : u ≠ "")
    (hk : getSourceKey st name = some k)
    (hch : (detect_change probe (storedWatermarkOf st name) nowIso).1 = true) :
    check_source st now nowIso name cfg probe (.fail e) localFile =
      .ok
        ({ st with
            fact_watermark_check := st.fact_watermark_check ++
              [{ source_key := k, checked_at := now,
                 last_modified := (detect_change probe (storedWatermarkOf st name) nowIso).2.last_modified,
                 etag := (detect_change probe (storedWatermarkOf st name) nowIso).2.etag,
                 changed := true, inserted_at := now,
                 record_source := "docs_monitor", session_id := none }],
            fact_change := st.fact_change ++
              [{ source_key := k, page_key := none, detected_at := now,
                 classification := "ERROR", old_hash := "", new_hash := "",
                 summary := "fetch failed: " ++ e, content_preview := "",
                 commit_hash := none, commit_count := none,
                 inserted_at := now, record_source := "docs_monitor",
                 session_id := none }] },
         [{ source := name, url := u, classification := "ERROR",
            old_hash := "", new_hash := "",
            summary := "fetch failed: " ++ e }]) := by
  have hbundle : optStr cfg.llms_full_url = u := by
    rw [hurl]
    rfl
  have hbne : (u != "") = true := bne_iff_ne.mpr hu
  have hk1 : getSourceKey
      { st with fact_watermark_check := st.fact_watermark_check ++
          [{ source_key := k, checked_at := now,
             last_modified := (detect_change probe (storedWatermarkOf st name) nowIso).2.last_modified,
             etag := (detect_change probe (storedWatermarkOf st name) nowIso).2.etag,
             changed := true,
             inserted_at := now, record_source := "docs_monitor",
             session_id := none }] } name = some k := hk
  unfold check_source
  rw [hbundle]
  simp only [hbne, if_true, record_watermark_check, hk, hch, Bool.not_true,
    Bool.false_eq_true, if_false, record_change, hk1, Bind.bind, Except.bind]
  rfl

/-- Witness for C9: a one-source store whose probe fails (hence changed) and
whose bundle fetch times out. -/
theorem c9_fetch_failure_contained_witness :
    check_source
      (syncDimensions
        { sources := [("docs-a",
            { type := some "docs", llms_full_url := some "https://x/llms.txt" })] }
        0 emptyStore)
      1 "t1" "docs-a"
      { type := some "docs", llms_full_url := some "https://x/llms.txt" }
      .fail (.fail "timeout") none =
    .ok
      ({ syncDimensions
          { sources := [("docs-a",
              { type := some "docs", llms_full_url := some "https://x/llms.txt" })] }
          0 emptyStore with
          fact_watermark_check :=
            [{ source_key := ["docs-a"], checked_at := 1, last_modified := "",
               etag := "", changed := true, inserted_at := 1,
               record_source := "docs_monitor", session_id := none }],
          fact_change :=
            [{ source_key := ["docs-a"], page_key := none, detected_at := 1,
               classification := "ERROR", old_hash := "", new_hash := "",
               summary := "fetch failed: " ++ "timeout", content_preview := "",
               commit_hash := none, commit_count := none, inserted_at := 1,
               record_source := "docs_monitor", session_id := none }] },
       [{ source := "docs-a", url := "https://x/llms.txt",
          classification := "ERROR", old_hash := "", new_hash := "",
          summary := "fetch failed: " ++ "timeout" }]) := by
  have h := c9_fetch_failure_contained
    (syncDimensions
      { sources := [("docs-a",
          { type := some "docs", llms_full_url := some "https://x/llms.txt" })] }
      0 emptyStore)
    1 "t1" "docs-a"
    { type := some "docs", llms_full_url := some "https://x/llms.txt" }
    .fail "timeout" none ["docs-a"] "https://x/llms.txt"
    rfl (by decide) (by decide) rfl
  exact h

/-- Claim C10 (implicit): `get_file_hash` returns the `new_hash` of the most
recent NULL-page `fact_change` row with no classification filter, so after a
bundle-fetch failure (which records an ERROR change with no page and empty
hashes) newer than the last local-file change, it reports an empty hash
rather than the last recorded file fingerprint, and the next local-file
check treats the unchanged file as changed again.  Concrete run: a docs
source with a bundle URL and a local `hash_file`; round 1 captures the local
file (fingerprint `sha256 "pdfbytes"`); round 2 hits a fetch timeout and
records the ERROR fact. -/
theorem c10_get_file_hash_confounded_by_error :
    (let cfgD : SourceCfg :=
      { type := some "docs", llms_full_url := some "https://x/llms.txt",
        hash_file := some "doc.pdf" }
    let st0 := syncDimensions { sources := [("docs-a", cfgD)] } 0 emptyStore
    let run1 := check_source st0 1 "t1" "docs-a" cfgD (.ok "Wed" "")
      (.ok "") (some "pdfbytes")
    let st1 := ((run1.toOption.map Prod.fst).getD emptyStore)
    let run2 := check_source st1 2 "t2" "docs-a" cfgD .fail
      (.fail "timeout") (some "pdfbytes")
    let st2 := ((run2.toOption.map Prod.fst).getD emptyStore)
    run1.toOption.isSome = true ∧ run2.toOption.isSome = true ∧
    -- round 1 really recorded the local-file fingerprint, with no page key
    (st1.fact_change.map (fun f => (f.classification, f.page_key, f.new_hash)) =
      [("ADDITIVE", none, sha256 "pdfbytes")]) ∧
    -- the ERROR fact of round 2 is newer and also has no page key
    (st2.fact_change.map (fun f => (f.classification, f.page_key, f.new_hash, f.detected_at)) =
      [("ADDITIVE", none, sha256 "pdfbytes", 1), ("ERROR", none, "", 2)]) ∧
    -- so get_file_hash now reports the empty ERROR hash, not the fingerprint
    ((get_file_hash st2 "docs-a").map (fun f => (f.classification, f.new_hash)) =
      some ("ERROR", "")) ∧
    sha256 "pdfbytes" ≠ "" ∧
    -- and the next local-file check reports the unchanged file as changed
    (check_local_file "doc.pdf" (some "pdfbytes")
        (((get_file_hash st2 "docs-a").map (fun f => f.new_hash)).getD "")).isSome
      = true) := by
  decide

/-- Counterexample to Claim C1 as stated: the `_hash_diff` fingerprint
`"source_type=T|url=U"` is not injective in the pair of descriptive
attributes, so two configurations whose source attributes (type and url)
both differ can collide on the fingerprint; the second sync then closes no
row and opens no row — it is a pure verified-timestamp touch — contradicting
the close-exactly-one/open-exactly-one clause. -/
theorem c1_fingerprint_collision_counterexample :
    cfgSourceType { type := some "x|url=y", llms_full_url := some "z" } ≠
      cfgSourceType { type := some "x", llms_full_url := some "y|url=z" } ∧
    cfgUrl { type := some "x|url=y", llms_full_url := some "z" } ≠
      cfgUrl { type := some "x", llms_full_url := some "y|url=z" } ∧
    cfgSrcDiff { type := some "x|url=y", llms_full_url := some "z" } =
      cfgSrcDiff { type := some "x", llms_full_url := some "y|url=z" } ∧
    syncSourcesDim 2
        [("s", { type := some "x", llms_full_url := some "y|url=z" })]
        (syncSourcesDim 1
          [("s", { type := some "x|url=y", llms_full_url := some "z" })] []) =
      touchSources 2 (hash_key1 "s")
        (syncSourcesDim 1
          [("s", { type := some "x|url=y", llms_full_url := some "z" })] []) ∧
    (syncSourcesDim 2
        [("s", { type := some "x", llms_full_url := some "y|url=z" })]
        (syncSourcesDim 1
          [("s", { type := some "x|url=y", llms_full_url := some "z" })] [])).filter
        (fun r => !r.is_current) = [] ∧
    (syncSourcesDim 2
        [("s", { type := some "x", llms_full_url := some "y|url=z" })]
        (syncSourcesDim 1
          [("s", { type := some "x|url=y", llms_full_url := some "z" })] [])).length
      = 1 :=
  ⟨by decide, by decide, rfl, rfl, rfl, rfl⟩

/-- Claim C1 (corrected): dimension sync is idempotent — re-syncing the
identical configuration maps every current `dim_source`/`dim_skill` row of a
configured key to the same row with only `last_verified_at` touched, and
leaves `dim_page` and `skill_source_dep` exactly as they were, adding no
rows anywhere; and when exactly one source's content *fingerprint*
`_hash_diff` (strengthened from "descriptive attributes": the fingerprint is
not injective in them, see `c1_fingerprint_collision_counterexample`)
differs between two syncs, the second sync closes exactly one old
`dim_source` row, opens exactly one new current row for that key, at most
touches `last_verified_at` on the other configured keys' current rows, and
leaves every other row unchanged. -/
theorem c1_dimension_sync_scd (st : StoreState) (cfg : Config)
    (now1 now2 : Nat) (l1 l2 : List (String × SourceCfg))
    (n0 : String) (c0 c0' : SourceCfg)
    (hndS : (cfg.sources.map Prod.fst).Nodup)
    (hndK : (cfg.skills.map Prod.fst).Nodup)
    (hsrc : cfg.sources = l1 ++ (n0, c0) :: l2)
    (hdf : cfgSrcDiff c0 ≠ cfgSrcDiff c0')
    (hinv : UniqueCurrentSrc st.dim_source) :
    ((syncDimensions cfg now2 (syncDimensions cfg now1 st)).dim_source =
        (syncDimensions cfg now1 st).dim_source.map
          (touchIfSrc now2 (srcKeysOf cfg.sources)) ∧
      (syncDimensions cfg now2 (syncDimensions cfg now1 st)).dim_skill =
        (syncDimensions cfg now1 st).dim_skill.map
          (touchIfSkl now2 (sklKeysOf cfg.skills)) ∧
      (syncDimensions cfg now2 (syncDimensions cfg now1 st)).dim_page =
        (syncDimensions cfg now1 st).dim_page ∧
      (syncDimensions cfg now2 (syncDimensions cfg now1 st)).skill_source_dep =
        (syncDimensions cfg now1 st).skill_source_dep) ∧
    syncSourcesDim now2 (l1 ++ (n0, c0') :: l2)
        (syncSourcesDim now1 cfg.sources st.dim_source) =
      (syncSourcesDim now1 cfg.sources st.dim_source).map
          (scdCloseTouch now2 (hash_key1 n0) (srcKeysOf l1) (srcKeysOf l2)) ++
        [newSourceRow now2 n0 c0'] ∧
    ((syncSourcesDim now1 cfg.sources st.dim_source).map
        (scdCloseTouch now2 (hash_key1 n0) (srcKeysOf l1) (srcKeysOf l2))).countP
        (fun r => !r.is_current) =
      (syncSourcesDim now1 cfg.sources st.dim_source).countP
        (fun r => !r.is_current) + 1 ∧
    ((syncSourcesDim now1 cfg.sources st.dim_source).map
        (scdCloseTouch now2 (hash_key1 n0) (srcKeysOf l1) (srcKeysOf l2)) ++
      [newSourceRow now2 n0 c0']).filter (curSrc (hash_key1 n0)) =
      [newSourceRow now2 n0 c0'] ∧
    ∀ r : SourceRow, r.hash_key ≠ hash_key1 n0 →
      ¬ r.hash_key ∈ srcKeysOf l1 → ¬ r.hash_key ∈ srcKeysOf l2 →
      scdCloseTouch now2 (hash_key1 n0) (srcKeysOf l1) (srcKeysOf l2) r = r := by
  have hall : ∀ nc ∈ cfg.sources, FindDiffSrc (hash_key1 nc.1) (cfgSrcDiff nc.2)
      (syncSourcesDim now1 cfg.sources st.dim_source) :=
    syncSourcesDim_estab now1 cfg.sources hndS st.dim_source
  have hinv1 : UniqueCurrentSrc (syncSourcesDim now1 cfg.sources st.dim_source) :=
    uniqueCurrentSrc_syncFold now1 cfg.sources hinv
  have hndS' : (l1.map Prod.fst ++ n0 :: l2.map Prod.fst).Nodup := by
    have h := hndS
    rw [hsrc, List.map_append, List.map_cons] at h
    exact h
  rcases List.nodup_append.mp hndS' with ⟨hnd1, hndc, hdisj⟩
  rcases List.nodup_cons.mp hndc with ⟨hn0l2, hnd2⟩
  have hn0l1 : ¬ n0 ∈ l1.map Prod.fst :=
    fun h => hdisj h (List.mem_cons_self _ _)
  have hdisj' : ∀ a ∈ l1.map Prod.fst, ¬ a ∈ l2.map Prod.fst :=
    fun a ha hb => hdisj ha (List.mem_cons_of_mem n0 hb)
  have hall1 : ∀ nc ∈ l1, FindDiffSrc (hash_key1 nc.1) (cfgSrcDiff nc.2)
      (syncSourcesDim now1 cfg.sources st.dim_source) :=
    fun nc hnc => hall nc (by rw [hsrc]; exact List.mem_append_left _ hnc)
  have hall0 : FindDiffSrc (hash_key1 n0) (cfgSrcDiff c0)
      (syncSourcesDim now1 cfg.sources st.dim_source) :=
    hall (n0, c0)
      (by rw [hsrc]; exact List.mem_append_right _ (List.mem_cons_self _ _))
  have hall2 : ∀ nc ∈ l2, FindDiffSrc (hash_key1 nc.1) (cfgSrcDiff nc.2)
      (syncSourcesDim now1 cfg.sources st.dim_source) :=
    fun nc hnc => hall nc (by
      rw [hsrc]
      exact List.mem_append_right _ (List.mem_cons_of_mem _ hnc))
  refine ⟨⟨?_, ?_, ?_, ?_⟩, ?_, ?_, ?_, ?_⟩
  · show syncSourcesDim now2 cfg.sources
        (syncSourcesDim now1 cfg.sources st.dim_source) =
      (syncSourcesDim now1 cfg.sources st.dim_source).map
        (touchIfSrc now2 (srcKeysOf cfg.sources))
    exact syncSourcesDim_touch_round now2 cfg.sources _ hndS hall
  · show syncSkillsDim now2 cfg.skills
        (syncSkillsDim now1 cfg.skills st.dim_skill) =
      (syncSkillsDim now1 cfg.skills st.dim_skill).map
        (touchIfSkl now2 (sklKeysOf cfg.skills))
    exact syncSkillsDim_touch_round now2 cfg.skills _ hndK
      (syncSkillsDim_estab now1 cfg.skills hndK st.dim_skill)
  · show ensurePages now2 (pageCalls cfg.sources)
        (ensurePages now1 (pageCalls cfg.sources) st.dim_page) =
      ensurePages now1 (pageCalls cfg.sources) st.dim_page
    exact ensurePages_idem now1 now2 (pageCalls cfg.sources) st.dim_page
  · show ensureDeps now2 (depCalls cfg.skills)
        (ensureDeps now1 (depCalls cfg.skills) st.skill_source_dep) =
      ensureDeps now1 (depCalls cfg.skills) st.skill_source_dep
    exact ensureDeps_idem now1 now2 (depCalls cfg.skills) st.skill_source_dep
  · exact scd_round now2 l1 l2 n0 c0 c0'
      (syncSourcesDim now1 cfg.sources st.dim_source)
      hnd1 hnd2 hn0l1 hn0l2 hdisj' hdf hall1 hall0 hall2
  · have hdisjPQ : ∀ r ∈ syncSourcesDim now1 cfg.sources st.dim_source,
        ¬((!r.is_current) = true ∧ curSrc (hash_key1 n0) r = true) := by
      intro r _ hpq
      obtain ⟨hp, hq⟩ := hpq
      have hfalse : r.is_current = false := by simpa using hp
      have hq' := hq
      unfold curSrc at hq'
      simp only [Bool.and_eq_true] at hq'
      rw [hfalse] at hq'
      exact Bool.false_ne_true hq'.2
    have h1 : ((syncSourcesDim now1 cfg.sources st.dim_source).map
        (scdCloseTouch now2 (hash_key1 n0) (srcKeysOf l1) (srcKeysOf l2))).countP
        (fun r => !r.is_current) =
      (syncSourcesDim now1 cfg.sources st.dim_source).countP
        (fun r => !(scdCloseTouch now2 (hash_key1 n0) (srcKeysOf l1)
          (srcKeysOf l2) r).is_current) :=
      List.countP_map _ _ _
    have h2 : (syncSourcesDim now1 cfg.sources st.dim_source).countP
        (fun r => !(scdCloseTouch now2 (hash_key1 n0) (srcKeysOf l1)
          (srcKeysOf l2) r).is_current) =
      (syncSourcesDim now1 cfg.sources st.dim_source).countP
        (fun r => (!r.is_current) || curSrc (hash_key1 n0) r) :=
      countP_congr_eq _ _ _
        (fun r _ => scd_closed_pointwise now2 (hash_key1 n0)
          (srcKeysOf l1) (srcKeysOf l2) r)
    have h3 : (syncSourcesDim now1 cfg.sources st.dim_source).countP
        (fun r => (!r.is_current) || curSrc (hash_key1 n0) r) =
      (syncSourcesDim now1 cfg.sources st.dim_source).countP
        (fun r => !r.is_current) +
      (syncSourcesDim now1 cfg.sources st.dim_source).countP
        (curSrc (hash_key1 n0)) :=
      countP_or_disjoint _ _ _ hdisjPQ
    have h4 : (syncSourcesDim now1 cfg.sources st.dim_source).countP
        (curSrc (hash_key1 n0)) = 1 := by
      rw [List.countP_eq_length_filter]
      exact filter_length_one_of_findDiff hall0 hinv1
    rw [h1, h2, h3, h4]
  · have hmapnil : ((syncSourcesDim now1 cfg.sources st.dim_source).map
        (scdCloseTouch now2 (hash_key1 n0) (srcKeysOf l1) (srcKeysOf l2))).filter
        (curSrc (hash_key1 n0)) = [] := by
      refine filter_nil_of_false _ _ ?_
      intro x hx
      rcases List.mem_map.mp hx with ⟨r, hr, rfl⟩
      exact scd_curSrc_false now2 (hash_key1 n0) (srcKeysOf l1) (srcKeysOf l2) r
    rw [List.filter_append, hmapnil]
    have hnew : curSrc (hash_key1 n0) (newSourceRow now2 n0 c0') = true :=
      curSrc_newSourceRow now2 n0 c0'
    simp [List.filter_cons, hnew]
  · intro r h0 h1 h2
    exact scdCloseTouch_id now2 (hash_key1 n0) (srcKeysOf l1) (srcKeysOf l2)
      r h0 h1 h2

/-- Witness for C1: a one-source configuration whose source url changes
between the first and the second sync. -/
theorem c1_dimension_sync_scd_witness :
    syncSourcesDim 2 [("s", { llms_full_url := some "v" })]
        (syncSourcesDim 1 [("s", { llms_full_url := some "u" })] []) =
      (syncSourcesDim 1 [("s", { llms_full_url := some "u" })] []).map
          (scdCloseTouch 2 (hash_key1 "s") (srcKeysOf []) (srcKeysOf [])) ++
        [newSourceRow 2 "s" { llms_full_url := some "v" }] :=
  (c1_dimension_sync_scd emptyStore
    { sources := [("s", { llms_full_url := some "u" })], skills := [] }
    1 2 [] [] "s" { llms_full_url := some "u" } { llms_full_url := some "v" }
    (by decide) (by decide) rfl (by decide)
    (by
      intro hk
      refine ⟨by simp [emptyStore], ?_⟩
      rintro ⟨r, hr, -⟩
      exact absurd hr (List.not_mem_nil r))).2.1

/-- Counterexample to Claim C3 as stated: a reachable store whose only
recorded Change is the ERROR fact `check_source` records on a failed bundle
fetch (empty `new_hash`, NULL page key) exports a local-file fingerprint of
`""`; `import_state_json` drops empty hashes, so re-exporting after the
round trip yields `none` instead — the per-local-file latest fingerprints
differ even though the source holds one recorded Change. -/
theorem c3_empty_fingerprint_counterexample :
    (check_source
        (syncDimensions
            { sources :=
                [("s", { type := some "docs", llms_full_url := some "u" })],
              skills := [] }
            0 emptyStore)
        1 "t1" "s" { type := some "docs", llms_full_url := some "u" }
        .fail (.fail "down") none).isOk = true ∧
    (((check_source
        (syncDimensions
            { sources :=
                [("s", { type := some "docs", llms_full_url := some "u" })],
              skills := [] }
            0 emptyStore)
        1 "t1" "s" { type := some "docs", llms_full_url := some "u" }
        .fail (.fail "down") none).toOption.getD
          (emptyStore, [])).1).fact_change.length = 1 ∧
    fileHashLookup (export_state_json
      (((check_source
        (syncDimensions
            { sources :=
                [("s", { type := some "docs", llms_full_url := some "u" })],
              skills := [] }
            0 emptyStore)
        1 "t1" "s" { type := some "docs", llms_full_url := some "u" }
        .fail (.fail "down") none).toOption.getD
          (emptyStore, [])).1)) "s" = some "" ∧
    fileHashLookup (export_state_json (import_state_json
      (syncDimensions
          { sources :=
              [("s", { type := some "docs", llms_full_url := some "u" })],
            skills := [] }
          0 emptyStore)
      2 (export_state_json
        (((check_source
          (syncDimensions
              { sources :=
                  [("s", { type := some "docs", llms_full_url := some "u" })],
                skills := [] }
              0 emptyStore)
          1 "t1" "s" { type := some "docs", llms_full_url := some "u" }
          .fail (.fail "down") none).toOption.getD
            (emptyStore, [])).1)))) "s" = none :=
  ⟨rfl, rfl, rfl, rfl⟩

/-- Claim C3 (corrected): the export → import-into-fresh-store → export
round trip reproduces the latest fingerprint of every page unit, every
local file and every source repository — *provided no exported fingerprint
is the empty string* (strengthened from the unconditional claim: an ERROR
change with an empty hash as a source's latest null-page fact is exported
but dropped by the import, see `c3_empty_fingerprint_counterexample`).
The well-formedness hypotheses (surrogate keys of the natural-key form,
single-current-row invariants, a fresh store carrying the same current
docs/repo source names and no facts) hold for every store populated by
`_sync_dimensions`, `_ensure_page` and the `record_*` methods.
Timestamps may differ; only hashes are compared. -/
theorem c3_export_import_roundtrip (st fresh : StoreState) (now : Nat)
    (hfc : fresh.fact_change = [])
    (hfw : fresh.fact_watermark_check = [])
    (hWKs : ∀ r ∈ st.dim_source, r.hash_key = [r.source_name])
    (hWKp : ∀ p ∈ st.dim_page, p.hash_key = p.source_key ++ [p.url])
    (hWKsf : ∀ r ∈ fresh.dim_source, r.hash_key = [r.source_name])
    (hWKpf : ∀ p ∈ fresh.dim_page, p.hash_key = p.source_key ++ [p.url])
    (hinvS : UniqueCurrentSrc st.dim_source)
    (hinvSf : UniqueCurrentSrc fresh.dim_source)
    (hdocsSub : ∀ n, (∃ r ∈ docsCurrentSources st, r.source_name = n) →
      ∃ r ∈ docsCurrentSources fresh, r.source_name = n)
    (hrepoSub : ∀ n, (∃ r ∈ repoCurrentSources st, r.source_name = n) →
      ∃ r ∈ repoCurrentSources fresh, r.source_name = n)
    (hpg : ∀ e ∈ (export_state_json st).docs, ∀ p ∈ e.2.pages,
      ¬ p.hash = "")
    (hfhne : ∀ e ∈ (export_state_json st).docs, ∀ hv,
      e.2.file_hash = some hv → ¬ hv.1 = "")
    (hrpne : ∀ e ∈ (export_state_json st).sources,
      (e.2.2.1 != "" || e.2.2.2 != 0) = true) :
    ∀ name url,
      pageHashLookup (export_state_json (import_state_json fresh now
        (export_state_json st))) name url =
        pageHashLookup (export_state_json st) name url ∧
      fileHashLookup (export_state_json (import_state_json fresh now
        (export_state_json st))) name =
        fileHashLookup (export_state_json st) name ∧
      repoLookup (export_state_json (import_state_json fresh now
        (export_state_json st))) name =
        repoLookup (export_state_json st) name := by
  refine snapshot_roundtrip fresh now (export_state_json st) hfc hfw hWKsf
    hWKpf ?_ ?_ hpg ?_ hfhne hrpne ?_ ?_ ?_
  · exact export_docs_names_nodup st hWKs hinvS
  · exact export_sources_names_nodup st hWKs hinvS
  · exact export_pages_uniform st hWKs hWKp
  · intro e he
    exact hdocsSub e.1 (export_docs_entry st e he).2.2
  · intro e he
    exact hrepoSub e.1 (export_sources_entry st e he).2
  · intro nd m hd hr heq
    rcases hd with ⟨r1, hr1, hn1⟩
    rcases hr with ⟨r2, hr2, hn2⟩
    unfold docsCurrentSources at hr1
    unfold repoCurrentSources at hr2
    have hp1 := (List.mem_filter.mp hr1).2
    have hp2 := (List.mem_filter.mp hr2).2
    simp only [Bool.and_eq_true, beq_iff_eq] at hp1 hp2
    exact docs_repo_names_ne fresh.dim_source hWKsf hinvSf r1
      (List.mem_filter.mp hr1).1 hp1.1 hp1.2 r2 (List.mem_filter.mp hr2).1
      hp2.1 hp2.2 (by rw [hn1, hn2, heq])

/-- Witness for C3: a one-source store holding one page Change with a
nonempty hash; the round trip reproduces the page fingerprint. -/
theorem c3_export_import_roundtrip_witness :
    pageHashLookup (export_state_json (import_state_json
      (syncDimensions
          { sources :=
              [("s", { type := some "docs", llms_full_url := some "u" })],
            skills := [] }
          0 emptyStore)
      2 (export_state_json
        ((record_change (syncDimensions
              { sources :=
                  [("s", { type := some "docs", llms_full_url := some "u" })],
                skills := [] }
              0 emptyStore) 1 "s" "ADDITIVE" "" "h1" "sum" ""
          (some "p1") none none "docs_monitor" none).toOption.getD
            emptyStore)))) "s" "p1" =
    pageHashLookup (export_state_json
      ((record_change (syncDimensions
            { sources :=
                [("s", { type := some "docs", llms_full_url := some "u" })],
              skills := [] }
            0 emptyStore) 1 "s" "ADDITIVE" "" "h1" "sum" ""
        (some "p1") none none "docs_monitor" none).toOption.getD
          emptyStore)) "s" "p1" :=
  (c3_export_import_roundtrip
    ((record_change (syncDimensions
          { sources :=
              [("s", { type := some "docs", llms_full_url := some "u" })],
            skills := [] }
          0 emptyStore) 1 "s" "ADDITIVE" "" "h1" "sum" ""
      (some "p1") none none "docs_monitor" none).toOption.getD emptyStore)
    (syncDimensions
        { sources :=
            [("s", { type := some "docs", llms_full_url := some "u" })],
          skills := [] }
        0 emptyStore)
    2 rfl rfl (by decide) (by decide) (by decide) (by decide)
    (uniqueCurrentSrc_singleton _ (by decide))
    (uniqueCurrentSrc_singleton _ (by decide))
    (fun n h => h) (fun n h => h)
    (by decide)
    (by
      intro e he hv heq
      rcases List.mem_singleton.mp he with rfl
      exact Option.noConfusion heq)
    (by decide) "s" "p1").1

end SkillMaintainer
